import Mathlib

/-!
Verification of the `choo` train-graph library against its specification.

The development shallowly embeds the TypeScript sources:
  * `src/helper/maps.ts`   (CountSet, PairSet, PairMap)
  * `src/helper/array.ts`  (arrayContainsSub)
  * `src/tg.ts`            (TrainGraphImpl)
  * `src/graph-helpers.ts` (splitEdge, moveSlice, addDescribedSlice, cloneSlice)
  * `src/component.ts`     (ComponentGraph, DivisionComponentGraphInternal,
                            DivisionGraphImpl)

JavaScript `Map` / `Set` objects are modelled as insertion-ordered association
lists, so that iteration order (which the code exposes through `choices`,
`uniques()` and event replay) is captured faithfully.  Node and slice keys are
modelled as `Nat`.  JavaScript numbers that the code checks to be integers are
modelled as `Int`.  Exceptions thrown by the code are modelled with `Except`:
an `.error` value corresponds to a thrown JS exception.
-/

/-! ## Association-list model of insertion-ordered JS `Map` -/

/-- Lookup in an insertion-ordered association list (JS `Map.get`). -/
def alookup {κ : Type} [DecidableEq κ] {α : Type} : List (κ × α) → κ → Option α
  | [], _ => none
  | (k, v) :: rest, key => if k = key then some v else alookup rest key

/-- Update-or-append (JS `Map.set`): an existing key keeps its position,
a new key is appended at the end. -/
def aset {κ : Type} [DecidableEq κ] {α : Type} : List (κ × α) → κ → α → List (κ × α)
  | [], k, v => [(k, v)]
  | (k', v') :: rest, k, v =>
    if k' = k then (k, v) :: rest else (k', v') :: aset rest k v

/-- Removal (JS `Map.delete`). -/
def adel {κ : Type} [DecidableEq κ] {α : Type} (m : List (κ × α)) (k : κ) : List (κ × α) :=
  m.filter (fun p => p.1 ≠ k)

/-! ## JS `Set` as an insertion-ordered duplicate-free list -/

/-- JS `Set.add`. -/
def sAdd {κ : Type} [DecidableEq κ] (s : List κ) (k : κ) : List κ :=
  if k ∈ s then s else s ++ [k]

/-- JS `Set.delete`. -/
def sDel {κ : Type} [DecidableEq κ] (s : List κ) (k : κ) : List κ :=
  s.filter (fun x => x ≠ k)

/-! ## `CountSet` from `src/helper/maps.ts`: a multiset as key/count pairs -/

/-- `CountSet.add`: increment the count, or append a fresh entry. -/
def csAdd {κ : Type} [DecidableEq κ] : List (κ × Nat) → κ → List (κ × Nat)
  | [], t => [(t, 1)]
  | (k, c) :: rest, t =>
    if k = t then (k, c + 1) :: rest else (k, c) :: csAdd rest t

/-- `CountSet.delete`: decrement the count, dropping the entry at zero.
Absent keys are left untouched (the JS method then returns `false`). -/
def csDel {κ : Type} [DecidableEq κ] : List (κ × Nat) → κ → List (κ × Nat)
  | [], _ => []
  | (k, c) :: rest, t =>
    if k = t then (if c = 1 then rest else (k, c - 1) :: rest)
    else (k, c) :: csDel rest t

/-- `CountSet.total`: the sum of all counts. -/
def csTotal {κ : Type} (m : List (κ × Nat)) : Nat :=
  m.foldr (fun p acc => p.2 + acc) 0

/-- `CountSet.uniques`: each key once, in insertion order. -/
def csUniques {κ : Type} (m : List (κ × Nat)) : List κ :=
  m.map (fun p => p.1)

/-- `CountSet.has`. -/
def csHas {κ : Type} [DecidableEq κ] (m : List (κ × Nat)) (t : κ) : Bool :=
  m.any (fun p => p.1 = t)

/-! ## `arrayContainsSub` from `src/helper/array.ts` -/

/-- Whether `arr` contains `sub` as a contiguous subarray (`findSubArray !== -1`). -/
def arrayContainsSub {κ : Type} [DecidableEq κ] (arr sub : List κ) : Bool :=
  (List.range (arr.length + 1)).any (fun i => sub.isPrefixOf (arr.drop i))

/-! ## Track-graph data model, from `src/tg.ts`

The TS code shares one mutable `EdgeImpl` object between the two `NodeSideImpl`
records of its endpoints (invariant I1).  We model that sharing with a single
global edge store keyed by the unordered endpoint pair; a node side then only
holds its `through` set. -/

/-- `EdgeImpl`: endpoints as inserted, positive length, and occupant multiset. -/
structure EdgeD where
  low : Nat
  high : Nat
  length : Int
  slices : List (Nat × Nat)
deriving DecidableEq, Repr

/-- `NodeImpl`: `other` maps a neighbour to that side's `through` set;
`slices` is the multiset of slices touching this node. -/
structure NodeD where
  other : List (Nat × List Nat)
  slices : List (Nat × Nat)
deriving DecidableEq, Repr

/-- `SliceImpl`: anchored node path plus the two end offsets and body length. -/
structure SliceD where
  along : List Nat
  front : Int
  back : Int
  length : Int
deriving DecidableEq, Repr

/-- The whole `TrainGraphImpl` state. -/
structure TG where
  nodes : List (Nat × NodeD)
  edges : List ((Nat × Nat) × EdgeD)
  slices : List (Nat × SliceD)
deriving DecidableEq, Repr

/-- The `edge-change` event payload dispatched by `TrainGraphImpl`. -/
structure EdgeEv where
  a : Nat
  b : Nat
  length : Int
deriving DecidableEq, Repr

/-- The empty graph (`new TrainGraphImpl()`). -/
def TG.empty : TG := ⟨[], [], []⟩

/-- Canonical unordered key for the shared edge store. -/
def ekey (a b : Nat) : Nat × Nat := if a ≤ b then (a, b) else (b, a)

/-- `#implicitNode`, read side: a missing node behaves as an empty record. -/
def TG.getNode (tg : TG) (k : Nat) : NodeD :=
  (alookup tg.nodes k).getD ⟨[], []⟩

/-- The shared edge record for the pair `{a, b}` (the TS `side.edge`). -/
def TG.getEdge (tg : TG) (a b : Nat) : EdgeD :=
  (alookup tg.edges (ekey a b)).getD ⟨a, b, 0, []⟩

/-- The `through` set stored on node `t`'s side toward `a` (empty if no side). -/
def TG.throughOf (tg : TG) (t a : Nat) : List Nat :=
  ((alookup (tg.getNode t).other a).getD [])

/-- Whether node `a` has a side toward `b` (i.e. `{a,b}` is an edge from `a`'s view). -/
def TG.sideOf (tg : TG) (a b : Nat) : Option (List Nat) :=
  alookup (tg.getNode a).other b

/-- Replace node `k`'s record. -/
def TG.putNode (tg : TG) (k : Nat) (n : NodeD) : TG :=
  { tg with nodes := aset tg.nodes k n }

/-- `node.slices.add(id)` for node `k`. -/
def TG.addNodeSlice (tg : TG) (k : Nat) (id : Nat) : TG :=
  tg.putNode k { (tg.getNode k) with slices := csAdd (tg.getNode k).slices id }

/-- `node.slices.delete(id)` for node `k`. -/
def TG.delNodeSlice (tg : TG) (k : Nat) (id : Nat) : TG :=
  tg.putNode k { (tg.getNode k) with slices := csDel (tg.getNode k).slices id }

/-- `side.edge.slices.add(id)` for the edge `{a,b}`. -/
def TG.addEdgeSlice (tg : TG) (a b : Nat) (id : Nat) : TG :=
  let e0 := tg.getEdge a b
  { tg with edges := aset tg.edges (ekey a b) { e0 with slices := csAdd e0.slices id } }

/-- `side.edge.slices.delete(id)` for the edge `{a,b}`. -/
def TG.delEdgeSlice (tg : TG) (a b : Nat) (id : Nat) : TG :=
  let e0 := tg.getEdge a b
  { tg with edges := aset tg.edges (ekey a b) { e0 with slices := csDel e0.slices id } }

/-! ## Track-graph operations (`src/tg.ts`) -/

/-- `TrainGraphImpl.addEdge`.  Throws on a non-positive length or a self edge;
returns `false` when the pair already has an edge; otherwise installs the edge
on both sides and emits one `edge-change` event with the new length. -/
def TG.addEdge (tg : TG) (low high : Nat) (len : Int) :
    Except String (Bool × TG × List EdgeEv) :=
  if len ≤ 0 then .error "length must be +ve integer"
  else if low = high then .error "cannot join to self"
  else
    let lowNode := tg.getNode low
    if (alookup lowNode.other high).isSome then .ok (false, tg, [])
    else
      let edge : EdgeD := ⟨low, high, len, []⟩
      let tg1 : TG := { tg with edges := aset tg.edges (ekey low high) edge }
      let tg2 := tg1.putNode low { lowNode with other := aset lowNode.other high [] }
      let highNode := tg2.getNode high
      let tg3 := tg2.putNode high { highNode with other := aset highNode.other low [] }
      .ok (true, tg3, [⟨low, high, len⟩])

/-- `TrainGraphImpl.lookupEdge`: canonical endpoints, length, unique occupants. -/
def TG.lookupEdge (tg : TG) (a b : Nat) :
    Option (Nat × Nat × Int × List Nat) :=
  match tg.sideOf a b with
  | none => none
  | some _ =>
    let edge := tg.getEdge a b
    some (edge.low, edge.high, edge.length, csUniques edge.slices)

/-- `TrainGraphImpl.deleteEdge`.  Refuses (returns `false`) when no edge joins
`a` and `b`, or when the edge's occupant multiset is non-empty.  On success it
drops the shared edge, patches the `through` sets referencing the removed
neighbour on both endpoints, removes both sides, and emits one length-0 event. -/
def TG.deleteEdge (tg : TG) (a b : Nat) : Bool × TG × List EdgeEv :=
  let aNode := tg.getNode a
  match alookup aNode.other b with
  | none => (false, tg, [])
  | some aToBThrough =>
    let edge := tg.getEdge a b
    if csTotal edge.slices ≠ 0 then (false, tg, [])
    else
      let tg1 : TG := { tg with edges := adel tg.edges (ekey a b) }
      let aOther := aToBThrough.foldl
        (fun acc c => match alookup acc c with
          | none => acc
          | some thr => aset acc c (sDel thr b)) aNode.other
      let tg2 := tg1.putNode a { aNode with other := adel aOther b }
      let bNode := tg2.getNode b
      let bToAThrough := (alookup bNode.other a).getD []
      let bOther := bToAThrough.foldl
        (fun acc c => match alookup acc c with
          | none => acc
          | some thr => aset acc c (sDel thr a)) bNode.other
      let tg3 := tg2.putNode b { bNode with other := adel bOther a }
      (true, tg3, [⟨a, b, 0⟩])

/-- `TrainGraphImpl.connect`.  Throws on a non-distinct triple; returns `false`
when either side is missing or the link already exists; otherwise records the
symmetric through link. -/
def TG.connect (tg : TG) (a through b : Nat) : Except String (Bool × TG) :=
  if a = b ∨ through = a ∨ through = b then .error "joins must be unique"
  else
    let throughNode := tg.getNode through
    match alookup throughNode.other a, alookup throughNode.other b with
    | some aThr, some bThr =>
      if b ∈ aThr then .ok (false, tg)
      else
        let other1 := aset throughNode.other a (sAdd aThr b)
        let other2 := aset other1 b (sAdd bThr a)
        .ok (true, tg.putNode through { throughNode with other := other2 })
    | _, _ => .ok (false, tg)

/-- `TrainGraphImpl.disconnect`.  Returns `false` when the link is absent, and
refuses when a slice at `through` runs along `[a, through, b]` (either way).
Note the source performs no distinct-triple validation here. -/
def TG.disconnect (tg : TG) (a through b : Nat) : Except String (Bool × TG) :=
  let throughNode := tg.getNode through
  match alookup throughNode.other a with
  | none => .ok (false, tg)
  | some aThr =>
    if b ∉ aThr then .ok (false, tg)
    else
      let ids := csUniques throughNode.slices
      if ids.any (fun s => ¬ (alookup tg.slices s).isSome) then
        .error "slice lookup failed"
      else if ids.any (fun s =>
          let sl := ((alookup tg.slices s).getD ⟨[], 0, 0, 0⟩)
          arrayContainsSub sl.along [a, through, b] ∨
          arrayContainsSub sl.along [b, through, a]) then
        .ok (false, tg)
      else
        let other1 := aset throughNode.other a (sDel aThr b)
        match alookup other1 b with
        | none => .error "missing symmetric side"
        | some bThr =>
          let other2 := aset other1 b (sDel bThr a)
          .ok (true, tg.putNode through { throughNode with other := other2 })

/-- `TrainGraphImpl.lookupNode`: neighbours with their through lists, occupants. -/
def TG.lookupNode (tg : TG) (atNode : Nat) : List (Nat × List Nat) × List Nat :=
  let node := tg.getNode atNode
  (node.other, csUniques node.slices)

/-- `TrainGraphImpl.addSlice`: seed a zero-length slice on one node. -/
def TG.addSlice (tg : TG) (id : Nat) (onNode : Nat) : Bool × TG :=
  if (alookup tg.slices id).isSome then (false, tg)
  else
    let tg1 : TG := { tg with slices := aset tg.slices id ⟨[onNode], 0, 0, 0⟩ }
    (true, tg1.addNodeSlice onNode id)

/-! ### `modifySlice` internals

The body of `modifySlice` branches on `end === 1` at every field access; we
hoist those branches into small accessors so that the two loops can be written
once, exactly following the source's control flow. -/

/-- The offset at the active end: `front` when `end === 1`, else `back`. -/
def activeOff (e : Int) (sl : SliceD) : Int :=
  if e = 1 then sl.front else sl.back

/-- The offset at the opposite end. -/
def otherOff (e : Int) (sl : SliceD) : Int :=
  if e = 1 then sl.back else sl.front

/-- Write the active-end offset. -/
def setActiveOff (e : Int) (sl : SliceD) (v : Int) : SliceD :=
  if e = 1 then { sl with front := v } else { sl with back := v }

/-- `slice.along.at(end === 1 ? -1 : 0)`: the node at the active end. -/
def activeNodeId (e : Int) (sl : SliceD) : Nat :=
  if e = 1 then (sl.along.getLast?).getD 0 else (sl.along.head?).getD 0

/-- `slice.along.at(end === 1 ? -2 : 1)`: the node one step inside. -/
def prevNodeId (e : Int) (sl : SliceD) : Nat :=
  if e = 1 then (sl.along.dropLast.getLast?).getD 0 else (sl.along.tail.head?).getD 0

/-- Push the chosen neighbour onto the active end and enter its edge fully. -/
def pushChoice (e : Int) (sl : SliceD) (c : Nat) (len : Int) : SliceD :=
  if e = 1 then { sl with along := sl.along ++ [c], front := len }
  else { sl with along := c :: sl.along, back := len }

/-- Pop the active-end node once its edge is fully consumed by a shrink. -/
def popActive (e : Int) (sl : SliceD) : SliceD :=
  if e = 1 then { sl with along := sl.along.dropLast, front := 0 }
  else { sl with along := sl.along.tail, back := 0 }

/-- A `where` callback.  JS callbacks may be stateful; a deterministic
callback is modelled as a pure function of its call index (how many times it
has been invoked before during this `modifySlice` call) and the candidate
list it is shown. -/
def WhereFn : Type := Nat → List Nat → Option Nat

/-- The JS expression `choices.length > 1 && where?.(choices) || choices[0]`.
A `0` key is falsy in JS, so it also falls through to `choices[0]`. -/
def jsChoiceOr (cnt : Nat) (choices : List Nat) (wh : Option WhereFn) :
    Option Nat :=
  let x : Option Nat :=
    if choices.length > 1 then
      match wh with
      | none => none
      | some f => f cnt choices
    else none
  match x with
  | some k => if k = 0 then choices.head? else some k
  | none => choices.head?

/-- Whether the round actually invokes `where` (advancing its call index). -/
def whCalled (choices : List Nat) (wh : Option WhereFn) : Bool :=
  choices.length > 1 ∧ wh.isSome

/-- The edge-consumption opening of one grow round: consume up to `by` of the
room at the active end, and record the node membership when newly abutting.
Returns the updated graph and slice plus the remaining `by`. -/
def growRound (id : Nat) (e : Int) (tg : TG) (sl : SliceD) (b : Int) :
    TG × SliceD × Int :=
  let nodeId := activeNodeId e sl
  let amount := min (activeOff e sl) b
  let sl1 := setActiveOff e sl (activeOff e sl - amount)
  let b1 := b - amount
  let newlyAbutting := amount > 0 ∧ activeOff e sl1 = 0
  let tg1 := if newlyAbutting then tg.addNodeSlice nodeId id else tg
  (tg1, sl1, b1)

/-- The candidate-neighbour list: every neighbour for a single-node slice,
otherwise the `through` set of the side toward the predecessor node. -/
def growChoices (e : Int) (tg : TG) (sl : SliceD) : List Nat :=
  let node := tg.getNode (activeNodeId e sl)
  if sl.along.length = 1 then node.other.map (fun p => p.1)
  else (alookup node.other (prevNodeId e sl)).getD []

/-- The grow loop of `modifySlice` (`for (;;) { ... }`), fuelled.  Each round
first consumes the room left at the active end (via `growRound`), then either
stops (`by === 0`, no candidate, or a `where` answer naming no edge) or pushes
the resolved choice and recurses.  Returns the final state and the unconsumed
remainder of `by`. -/
def growLoop (id : Nat) (e : Int) (wh : Option WhereFn) :
    Nat → Nat → TG → SliceD → Int → Except String (TG × SliceD × Int)
  | 0, _, _, _, _ => .error "grow fuel exhausted"
  | fuel + 1, cnt, tg, sl, b =>
    let r := growRound id e tg sl b
    if r.2.2 < 0 then .error "check by nonneg failed"
    else if r.2.2 = 0 then .ok (r.1, r.2.1, 0)
    else
      let choices := growChoices e r.1 r.2.1
      let cnt1 := if whCalled choices wh then cnt + 1 else cnt
      match jsChoiceOr cnt choices wh with
      | none => .ok (r.1, r.2.1, r.2.2)
      | some choice =>
        match alookup (r.1.getNode (activeNodeId e r.2.1)).other choice with
        | none => .ok (r.1, r.2.1, r.2.2)
        | some _ =>
          let len := (r.1.getEdge (activeNodeId e r.2.1) choice).length
          growLoop id e wh fuel cnt1
            (r.1.addEdgeSlice (activeNodeId e r.2.1) choice id)
            (pushChoice e r.2.1 choice len) r.2.2

/-- One round of the shrink loop: consume up to `by` of the room on the edge
at the active end, pop the end node when the edge is fully vacated, and drop
the node membership when the end was previously abutting.  Returns the updated
graph and slice plus the remaining `by`. -/
def shrinkRound (id : Nat) (e : Int) (tg : TG) (sl : SliceD) (b : Int) :
    TG × SliceD × Int :=
  let nodeId := activeNodeId e sl
  let len := (tg.getEdge nodeId (prevNodeId e sl)).length
  let max0 := len - activeOff e sl
  let max1 := if sl.along.length = 2 then max0 - otherOff e sl else max0
  let wasAbutting := activeOff e sl = 0
  let amount := min max1 b
  let sl1 := setActiveOff e sl (activeOff e sl + amount)
  let st :=
    if activeOff e sl1 = len then
      (tg.delEdgeSlice nodeId (prevNodeId e sl) id, popActive e sl1)
    else (tg, sl1)
  let tg2 := if wasAbutting then st.1.delNodeSlice nodeId id else st.1
  (tg2, st.2, b - amount)

/-- The shrink loop of `modifySlice` (`while (by > 0) { ... }`), fuelled.
A single-node slice with remaining `by`, or a missing side, is an internal
invariant failure (thrown in the source). -/
def shrinkLoop (id : Nat) (e : Int) :
    Nat → TG → SliceD → Int → Except String (TG × SliceD)
  | fuel, tg, sl, b =>
    if b ≤ 0 then .ok (tg, sl)
    else match fuel with
    | 0 => .error "shrink fuel exhausted"
    | fuel + 1 =>
      if sl.along.length = 1 then .error "still have by even with single node"
      else
        match tg.sideOf (activeNodeId e sl) (prevNodeId e sl) with
        | none => .error "missing side at shrink"
        | some _ =>
          let r := shrinkRound id e tg sl b
          shrinkLoop id e fuel r.1 r.2.1 r.2.2

/-- `TrainGraphImpl.modifySlice`: the single composite grow/shrink mutator.
Returns the signed amount actually applied. -/
def TG.modifySlice (tg : TG) (id : Nat) (e : Int) (by0 : Int)
    (wh : Option WhereFn) : Except String (Int × TG) :=
  match alookup tg.slices id with
  | none => .ok (0, tg)
  | some slice =>
    let by1 := if by0 < 0 then max by0 (-slice.length) else by0
    if by1 = 0 then .ok (0, tg)
    else if by1 < 0 then
      match shrinkLoop id e (-by1).toNat tg slice (-by1) with
      | .error s => .error s
      | .ok (tg1, sl1) =>
        let sl2 := { sl1 with length := sl1.length + by1 }
        if sl2.along.length = 0 then .error "check along nonempty failed"
        else if sl2.length = 0 ∧ ¬ (sl2.along.length ≤ 2) then
          .error "check point shape failed"
        else if sl2.length ≠ 0 ∧ ¬ (2 ≤ sl2.along.length) then
          .error "check body shape failed"
        else if sl2.length < 0 then .error "check length nonneg failed"
        else .ok (by1, { tg1 with slices := aset tg1.slices id sl2 })
    else
      match growLoop id e wh (by1.toNat + 1) 0 tg slice by1 with
      | .error s => .error s
      | .ok (tg1, sl1, rem) =>
        let change := by1 - rem
        let sl2 := { sl1 with length := sl1.length + change }
        .ok (change, { tg1 with slices := aset tg1.slices id sl2 })

/-- `TrainGraphImpl.deleteSlice`: remove a slice and all its memberships. -/
def TG.deleteSlice (tg : TG) (id : Nat) : Except String (Bool × TG) :=
  match alookup tg.slices id with
  | none => .ok (false, tg)
  | some slice =>
    if slice.along.length = 1 then
      if slice.front ≠ 0 then .error "check front zero failed"
      else if slice.back ≠ 0 then .error "check back zero failed"
      else
        let n := (slice.along.head?).getD 0
        if ¬ csHas (tg.getNode n).slices id then .error "check node delete failed"
        else
          let tg1 := tg.delNodeSlice n id
          if csHas (tg1.getNode n).slices id then .error "check node has failed"
          else .ok (true, { tg1 with slices := adel tg.slices id })
    else
      let tg1 := (List.range (slice.along.length - 1)).foldl
        (fun acc i =>
          acc.delEdgeSlice ((slice.along.get? i).getD 0)
            ((slice.along.get? (i + 1)).getD 0) id) tg
      let along1 := if slice.front ≠ 0 then slice.along.dropLast else slice.along
      let along2 := if slice.back ≠ 0 then along1.tail else along1
      let tg2 := along2.foldl (fun acc n => acc.delNodeSlice n id) tg1
      .ok (true, { tg2 with slices := adel tg2.slices id })

/-- `TrainGraphImpl.lookupSlice`: a copy of the slice descriptor. -/
def TG.lookupSlice (tg : TG) (id : Nat) : Option SliceD :=
  alookup tg.slices id

/-- `TrainGraphImpl.allEdges`: enumeration in insertion order. -/
def TG.allEdges (tg : TG) : List (Nat × Nat × Int) :=
  tg.edges.map (fun p => (p.2.low, p.2.high, p.2.length))

/-! ## High-level helpers (`src/graph-helpers.ts`) -/

/-- `invertEnd`. -/
def invertEnd (e : Int) : Int := if e = -1 then 1 else -1

/-- `moveSlice`: grow one end, shrink the other by the grown amount; an
imbalance is an internal invariant failure. -/
def moveSlice (tg : TG) (id : Nat) (e : Int) (by0 : Int)
    (wh : Option WhereFn) : Except String (Int × TG) :=
  if by0 = 0 then .ok (0, tg)
  else
    match tg.modifySlice id e by0 wh with
    | .error s => .error s
    | .ok (growBy, tg1) =>
      match tg1.modifySlice id (invertEnd e) (-growBy) none with
      | .error s => .error s
      | .ok (invertShrinkBy, tg2) =>
        if growBy ≠ -invertShrinkBy then .error "cannot shrink by growth amount"
        else .ok (growBy, tg2)

/-- `addDescribedSlice`: reconstruct a described slice by seeding on
`along[0]`, installing `back` with a `moveSlice`, then growing `length` along
the described path; a shortfall tears the partial slice down. -/
def addDescribedSlice (tg : TG) (id : Nat) (slice : SliceD) :
    Except String (Bool × TG) :=
  if slice.along.length = 0 then .error "invalid slice no along nodes"
  else
    let seeded := tg.addSlice id ((slice.along.head?).getD 0)
    if !seeded.1 then .ok (false, tg)
    else
      let tg0 := seeded.2
      if slice.along.length = 1 then .ok (true, tg0)
      else
        -- the `finally` teardown used on every non-ok exit
        let teardown : TG → Except String (Bool × TG) := fun t =>
          match t.deleteSlice id with
          | .error s => .error s
          | .ok (true, t1) => .ok (false, t1)
          | .ok (false, _) => .error "teardown delete failed"
        match moveSlice tg0 id 1 slice.back
            (some (fun _ _ => slice.along.get? 1)) with
        | .error s => .error s
        | .ok (movedBy, tg1) =>
          if movedBy ≠ slice.back then teardown tg1
          else
            -- the mutable index cursor `i` over `along` starts at 1 and is
            -- incremented on each `where` call, so call number `k` (counted
            -- from 0) answers `along[1 + k]`
            match tg1.modifySlice id 1 slice.length
                (some (fun k _ => slice.along.get? (1 + k))) with
            | .error s => .error s
            | .ok (growth, tg2) =>
              if growth ≠ slice.length then teardown tg2
              else .ok (true, tg2)

/-- The `along`-patching loop inside `splitEdge`: walk the snapshot path,
insert `split` between each adjacent `[a,b]` or `[b,a]` pair, and shorten the
terminal offsets (dropping the end node) when the new terminal edge is shorter
than the offset.  `i` is the loop index of the source `for` loop; the fuel is
an upper bound on its iterations. -/
def splitPatch (tg : TG) (a b split : Nat) :
    Nat → Nat → List Nat → Int → Int → List Nat × Int × Int
  | 0, _, along, back, front => (along, back, front)
  | fuel + 1, i, along, back, front =>
    if i ≥ along.length then (along, back, front)
    else
      let rear := (along.get? (i - 1)).getD 0
      let forward := (along.get? i).getD 0
      if ¬ ((rear = a ∧ forward = b) ∨ (rear = b ∧ forward = a)) then
        splitPatch tg a b split fuel (i + 1) along back front
      else
        let along1 := along.take i ++ [split] ++ along.drop i
        let i1 := i + 1
        let st1 : Nat × List Nat × Int :=
          if i1 = 2 then
            let newLen := (tg.getEdge rear split).length
            if back ≥ newLen then (i1 - 1, along1.tail, back - newLen)
            else (i1, along1, back)
          else (i1, along1, back)
        let i2 := st1.1
        let along2 := st1.2.1
        let back2 := st1.2.2
        if i2 = along2.length - 1 then
          let newLen := (tg.getEdge split forward).length
          if front ≥ newLen then (along2.dropLast, back2, front - newLen)
          else splitPatch tg a b split fuel (i2 + 1) along2 back2 front
        else splitPatch tg a b split fuel (i2 + 1) along2 back2 front

/-- `splitEdge` from `src/graph-helpers.ts`: snapshot and remove all slices on
the edge, replace the edge by two edges joined at `split` (connected through
it), then re-add each slice with its `along` patched.  `check` failures and
exceptions from the graph operations surface as errors. -/
def splitEdge (tg : TG) (a b : Nat) (atPos : Int) (split : Nat) :
    Except String (Bool × TG) :=
  match tg.lookupEdge a b with
  | none => .ok (false, tg)
  | some (_, _, elen, eslices) =>
    -- `at !== ~~at` cannot arise here: split positions are integers already
    let at1 := if atPos < 0 then elen + atPos else atPos
    if at1 < 0 ∨ at1 ≥ elen then .ok (false, tg)
    else do
      let snap ← eslices.foldlM
        (fun (acc : List (Nat × SliceD) × TG) id => do
          match acc.2.lookupSlice id with
          | none => throw "slice lookup failed"
          | some sl =>
            match acc.2.deleteSlice id with
            | .error s => throw s
            | .ok (ok1, tgx) =>
              if ok1 then pure (acc.1 ++ [(id, sl)], tgx)
              else throw "cannot splitEdge invariant failed")
        (([] : List (Nat × SliceD)), tg)
      let del := snap.2.deleteEdge a b
      if ¬ del.1 then throw "cannot splitEdge invariant failed"
      else do
        let add1 ← del.2.1.addEdge a split at1
        if ¬ add1.1 then throw "cannot splitEdge invariant failed"
        else do
          let add2 ← add1.2.1.addEdge split b (elen - at1)
          if ¬ add2.1 then throw "cannot splitEdge invariant failed"
          else do
            let conn ← add2.2.1.connect a split b
            if ¬ conn.1 then throw "cannot splitEdge invariant failed"
            else do
              let tgF ← snap.1.foldlM
                (fun (acc : TG) (p : Nat × SliceD) => do
                  let sl := p.2
                  let patched := splitPatch acc a b split
                    (2 * sl.along.length + 4) 1 sl.along sl.back sl.front
                  let described : SliceD :=
                    ⟨patched.1, patched.2.2, patched.2.1, sl.length⟩
                  let readd ← addDescribedSlice acc p.1 described
                  if readd.1 then pure readd.2
                  else throw "cannot splitEdge invariant failed")
                conn.2
              pure (true, tgF)

/-- `cloneSlice`: look up and re-describe under a fresh id. -/
def cloneSlice (tg : TG) (prev addId : Nat) : Except String (Bool × TG) :=
  match tg.lookupSlice prev with
  | none => .ok (false, tg)
  | some s => addDescribedSlice tg addId s

/-! ## Public operation sequences

`runOps` folds the public mutators over the empty graph.  An operation whose
embedding returns `.error` (a thrown JS exception) contributes no state
change: the argument-validation throws in the source fire before any
mutation, and the internal `check` throws never fire from reachable states. -/

/-- One public Track Graph operation. -/
inductive Op where
  | addEdge (low high : Nat) (len : Int)
  | deleteEdge (a b : Nat)
  | connect (a t b : Nat)
  | disconnect (a t b : Nat)
  | addSlice (id onNode : Nat)
  | modifySlice (id : Nat) (e : Int) (by0 : Int) (wh : Option WhereFn)
  | deleteSlice (id : Nat)

/-- Apply one operation, keeping the prior state on a thrown exception. -/
def applyOp (tg : TG) : Op → TG
  | .addEdge l h len =>
    match tg.addEdge l h len with
    | .ok (_, tg1, _) => tg1
    | .error _ => tg
  | .deleteEdge a b => (tg.deleteEdge a b).2.1
  | .connect a t b =>
    match tg.connect a t b with
    | .ok (_, tg1) => tg1
    | .error _ => tg
  | .disconnect a t b =>
    match tg.disconnect a t b with
    | .ok (_, tg1) => tg1
    | .error _ => tg
  | .addSlice id onN => (tg.addSlice id onN).2
  | .modifySlice id e b wh =>
    match tg.modifySlice id e b wh with
    | .ok (_, tg1) => tg1
    | .error _ => tg
  | .deleteSlice id =>
    match tg.deleteSlice id with
    | .ok (_, tg1) => tg1
    | .error _ => tg

/-- The state after a finite sequence of public operations on a fresh graph. -/
def runOps (ops : List Op) : TG := ops.foldl applyOp TG.empty

/-! ## `PairMap` / `PairSet` (`src/helper/maps.ts`)

A map keyed by an unordered pair, stored as a symmetric two-level map. -/

/-- Two-level symmetric pair map. -/
def PairMap (κ V : Type) : Type := List (κ × List (κ × V))

/-- `PairMap.get`. -/
def pmGet {κ V : Type} [DecidableEq κ] (m : PairMap κ V) (a b : κ) : Option V :=
  (alookup m a).bind (fun inner => alookup inner b)

/-- `PairMap.set`: returns `false` (no change) when the pair already carries
this value, otherwise records the value symmetrically. -/
def pmSet {κ V : Type} [DecidableEq κ] [DecidableEq V] (m : PairMap κ V)
    (a b : κ) (v : V) : Bool × PairMap κ V :=
  let innerA := (alookup m a).getD []
  if alookup innerA b = some v then (false, m)
  else
    let m1 := aset m a (aset innerA b v)
    let innerB := (alookup m1 b).getD []
    (true, aset m1 b (aset innerB a v))

/-- `PairMap.delete`: remove both directions, dropping emptied inner maps. -/
def pmDelete {κ V : Type} [DecidableEq κ] (m : PairMap κ V) (a b : κ) :
    Bool × PairMap κ V :=
  match alookup m a with
  | none => (false, m)
  | some innerA =>
    if (alookup innerA b).isNone then (false, m)
    else
      let innerA1 := adel innerA b
      let m1 := if innerA1.length = 0 then adel m a else aset m a innerA1
      match alookup m1 b with
      | none => (false, m1)
      | some innerB =>
        let innerB1 := adel innerB a
        let m2 := if innerB1.length = 0 then adel m1 b else aset m1 b innerB1
        (true, m2)

/-- `PairMap.pairsWith`: the number of partners of `k`. -/
def pmPairsWith {κ V : Type} [DecidableEq κ] (m : PairMap κ V) (k : κ) : Nat :=
  ((alookup m k).getD []).length

/-- `PairMap.otherEntries`: the partners of `k` with values, insertion order. -/
def pmOtherEntries {κ V : Type} [DecidableEq κ] (m : PairMap κ V) (k : κ) :
    List (κ × V) :=
  (alookup m k).getD []

/-- `PairSet.otherKeys` (a `PairSet` is a `PairMap` with value `true`). -/
def psOtherKeys {κ : Type} [DecidableEq κ] (m : PairMap κ Unit) (k : κ) : List κ :=
  (pmOtherEntries m k).map (fun p => p.1)

/-! ## `ComponentGraph` (`src/component.ts`, the BFS implementation)

Division objects (`{ all: Set<K> }`) are shared mutable JS objects; we give
each one an allocation id and store its `all` set in a side table, with
`comp` mapping keys to division ids. -/

/-- The `ComponentGraph` state. -/
structure CG (α : Type) where
  pairs : PairMap α Unit
  divs : List (Nat × List α)
  comp : List (α × Nat)
  fresh : Nat

/-- The empty component graph. -/
def CG.empty {α : Type} : CG α := ⟨[], [], [], 0⟩

/-- `ComponentGraph.add`: record the pair, then create, join or merge
divisions; on a merge the bigger division absorbs the smaller. -/
def CG.add {α : Type} [DecidableEq α] (g : CG α) (a b : α) : Bool × CG α :=
  match pmSet g.pairs a b () with
  | (false, _) => (false, g)
  | (true, pairs1) =>
    let divA := alookup g.comp a
    let divB := alookup g.comp b
    match divA, divB with
    | none, none =>
      let all := sAdd (sAdd [] a) b
      (true, { pairs := pairs1
               divs := g.divs ++ [(g.fresh, all)]
               comp := aset (aset g.comp a g.fresh) b g.fresh
               fresh := g.fresh + 1 })
    | some dA, some dB =>
      if dA = dB then (true, { g with pairs := pairs1 })
      else
        let sizeA := ((alookup g.divs dA).getD []).length
        let sizeB := ((alookup g.divs dB).getD []).length
        let win := if sizeA > sizeB then dA else dB
        let lose := if sizeA > sizeB then dB else dA
        let loseAll := (alookup g.divs lose).getD []
        let winAll := loseAll.foldl sAdd ((alookup g.divs win).getD [])
        (true, { g with
                 pairs := pairs1
                 divs := aset g.divs win winAll
                 comp := loseAll.foldl (fun c k => aset c k win) g.comp })
    | none, some dB =>
      (true, { g with
               pairs := pairs1
               divs := aset g.divs dB (sAdd ((alookup g.divs dB).getD []) a)
               comp := aset g.comp a dB })
    | some dA, none =>
      (true, { g with
               pairs := pairs1
               divs := aset g.divs dA (sAdd ((alookup g.divs dA).getD []) b)
               comp := aset g.comp b dA })

/-- `ComponentGraph.has`. -/
def CG.has {α : Type} [DecidableEq α] (g : CG α) (a b : α) : Bool :=
  (pmGet g.pairs a b).isSome

/-- The breadth-first expansion `#from(k)`, fully collected. -/
def cgFromLoop {α : Type} [DecidableEq α] (pairs : PairMap α Unit) :
    Nat → List α → List α → List α → List α
  | 0, _, _, out => out
  | _ + 1, [], _, out => out
  | fuel + 1, next :: pending, seen, out =>
    let others := psOtherKeys pairs next
    let st := others.foldl
      (fun (acc : List α × List α) other =>
        if other ∈ acc.1 then acc else (acc.1 ++ [other], acc.2 ++ [other]))
      (seen, pending)
    cgFromLoop pairs fuel st.2 st.1 (out ++ [next])

/-- An iteration bound for the BFS: every enqueued key is a first-level key
of the pair map (or the start key), each enqueued at most once. -/
def cgFuel {α : Type} (pairs : PairMap α Unit) : Nat := pairs.length + 2

/-- `new Set(this.#from(a))`: the full reachable set, in BFS order. -/
def cgFrom {α : Type} [DecidableEq α] (pairs : PairMap α Unit) (k : α) : List α :=
  cgFromLoop pairs (cgFuel pairs) [k] [k] []

/-- The `#from(b)` consumption inside `delete`: stop with `none` as soon as a
reached key lies in `setA` (the components stay unified), else collect all. -/
def cgFromUntil {α : Type} [DecidableEq α] (pairs : PairMap α Unit) (setA : List α) :
    Nat → List α → List α → List α → Option (List α)
  | 0, _, _, out => some out
  | _ + 1, [], _, out => some out
  | fuel + 1, next :: pending, seen, out =>
    if next ∈ setA then none
    else
      let others := psOtherKeys pairs next
      let st := others.foldl
        (fun (acc : List α × List α) other =>
          if other ∈ acc.1 then acc else (acc.1 ++ [other], acc.2 ++ [other]))
        (seen, pending)
      cgFromUntil pairs setA fuel st.2 st.1 (out ++ [next])

/-- `ComponentGraph.delete`: remove the pair; drop orphaned endpoints from
`comp` and bail out early; otherwise search both sides and split the smaller
side into a fresh division when they no longer overlap. -/
def CG.delete {α : Type} [DecidableEq α] (g : CG α) (a b : α) : Bool × CG α :=
  match pmDelete g.pairs a b with
  | (false, _) => (false, g)
  | (true, pairs1) =>
    let aPairs := pmPairsWith pairs1 a
    let bPairs := pmPairsWith pairs1 b
    let comp1 := if aPairs = 0 then adel g.comp a else g.comp
    let comp2 := if bPairs = 0 then adel comp1 b else comp1
    if aPairs = 0 ∨ bPairs = 0 then (true, { g with pairs := pairs1, comp := comp2 })
    else
      let setA := cgFrom pairs1 a
      match cgFromUntil pairs1 setA (cgFuel pairs1) [b] [b] [] with
      | none => (true, { g with pairs := pairs1 })
      | some setB =>
        let split := if setA.length > setB.length then setB else setA
        match alookup g.comp a with
        | none => (false, { g with pairs := pairs1 })
        | some formerDiv =>
          let formerAll := (alookup g.divs formerDiv).getD []
          let divs1 := aset g.divs formerDiv (formerAll.filter (fun s => s ∉ split))
          (true, { pairs := pairs1
                   divs := divs1 ++ [(g.fresh, split)]
                   comp := split.foldl (fun c s => aset c s g.fresh) g.comp
                   fresh := g.fresh + 1 })

/-- `ComponentGraph.sizeOfDivision`. -/
def CG.sizeOfDivision {α : Type} [DecidableEq α] (g : CG α) (k : α) : Nat :=
  match alookup g.comp k with
  | none => 1
  | some d => ((alookup g.divs d).getD []).length

/-- `ComponentGraph.sharedWith`: the keys of the division holding `k`
(including `k`), or the singleton `[k]` when `k` has no division. -/
def CG.sharedWith {α : Type} [DecidableEq α] (g : CG α) (k : α) : List α :=
  match alookup g.comp k with
  | none => [k]
  | some d => (alookup g.divs d).getD []

/-! ## Division graph (`src/component.ts`) -/

/-- Keys of the inner component graph: track nodes, or the per-edge
`DivisionEdgeNode` surrogates (identified by their creation endpoints —
`addEdge` allocates at most one surrogate per unordered pair, ever). -/
inductive CKey where
  | node (k : Nat)
  | enode (a b : Nat)
deriving DecidableEq, Repr

/-- `DivisionComponentGraphInternal` state. -/
structure DGI where
  blockedNodes : List Nat
  edgeNodes : PairMap Nat (Nat × Nat)
  actual : CG CKey

/-- A fresh internal division graph. -/
def DGI.empty : DGI := ⟨[], [], CG.empty⟩

/-- `DivisionComponentGraphInternal.addEdge`: allocate the edge surrogate and
pair it with each unblocked endpoint.  Refuses when a surrogate for the pair
is already recorded. -/
def DGI.addEdge (g : DGI) (a b : Nat) : Bool × DGI :=
  if (pmGet g.edgeNodes a b).isSome then (false, g)
  else
    let en := (pmSet g.edgeNodes a b (a, b)).2
    let g1 : DGI := { g with edgeNodes := en }
    let g2 := if a ∈ g1.blockedNodes then g1
      else { g1 with actual := (g1.actual.add (.node a) (.enode a b)).2 }
    let g3 := if b ∈ g2.blockedNodes then g2
      else { g2 with actual := (g2.actual.add (.node b) (.enode a b)).2 }
    (true, g3)

/-- `DivisionComponentGraphInternal.deleteEdge`: drop the two endpoint pairs
of the surrogate.  Note the source leaves the surrogate in `#edgeNodes`. -/
def DGI.deleteEdge (g : DGI) (a b : Nat) : Bool × DGI :=
  match pmGet g.edgeNodes a b with
  | none => (false, g)
  | some t =>
    let g1 : DGI := { g with actual := (g.actual.delete (.node a) (.enode t.1 t.2)).2 }
    let g2 : DGI := { g1 with actual := (g1.actual.delete (.node b) (.enode t.1 t.2)).2 }
    (true, g2)

/-- `blockNode`: record the block and cut the node off from all its edge
surrogates. -/
def DGI.blockNode (g : DGI) (node : Nat) : Bool × DGI :=
  if node ∈ g.blockedNodes then (false, g)
  else
    let g1 : DGI := { g with blockedNodes := sAdd g.blockedNodes node }
    let g2 := (pmOtherEntries g.edgeNodes node).foldl
      (fun (acc : DGI) p =>
        { acc with actual := (acc.actual.delete (.node node) (.enode p.2.1 p.2.2)).2 })
      g1
    (true, g2)

/-- `unblockNode`: restore the pairs between the node and its surrogates. -/
def DGI.unblockNode (g : DGI) (node : Nat) : Bool × DGI :=
  if node ∉ g.blockedNodes then (false, g)
  else
    let g1 := (pmOtherEntries g.edgeNodes node).foldl
      (fun (acc : DGI) p =>
        { acc with actual := (acc.actual.add (.node node) (.enode p.2.1 p.2.2)).2 })
      g
    (true, { g1 with blockedNodes := sDel g1.blockedNodes node })

/-- `searchByEdge`: all edge surrogates sharing the surrogate's component,
reported as their endpoint pairs. -/
def DGI.searchByEdge (g : DGI) (a b : Nat) : List (Nat × Nat) :=
  match pmGet g.edgeNodes a b with
  | none => []
  | some t =>
    (g.actual.sharedWith (.enode t.1 t.2)).foldr
      (fun k acc => match k with
        | .node _ => acc
        | .enode x y => (x, y) :: acc) []

/-- The whole system: a track graph with an optional live division graph
(`#internal`); `none` models a cancelled (or never-started) subscription. -/
structure DGSys where
  tg : TG
  dg : Option DGI

/-- Replay of `tg.allEdges()` done by the `DivisionGraphImpl` constructor. -/
def mkDGI (tg : TG) : DGI :=
  (tg.allEdges).foldl (fun acc e => (acc.addEdge e.1 e.2.1).2) DGI.empty

/-- `new DivisionGraphImpl(tg, abort)`: with an already-signalled handle the
internal graph is `null` and no subscription is made. -/
def mkDGSys (tg : TG) (aborted : Bool) : DGSys :=
  if aborted then ⟨tg, none⟩ else ⟨tg, some (mkDGI tg)⟩

/-- The subscribed `edge` handler: positive length means added, zero removed. -/
def applyEv (g : DGI) (ev : EdgeEv) : DGI :=
  if ev.length ≠ 0 then (g.addEdge ev.a ev.b).2 else (g.deleteEdge ev.a ev.b).2

/-- One system-level step: a public track-graph operation whose synchronous
events feed the live division graph, or the abort signal, which drops the
subscription and nulls the internal graph (idempotently). -/
inductive SysOp where
  | tgOp (op : Op)
  | abortSignal

/-- Apply one track-graph operation, returning its emitted events. -/
def applyOpEv (tg : TG) : Op → TG × List EdgeEv
  | .addEdge l h len =>
    match tg.addEdge l h len with
    | .ok (_, tg1, evs) => (tg1, evs)
    | .error _ => (tg, [])
  | .deleteEdge a b =>
    let r := tg.deleteEdge a b
    (r.2.1, r.2.2)
  | op => (applyOp tg op, [])

/-- Apply one system-level step. -/
def applySysOp (s : DGSys) : SysOp → DGSys
  | .tgOp op =>
    let r := applyOpEv s.tg op
    { tg := r.1
      dg := (match s.dg with
             | none => none
             | some d => some (r.2.foldl applyEv d)) }
  | .abortSignal => { s with dg := none }

/-- Run a list of system-level steps. -/
def runSysFrom (s : DGSys) (ops : List SysOp) : DGSys := ops.foldl applySysOp s

/-- `DivisionGraphImpl.addDivision`. -/
def sysAddDivision (s : DGSys) (n : Nat) : Bool × DGSys :=
  match s.dg with
  | none => (false, s)
  | some d =>
    let r := d.blockNode n
    (r.1, { s with dg := some r.2 })

/-- `DivisionGraphImpl.deleteDivision`. -/
def sysDeleteDivision (s : DGSys) (n : Nat) : Bool × DGSys :=
  match s.dg with
  | none => (false, s)
  | some d =>
    let r := d.unblockNode n
    (r.1, { s with dg := some r.2 })

/-- `DivisionGraphImpl.lookupDivisionByEdge` (an empty iterator when null). -/
def sysLookupDivisionByEdge (s : DGSys) (a b : Nat) : List (Nat × Nat) :=
  match s.dg with
  | none => []
  | some d => d.searchByEdge a b

/-- Decidable equality for `Except`, to let concrete runs be checked by
`decide`. -/
instance {e a : Type} [DecidableEq e] [DecidableEq a] : DecidableEq (Except e a) := fun
  | .error x, .error y =>
    if h : x = y then .isTrue (by rw [h]) else .isFalse (by intro hh; cases hh; exact h rfl)
  | .error _, .ok _ => .isFalse (by intro hh; cases hh)
  | .ok _, .error _ => .isFalse (by intro hh; cases hh)
  | .ok x, .ok y =>
    if h : x = y then .isTrue (by rw [h]) else .isFalse (by intro hh; cases hh; exact h rfl)

/-! ## Claim theorems -/

/-! ## Scenario states for the claim analyses -/

/-- A hub node `2` with three neighbours and through links `1-2-3` and
`1-2-4`, plus a point slice `7` seeded on node `1`: past node `2`, the grow
candidates of slice `7` are `through(2, 1) = [3, 4]`. -/
def whereContractState : TG :=
  runOps [.addEdge 1 2 5, .addEdge 2 3 5, .addEdge 2 4 5,
    .connect 1 2 3, .connect 1 2 4, .addSlice 7 1]

/-- The failing state for the orphan-deletion analysis:
`add(1,2); add(2,3); delete(1,2)` leaves endpoint `1` with no pairs. -/
def cgOrphanState : CG Nat :=
  (((CG.empty.add 1 2).2.add 2 3).2.delete 1 2).2

/-- Division-graph scenario: edges `(1,2)` and `(2,3)` are created with a live
division graph attached, then edge `(1,2)` is deleted and re-added. -/
def dgScenario : DGSys :=
  runSysFrom (mkDGSys TG.empty false)
    [.tgOp (.addEdge 1 2 5), .tgOp (.addEdge 2 3 5),
     .tgOp (.deleteEdge 1 2), .tgOp (.addEdge 1 2 5)]

/-- A node with two neighbours and a point slice seeded on it. -/
def growChoiceState : TG := runOps [.addEdge 1 2 5, .addEdge 1 3 5, .addSlice 7 1]

/-- A graph with a single edge `(1,2)` of length `5` for the split analysis. -/
def splitState : TG := runOps [.addEdge 1 2 5]


/-! ## The through-link invariants (I1, I2, I7) -/

/-- Side-existence symmetry: node `a` records a side toward `b` exactly when
`b` records one toward `a`. -/
def SideSym (tg : TG) : Prop :=
  ∀ a b, (tg.sideOf a b).isSome ↔ (tg.sideOf b a).isSome

/-- No self sides. -/
def NoSelf (tg : TG) : Prop := ∀ a, tg.sideOf a a = none

/-- Well-formedness of the `through` relation at every node: a member of a
side's `through` set is a distinct other neighbour of the same node, and the
relation is symmetric. -/
def ThroughWF (tg : TG) : Prop :=
  ∀ t a b, b ∈ tg.throughOf t a →
    a ≠ b ∧ b ≠ t ∧ a ≠ t ∧
    (tg.sideOf t a).isSome ∧ (tg.sideOf t b).isSome ∧
    a ∈ tg.throughOf t b

/-- The topology invariants maintained by every public operation. -/
def WFtg (tg : TG) : Prop := SideSym tg ∧ NoSelf tg ∧ ThroughWF tg

/-! ## Basic lemmas about the JS-container models -/

theorem alookup_aset_self {κ α : Type} [DecidableEq κ] (m : List (κ × α)) (k : κ) (v : α) :
    alookup (aset m k v) k = some v := by
  induction m with
  | nil => simp [aset, alookup]
  | cons p rest ih =>
    obtain ⟨pk, pv⟩ := p
    by_cases h : pk = k
    · simp [aset, h, alookup]
    · simp [aset, h, alookup, ih]

theorem alookup_aset_ne {κ α : Type} [DecidableEq κ] (m : List (κ × α)) (k k' : κ) (v : α)
    (h : k' ≠ k) : alookup (aset m k v) k' = alookup m k' := by
  induction m with
  | nil => simp [aset, alookup, Ne.symm h]
  | cons p rest ih =>
    obtain ⟨pk, pv⟩ := p
    by_cases hp : pk = k
    · subst hp
      have hne : ¬ pk = k' := fun hh => h hh.symm
      simp [aset, alookup, hne]
    · by_cases hp' : pk = k'
      · subst hp'
        simp [aset, hp, alookup, Ne.symm h]
      · simp [aset, hp, alookup, hp', ih]

theorem adel_cons {κ α : Type} [DecidableEq κ] (pk : κ) (pv : α) (rest : List (κ × α))
    (k : κ) :
    adel ((pk, pv) :: rest) k
      = if pk = k then adel rest k else (pk, pv) :: adel rest k := by
  by_cases h : pk = k <;> simp [adel, List.filter_cons, h]

theorem alookup_adel_self {κ α : Type} [DecidableEq κ] (m : List (κ × α)) (k : κ) :
    alookup (adel m k) k = none := by
  induction m with
  | nil => simp [adel, alookup]
  | cons p rest ih =>
    obtain ⟨pk, pv⟩ := p
    rw [adel_cons]
    by_cases h : pk = k
    · simp [h, ih]
    · simp [h, alookup, ih]

theorem alookup_adel_ne {κ α : Type} [DecidableEq κ] (m : List (κ × α)) (k k' : κ)
    (h : k' ≠ k) : alookup (adel m k) k' = alookup m k' := by
  induction m with
  | nil => simp [adel, alookup]
  | cons p rest ih =>
    obtain ⟨pk, pv⟩ := p
    rw [adel_cons]
    by_cases hp : pk = k
    · subst hp
      have hne : ¬ pk = k' := fun hh => h hh.symm
      simp [alookup, hne, ih]
    · by_cases hp' : pk = k'
      · subst hp'
        simp [hp, alookup, ih]
      · simp [hp, alookup, hp', ih]

theorem aset_self {κ α : Type} [DecidableEq κ] (m : List (κ × α)) (k : κ) (v : α)
    (h : alookup m k = some v) : aset m k v = m := by
  induction m with
  | nil => simp [alookup] at h
  | cons p rest ih =>
    obtain ⟨pk, pv⟩ := p
    by_cases hp : pk = k
    · subst hp
      simp only [alookup, if_pos rfl] at h
      cases h
      simp [aset]
    · simp only [alookup, hp, if_neg, reduceIte] at h
      simp [aset, hp, ih h]

theorem mem_sDel {κ : Type} [DecidableEq κ] (s : List κ) (k x : κ) :
    x ∈ sDel s k ↔ x ∈ s ∧ x ≠ k := by
  simp [sDel, List.mem_filter]

theorem mem_sAdd {κ : Type} [DecidableEq κ] (s : List κ) (k x : κ) :
    x ∈ sAdd s k ↔ x ∈ s ∨ x = k := by
  by_cases h : k ∈ s
  · simp only [sAdd, if_pos h]
    constructor
    · exact fun hx => Or.inl hx
    · rintro (hx | rfl) <;> assumption
  · simp [sAdd, if_neg h]

theorem sDel_sDel {κ : Type} [DecidableEq κ] (s : List κ) (k : κ) :
    sDel (sDel s k) k = sDel s k := by
  simp only [sDel]
  rw [List.filter_filter]
  simp

/-! ## State characterization after the primitive updates -/

theorem getNode_putNode (tg : TG) (k t : Nat) (n : NodeD) :
    (tg.putNode k n).getNode t = if t = k then n else tg.getNode t := by
  by_cases h : t = k
  · subst h
    simp [TG.putNode, TG.getNode, alookup_aset_self]
  · simp [TG.putNode, TG.getNode, alookup_aset_ne _ _ _ _ h, h]

theorem getNode_addNodeSlice_other (tg : TG) (k id t : Nat) :
    ((tg.addNodeSlice k id).getNode t).other = (tg.getNode t).other := by
  simp only [TG.addNodeSlice, getNode_putNode]
  by_cases h : t = k <;> simp [h]

theorem getNode_delNodeSlice_other (tg : TG) (k id t : Nat) :
    ((tg.delNodeSlice k id).getNode t).other = (tg.getNode t).other := by
  simp only [TG.delNodeSlice, getNode_putNode]
  by_cases h : t = k <;> simp [h]

theorem getNode_addEdgeSlice (tg : TG) (a b id t : Nat) :
    ((tg.addEdgeSlice a b id).getNode t) = tg.getNode t := by
  simp [TG.addEdgeSlice, TG.getNode]

theorem getNode_delEdgeSlice (tg : TG) (a b id t : Nat) :
    ((tg.delEdgeSlice a b id).getNode t) = tg.getNode t := by
  simp [TG.delEdgeSlice, TG.getNode]

theorem getEdge_addNodeSlice (tg : TG) (k id a b : Nat) :
    (tg.addNodeSlice k id).getEdge a b = tg.getEdge a b := by
  simp [TG.addNodeSlice, TG.putNode, TG.getEdge]

theorem getEdge_delNodeSlice (tg : TG) (k id a b : Nat) :
    (tg.delNodeSlice k id).getEdge a b = tg.getEdge a b := by
  simp [TG.delNodeSlice, TG.putNode, TG.getEdge]

theorem ekey_comm (a b : Nat) : ekey a b = ekey b a := by
  simp only [ekey]
  rcases Nat.lt_trichotomy a b with h | h | h
  · simp [Nat.le_of_lt h, Nat.not_le.mpr h]
  · simp [h]
  · simp [Nat.le_of_lt h, Nat.not_le.mpr h]

theorem getEdge_length_comm (tg : TG) (a b : Nat) :
    (tg.getEdge a b).length = (tg.getEdge b a).length := by
  simp only [TG.getEdge, ekey_comm a b]
  cases alookup tg.edges (ekey b a) <;> simp

theorem getEdge_length_addEdgeSlice (tg : TG) (x y id a b : Nat) :
    ((tg.addEdgeSlice x y id).getEdge a b).length = (tg.getEdge a b).length := by
  simp only [TG.addEdgeSlice, TG.getEdge]
  by_cases h : ekey a b = ekey x y
  · rw [h, alookup_aset_self]
    simp only [Option.getD_some]
    cases alookup tg.edges (ekey x y) <;> simp
  · rw [alookup_aset_ne _ _ _ _ h]

theorem getEdge_length_delEdgeSlice (tg : TG) (x y id a b : Nat) :
    ((tg.delEdgeSlice x y id).getEdge a b).length = (tg.getEdge a b).length := by
  simp only [TG.delEdgeSlice, TG.getEdge]
  by_cases h : ekey a b = ekey x y
  · rw [h, alookup_aset_self]
    simp only [Option.getD_some]
    cases alookup tg.edges (ekey x y) <;> simp
  · rw [alookup_aset_ne _ _ _ _ h]

/-! ## The slice mutators never touch the topology -/

theorem growRound_other (id : Nat) (e : Int) (tg : TG) (sl : SliceD) (b : Int) (t : Nat) :
    (((growRound id e tg sl b).1).getNode t).other = (tg.getNode t).other := by
  rw [growRound]
  split
  · simp [getNode_addNodeSlice_other]
  · rfl

theorem growRound_along (id : Nat) (e : Int) (tg : TG) (sl : SliceD) (b : Int) :
    ((growRound id e tg sl b).2.1).along = sl.along := by
  rw [growRound]
  simp only [setActiveOff]
  split <;> rfl

theorem growRound_edgeLen (id : Nat) (e : Int) (tg : TG) (sl : SliceD) (b : Int)
    (x y : Nat) :
    (((growRound id e tg sl b).1).getEdge x y).length = (tg.getEdge x y).length := by
  rw [growRound]
  split
  · simp [getEdge_addNodeSlice]
  · rfl

theorem shrinkRound_other (id : Nat) (e : Int) (tg : TG) (sl : SliceD) (b : Int) (t : Nat) :
    (((shrinkRound id e tg sl b).1).getNode t).other = (tg.getNode t).other := by
  rw [shrinkRound]
  repeat' split
  all_goals simp [getNode_delNodeSlice_other, getNode_delEdgeSlice]

theorem shrinkRound_edgeLen (id : Nat) (e : Int) (tg : TG) (sl : SliceD) (b : Int)
    (x y : Nat) :
    (((shrinkRound id e tg sl b).1).getEdge x y).length = (tg.getEdge x y).length := by
  rw [shrinkRound]
  repeat' split
  all_goals simp [getEdge_delNodeSlice, getEdge_length_delEdgeSlice]

theorem growLoop_other (id : Nat) (e : Int) (wh : Option WhereFn) :
    ∀ (fuel cnt : Nat) (tg : TG) (sl : SliceD) (b : Int) (tg' : TG) (sl' : SliceD)
      (rem : Int),
      growLoop id e wh fuel cnt tg sl b = .ok (tg', sl', rem) →
      ∀ t, (tg'.getNode t).other = (tg.getNode t).other := by
  intro fuel
  induction fuel with
  | zero => intro cnt tg sl b tg' sl' rem h t; simp [growLoop] at h
  | succ fuel ih =>
    intro cnt tg sl b tg' sl' rem h t
    simp only [growLoop] at h
    split at h
    · exact absurd h (by simp)
    · split at h
      · cases h
        exact growRound_other id e tg sl b t
      · split at h
        · cases h
          exact growRound_other id e tg sl b t
        · split at h
          · cases h
            exact growRound_other id e tg sl b t
          · have := ih _ _ _ _ _ _ _ h t
            rw [this]
            simp [getNode_addEdgeSlice, growRound_other]

theorem shrinkLoop_other (id : Nat) (e : Int) :
    ∀ (fuel : Nat) (tg : TG) (sl : SliceD) (b : Int) (tg' : TG) (sl' : SliceD),
      shrinkLoop id e fuel tg sl b = .ok (tg', sl') →
      ∀ t, (tg'.getNode t).other = (tg.getNode t).other := by
  intro fuel
  induction fuel with
  | zero =>
    intro tg sl b tg' sl' h t
    rw [shrinkLoop] at h
    split at h
    · cases h; rfl
    · simp at h
  | succ fuel ih =>
    intro tg sl b tg' sl' h t
    rw [shrinkLoop] at h
    split at h
    · cases h; rfl
    · simp only at h
      split at h
      · simp at h
      · split at h
        · simp at h
        · have := ih _ _ _ _ _ h t
          rw [this]
          exact shrinkRound_other id e tg sl b t

theorem modifySlice_other (tg : TG) (id : Nat) (e : Int) (by0 : Int)
    (wh : Option WhereFn) (r : Int) (tg' : TG)
    (h : tg.modifySlice id e by0 wh = .ok (r, tg')) :
    ∀ t, (tg'.getNode t).other = (tg.getNode t).other := by
  intro t
  rw [TG.modifySlice] at h
  cases hsl : alookup tg.slices id with
  | none => rw [hsl] at h; cases h; rfl
  | some slice =>
    rw [hsl] at h
    dsimp only [] at h
    by_cases h0 : (if by0 < 0 then max by0 (-slice.length) else by0) = 0
    · rw [if_pos h0] at h
      cases h
      rfl
    · rw [if_neg h0] at h
      by_cases h1 : (if by0 < 0 then max by0 (-slice.length) else by0) < 0
      · rw [if_pos h1] at h
        cases hs : shrinkLoop id e
            (-(if by0 < 0 then max by0 (-slice.length) else by0)).toNat tg slice
            (-(if by0 < 0 then max by0 (-slice.length) else by0)) with
        | error s => rw [hs] at h; cases h
        | ok p =>
          rw [hs] at h
          obtain ⟨tg1, sl1⟩ := p
          dsimp only [] at h
          repeat' split at h
          all_goals cases h
          all_goals simpa [TG.getNode] using
            shrinkLoop_other id e _ _ _ _ _ _ hs t
      · rw [if_neg h1] at h
        cases hg : growLoop id e wh
            ((if by0 < 0 then max by0 (-slice.length) else by0).toNat + 1) 0 tg slice
            (if by0 < 0 then max by0 (-slice.length) else by0) with
        | error s => rw [hg] at h; cases h
        | ok p =>
          rw [hg] at h
          obtain ⟨tg1, sl1, rem⟩ := p
          dsimp only [] at h
          cases h
          simpa [TG.getNode] using
            growLoop_other id e wh _ _ _ _ _ _ _ _ hg t

/-! ## Well-formedness preservation and claim theorems -/

/-! ## C6 development: slice-geometry lemmas -/

def EdgeLen (tg : TG) : Prop :=
  ∀ x y, (tg.sideOf x y).isSome → 1 ≤ (tg.getEdge x y).length

/-- Validity of a slice record at the end `e`, as the slice invariants state
it: nonnegative offsets and length, the point/body shape conditions, the side
toward the end edge present, the end offset strictly below that edge's length,
and — on a two-node slice, where both offsets share the one edge — their sum
at most the edge length.  The sum may reach the edge length exactly: that is
the degenerate pointwise slice, a valid boundary case. -/
def SliceValidB (tg : TG) (e : Int) (sl : SliceD) : Bool :=
  (¬ sl.along = []) ∧ (0 ≤ sl.length) ∧
  (sl.length = 0 → sl.along.length ≤ 2) ∧
  (¬ sl.length = 0 → 2 ≤ sl.along.length) ∧
  (if sl.along.length = 1 then sl.front = 0 ∧ sl.back = 0
   else (0 ≤ activeOff e sl ∧ 0 ≤ otherOff e sl ∧
     (tg.sideOf (activeNodeId e sl) (prevNodeId e sl)).isSome ∧
     activeOff e sl
       < (tg.getEdge (activeNodeId e sl) (prevNodeId e sl)).length ∧
     (sl.along.length = 2 →
       activeOff e sl + otherOff e sl
         ≤ (tg.getEdge (activeNodeId e sl) (prevNodeId e sl)).length)))

/-- Scenario for the grow/shrink round-trip witness: a length-`10` edge, a
point slice seeded on node `2`, grown by `3` into the edge and then shrunk by
`3` from the other end, leaving the degenerate pointwise record
`⟨[2, 3], 7, 3, 0⟩` with `front + back` equal to the edge length. -/
def c6Ops : List Op :=
  [.addEdge 2 3 10, .addSlice 5 2, .modifySlice 5 1 3 none,
   .modifySlice 5 (-1) (-3) none]

/-- The graph after growing the degenerate slice `5` by `2` at end `1`. -/
def c6Grown : TG :=
  match (runOps c6Ops).modifySlice 5 1 2 none with
  | .ok (_, t) => t
  | .error _ => TG.empty


theorem wf_empty : WFtg TG.empty := by
  refine ⟨fun a b => ?_, fun a => ?_, fun t a b hb => ?_⟩
  · simp [TG.sideOf, TG.getNode, TG.empty, alookup]
  · simp [TG.sideOf, TG.getNode, TG.empty, alookup]
  · simp [TG.throughOf, TG.getNode, TG.empty, alookup] at hb

/-- Two states with pointwise-equal `other` maps satisfy the same invariants. -/
theorem wf_of_other_eq (tg tg' : TG)
    (hother : ∀ t, (tg'.getNode t).other = (tg.getNode t).other)
    (h : WFtg tg) : WFtg tg' := by
  obtain ⟨hs, hn, ht⟩ := h
  have hside : ∀ a b, tg'.sideOf a b = tg.sideOf a b := by
    intro a b
    simp [TG.sideOf, hother]
  have hthr : ∀ t a, tg'.throughOf t a = tg.throughOf t a := by
    intro t a
    simp [TG.throughOf, hother]
  refine ⟨fun a b => ?_, fun a => ?_, fun t a b hb => ?_⟩
  · rw [hside, hside]; exact hs a b
  · rw [hside]; exact hn a
  · rw [hthr] at hb
    have := ht t a b hb
    simpa [hside, hthr] using this

/-- Characterization of a successful `addEdge`: a fresh empty side appears in
each direction and everything else is untouched. -/
theorem addEdge_sideOf (tg : TG) (l hi : Nat) (len : Int) (tg' : TG)
    (evs : List EdgeEv) (hok : tg.addEdge l hi len = .ok (true, tg', evs)) :
    l ≠ hi ∧ tg.sideOf l hi = none ∧
    ∀ a b, tg'.sideOf a b =
      if a = l ∧ b = hi then some [] else
      if a = hi ∧ b = l then some [] else tg.sideOf a b := by
  rw [TG.addEdge] at hok
  split at hok
  · cases hok
  · split at hok
    · cases hok
    · rename_i hlen hne
      dsimp only [] at hok
      split at hok
      · cases hok
      · rename_i hside
        cases hok
        refine ⟨hne, by simpa [TG.sideOf] using hside, fun a b => ?_⟩
        by_cases ha : a = hi
        · subst ha
          simp only [TG.sideOf, getNode_putNode, if_pos rfl]
          have hgn : (TG.getNode { tg with edges := aset tg.edges (ekey l a) ⟨l, a, len, []⟩ } a)
              = tg.getNode a := by
            simp [TG.getNode]
          by_cases hb : b = l
          · subst hb
            simp [getNode_putNode, Ne.symm hne, hgn, alookup_aset_self, hne]
          · simp [getNode_putNode, Ne.symm hne, hgn, alookup_aset_ne _ _ _ _ hb, hb,
              fun hh : a = l => (Ne.symm hne) hh, TG.sideOf, TG.getNode]
        · simp only [TG.sideOf, getNode_putNode, if_neg ha]
          by_cases hal : a = l
          · subst hal
            have hgn : (TG.getNode { tg with edges := aset tg.edges (ekey a hi) ⟨a, hi, len, []⟩ } a)
                = tg.getNode a := by
              simp [TG.getNode]
            by_cases hb : b = hi
            · subst hb
              simp [hgn, alookup_aset_self, ha]
            · simp [hgn, alookup_aset_ne _ _ _ _ hb, hb, ha, TG.sideOf, TG.getNode]
          · simp [hal, ha, TG.sideOf, TG.getNode]

theorem throughOf_eq (tg : TG) (t a : Nat) :
    tg.throughOf t a = (tg.sideOf t a).getD [] := rfl

theorem addEdge_wf (tg : TG) (l hi : Nat) (len : Int) (tg' : TG)
    (evs : List EdgeEv) (hok : tg.addEdge l hi len = .ok (true, tg', evs))
    (hwf : WFtg tg) : WFtg tg' := by
  obtain ⟨hne, hnoside, hchar⟩ := addEdge_sideOf tg l hi len tg' evs hok
  obtain ⟨hs, hn, ht⟩ := hwf
  have hthr : ∀ t a, tg'.throughOf t a =
      if (t = l ∧ a = hi) ∨ (t = hi ∧ a = l) then ([] : List Nat)
      else tg.throughOf t a := by
    intro t a
    rw [throughOf_eq, hchar t a]
    by_cases h1 : t = l ∧ a = hi
    · simp [h1]
    · by_cases h2 : t = hi ∧ a = l
      · simp [h1, h2]
      · simp [h1, h2, throughOf_eq]
  refine ⟨fun a b => ?_, fun a => ?_, fun t a b hb => ?_⟩
  · have h1s : ((tg'.sideOf a b).isSome) ↔
        ((a = l ∧ b = hi) ∨ (a = hi ∧ b = l) ∨ (tg.sideOf a b).isSome) := by
      rw [hchar a b]
      by_cases h1 : a = l ∧ b = hi
      · simp [h1]
      · by_cases h2 : a = hi ∧ b = l
        · simp [h1, h2]
        · simp [h1, h2]
    have h2s : ((tg'.sideOf b a).isSome) ↔
        ((b = l ∧ a = hi) ∨ (b = hi ∧ a = l) ∨ (tg.sideOf b a).isSome) := by
      rw [hchar b a]
      by_cases h1 : b = l ∧ a = hi
      · simp [h1]
      · by_cases h2 : b = hi ∧ a = l
        · simp [h1, h2]
        · simp [h1, h2]
    rw [h1s, h2s, hs a b]
    constructor
    · rintro (⟨rfl, rfl⟩ | ⟨rfl, rfl⟩ | hx)
      · exact Or.inr (Or.inl ⟨rfl, rfl⟩)
      · exact Or.inl ⟨rfl, rfl⟩
      · exact Or.inr (Or.inr hx)
    · rintro (⟨rfl, rfl⟩ | ⟨rfl, rfl⟩ | hx)
      · exact Or.inr (Or.inl ⟨rfl, rfl⟩)
      · exact Or.inl ⟨rfl, rfl⟩
      · exact Or.inr (Or.inr hx)
  · rw [hchar a a]
    have c1 : ¬ (a = l ∧ a = hi) := fun hc => hne (hc.1 ▸ hc.2)
    have c2 : ¬ (a = hi ∧ a = l) := fun hc => hne (hc.2 ▸ hc.1)
    simp only [if_neg c1, if_neg c2]
    exact hn a
  · rw [hthr t a] at hb
    by_cases hcond : (t = l ∧ a = hi) ∨ (t = hi ∧ a = l)
    · rw [if_pos hcond] at hb
      simp at hb
    · rw [if_neg hcond] at hb
      obtain ⟨hab, hbt, hat, hsta, hstb, hsym⟩ := ht t a b hb
      refine ⟨hab, hbt, hat, ?_, ?_, ?_⟩
      · rw [hchar t a]
        by_cases h1 : t = l ∧ a = hi
        · simp [h1]
        · by_cases h2 : t = hi ∧ a = l
          · simp [h1, h2]
          · simpa [h1, h2] using hsta
      · rw [hchar t b]
        by_cases h1 : t = l ∧ b = hi
        · simp [h1]
        · by_cases h2 : t = hi ∧ b = l
          · simp [h1, h2]
          · simpa [h1, h2] using hstb
      · rw [hthr t b]
        by_cases hcb : (t = l ∧ b = hi) ∨ (t = hi ∧ b = l)
        · exfalso
          rcases hcb with ⟨rfl, rfl⟩ | ⟨rfl, rfl⟩
          · rw [hnoside] at hstb
            simp at hstb
          · have hsb : (tg.sideOf b t).isSome := (hs t b).mp hstb
            rw [hnoside] at hsb
            simp at hsb
        · rw [if_neg hcb]
          exact hsym

/-- Lookup after the `forEach` in `deleteEdge` that strips the deleted
neighbour `y` out of the through sets of the sides it was connected to. -/
theorem foldl_thrPatch_lookup (y : Nat) :
    ∀ (thrList : List Nat) (other : List (Nat × List Nat)) (x : Nat),
      alookup (thrList.foldl (fun acc c =>
          match alookup acc c with
          | none => acc
          | some thr => aset acc c (sDel thr y)) other) x
        = (alookup other x).map
            (fun thr => if x ∈ thrList then sDel thr y else thr) := by
  intro thrList
  induction thrList with
  | nil =>
    intro other x
    simp
  | cons c rest ih =>
    intro other x
    rw [List.foldl_cons]
    cases hc : alookup other c with
    | none =>
      rw [ih]
      cases hx : alookup other x with
      | none => simp
      | some thr =>
        by_cases hxc : x = c
        · subst hxc
          rw [hx] at hc
          cases hc
        · simp [hxc]
    | some thr =>
      rw [ih]
      by_cases hxc : x = c
      · subst hxc
        rw [alookup_aset_self, hc]
        simp [sDel_sDel]
      · rw [alookup_aset_ne _ _ _ _ hxc]
        cases hx : alookup other x with
        | none => simp
        | some thr2 => simp [hxc]

theorem deleteEdge_no_side (tg : TG) (a b : Nat) (h : tg.sideOf a b = none) :
    tg.deleteEdge a b = (false, tg, []) := by
  rw [TG.deleteEdge]
  rw [show alookup (tg.getNode a).other b = tg.sideOf a b from rfl, h]

theorem deleteEdge_occupied (tg : TG) (a b : Nat) (thr : List Nat)
    (hside : tg.sideOf a b = some thr)
    (hocc : csTotal (tg.getEdge a b).slices ≠ 0) :
    tg.deleteEdge a b = (false, tg, []) := by
  rw [TG.deleteEdge]
  rw [show alookup (tg.getNode a).other b = tg.sideOf a b from rfl, hside]
  dsimp only []
  rw [if_pos hocc]

/-- Characterization of a successful `deleteEdge`: both sides vanish, the
deleted neighbour is stripped from the through sets that mentioned it, and
one length-0 event is emitted. -/
theorem deleteEdge_ok_char (tg : TG) (a b : Nat) (thrAB : List Nat)
    (hside : tg.sideOf a b = some thrAB)
    (hocc : csTotal (tg.getEdge a b).slices = 0)
    (hne : a ≠ b) :
    (tg.deleteEdge a b).1 = true ∧
    (tg.deleteEdge a b).2.2 = [⟨a, b, 0⟩] ∧
    ∀ t x, (tg.deleteEdge a b).2.1.sideOf t x =
      if t = a then
        (if x = b then none
         else (tg.sideOf a x).map
           (fun thr => if x ∈ thrAB then sDel thr b else thr))
      else if t = b then
        (if x = a then none
         else (tg.sideOf b x).map
           (fun thr => if x ∈ tg.throughOf b a then sDel thr a else thr))
      else tg.sideOf t x := by
  rw [TG.deleteEdge]
  rw [show alookup (tg.getNode a).other b = tg.sideOf a b from rfl, hside]
  dsimp only []
  rw [if_neg (by simp [hocc])]
  have hnodes1 : ∀ t, (TG.getNode { tg with edges := adel tg.edges (ekey a b) } t)
      = tg.getNode t := fun t => by simp [TG.getNode]
  refine ⟨rfl, rfl, fun t x => ?_⟩
  simp only [TG.sideOf, getNode_putNode, hnodes1]
  by_cases htb : t = b
  · subst htb
    rw [if_pos rfl, if_neg (Ne.symm hne), if_pos rfl]
    simp only [getNode_putNode, if_neg (Ne.symm hne), hnodes1]
    by_cases hxa : x = a
    · subst hxa
      simp [alookup_adel_self]
    · rw [alookup_adel_ne _ _ _ hxa, foldl_thrPatch_lookup]
      simp [hxa, TG.sideOf, TG.throughOf]
  · rw [if_neg htb]
    by_cases hta : t = a
    · subst hta
      rw [if_pos rfl, if_pos rfl]
      simp only [getNode_putNode, if_neg htb, hnodes1]
      by_cases hxb : x = b
      · subst hxb
        simp [alookup_adel_self]
      · rw [alookup_adel_ne _ _ _ hxb, foldl_thrPatch_lookup]
        simp [hxb, TG.sideOf]
    · rw [if_neg hta, if_neg hta, if_neg htb]

theorem deleteEdge_wf (tg : TG) (a b : Nat) (thrAB : List Nat)
    (hside : tg.sideOf a b = some thrAB)
    (hocc : csTotal (tg.getEdge a b).slices = 0)
    (hwf : WFtg tg) : WFtg (tg.deleteEdge a b).2.1 := by
  obtain ⟨hs, hn, ht⟩ := hwf
  have hne : a ≠ b := by
    intro h
    subst h
    rw [hn a] at hside
    cases hside
  obtain ⟨-, -, hchar⟩ := deleteEdge_ok_char tg a b thrAB hside hocc hne
  have hchar2 : ∀ t x, ((tg.deleteEdge a b).2.1.sideOf t x).isSome ↔
      (¬ (t = a ∧ x = b) ∧ ¬ (t = b ∧ x = a) ∧ (tg.sideOf t x).isSome) := by
    intro t x
    rw [hchar t x]
    by_cases hta : t = a
    · subst hta
      rw [if_pos rfl]
      by_cases hxb : x = b
      · subst hxb
        simp
      · have htb : ¬ (t = b ∧ x = t) := fun hc => hne hc.1
        simp [hxb, htb]
    · rw [if_neg hta]
      by_cases htb : t = b
      · subst htb
        rw [if_pos rfl]
        by_cases hxa : x = a
        · subst hxa
          simp
        · simp [hxa, hta]
      · simp [hta, htb]
  have hthru : ∀ t x, (tg.deleteEdge a b).2.1.throughOf t x =
      if t = a then
        (if x = b then []
         else if x ∈ thrAB then sDel (tg.throughOf a x) b else tg.throughOf a x)
      else if t = b then
        (if x = a then []
         else if x ∈ tg.throughOf b a then sDel (tg.throughOf b x) a
              else tg.throughOf b x)
      else tg.throughOf t x := by
    intro t x
    rw [throughOf_eq, hchar t x]
    by_cases hta : t = a
    · subst hta
      rw [if_pos rfl, if_pos rfl]
      by_cases hxb : x = b
      · simp [hxb]
      · rw [if_neg hxb, if_neg hxb]
        cases hcase : tg.sideOf t x with
        | none =>
          simp only [Option.map_none, Option.getD_none, throughOf_eq, hcase]
          split <;> simp [sDel]
        | some thr =>
          simp only [Option.map_some, Option.getD_some, throughOf_eq, hcase]
          split <;> simp
    · rw [if_neg hta, if_neg hta]
      by_cases htb : t = b
      · subst htb
        rw [if_pos rfl, if_pos rfl]
        by_cases hxa : x = a
        · simp [hxa]
        · rw [if_neg hxa, if_neg hxa]
          cases hcase : tg.sideOf t x with
          | none =>
            simp only [Option.map_none, Option.getD_none, throughOf_eq, hcase]
            split <;> simp [sDel]
          | some thr =>
            simp only [Option.map_some, Option.getD_some, throughOf_eq, hcase]
            split <;> simp
      · rw [if_neg htb, if_neg htb, throughOf_eq]
  refine ⟨fun x y => ?_, fun x => ?_, fun t x y hy => ?_⟩
  · rw [hchar2 x y, hchar2 y x]
    constructor
    · rintro ⟨h1, h2, h3⟩
      exact ⟨fun hc => h2 ⟨hc.2, hc.1⟩, fun hc => h1 ⟨hc.2, hc.1⟩, (hs x y).mp h3⟩
    · rintro ⟨h1, h2, h3⟩
      exact ⟨fun hc => h2 ⟨hc.2, hc.1⟩, fun hc => h1 ⟨hc.2, hc.1⟩, (hs x y).mpr h3⟩
  · cases hcase : (tg.deleteEdge a b).2.1.sideOf x x with
    | none => rfl
    | some v =>
      have : ((tg.deleteEdge a b).2.1.sideOf x x).isSome := by rw [hcase]; rfl
      rw [hchar2 x x] at this
      rw [hn x] at this
      simp at this
  · -- ThroughWF
    rw [hthru t x] at hy
    by_cases hta : t = a
    · subst hta
      rw [if_pos rfl] at hy
      by_cases hxb : x = b
      · rw [if_pos hxb] at hy
        simp at hy
      · rw [if_neg hxb] at hy
        have hymem : y ∈ tg.throughOf t x ∧ y ≠ b := by
          by_cases hmem : x ∈ thrAB
          · rw [if_pos hmem, mem_sDel] at hy
            exact hy
          · rw [if_neg hmem] at hy
            refine ⟨hy, fun hyb => ?_⟩
            subst hyb
            have := (ht t x y hy).2.2.2.2.2
            rw [show tg.throughOf t y = thrAB from by
              rw [throughOf_eq, hside]; rfl] at this
            exact hmem this
        obtain ⟨hy0, hyb⟩ := hymem
        obtain ⟨hxy, hyt, hxt, hsx, hsy, hsym⟩ := ht t x y hy0
        refine ⟨hxy, hyt, hxt, ?_, ?_, ?_⟩
        · rw [hchar2 t x]
          exact ⟨fun hc => hxb hc.2, fun hc => hne hc.1, hsx⟩
        · rw [hchar2 t y]
          exact ⟨fun hc => hyb hc.2, fun hc => hne hc.1, hsy⟩
        · rw [hthru t y, if_pos rfl, if_neg hyb]
          by_cases hmem : y ∈ thrAB
          · rw [if_pos hmem, mem_sDel]
            exact ⟨hsym, fun hxb2 => hxb hxb2⟩
          · rw [if_neg hmem]
            exact hsym
    · rw [if_neg hta] at hy
      by_cases htb : t = b
      · subst htb
        rw [if_pos rfl] at hy
        by_cases hxa : x = a
        · rw [if_pos hxa] at hy
          simp at hy
        · rw [if_neg hxa] at hy
          have hymem : y ∈ tg.throughOf t x ∧ y ≠ a := by
            by_cases hmem : x ∈ tg.throughOf t a
            · rw [if_pos hmem, mem_sDel] at hy
              exact hy
            · rw [if_neg hmem] at hy
              refine ⟨hy, fun hya => ?_⟩
              subst hya
              have := (ht t x y hy).2.2.2.2.2
              exact hmem this
          obtain ⟨hy0, hya⟩ := hymem
          obtain ⟨hxy, hyt, hxt, hsx, hsy, hsym⟩ := ht t x y hy0
          refine ⟨hxy, hyt, hxt, ?_, ?_, ?_⟩
          · rw [hchar2 t x]
            exact ⟨fun hc => hne hc.1.symm, fun hc => hxa hc.2, hsx⟩
          · rw [hchar2 t y]
            exact ⟨fun hc => hne hc.1.symm, fun hc => hya hc.2, hsy⟩
          · rw [hthru t y, if_neg (fun hc : t = a => hne hc.symm), if_pos rfl,
              if_neg hya]
            by_cases hmem : y ∈ tg.throughOf t a
            · rw [if_pos hmem, mem_sDel]
              exact ⟨hsym, hxa⟩
            · rw [if_neg hmem]
              exact hsym
      · rw [if_neg htb] at hy
        obtain ⟨hxy, hyt, hxt, hsx, hsy, hsym⟩ := ht t x y hy
        refine ⟨hxy, hyt, hxt, ?_, ?_, ?_⟩
        · rw [hchar2 t x]
          exact ⟨fun hc => hta hc.1, fun hc => htb hc.1, hsx⟩
        · rw [hchar2 t y]
          exact ⟨fun hc => hta hc.1, fun hc => htb hc.1, hsy⟩
        · rw [hthru t y, if_neg hta, if_neg htb]
          exact hsym


theorem connect_wf (tg : TG) (a t b : Nat) (r : Bool) (tg' : TG)
    (h : tg.connect a t b = .ok (r, tg')) (hwf : WFtg tg) : WFtg tg' := by
  rw [TG.connect] at h
  split at h
  · cases h
  · rename_i hd
    push_neg at hd
    obtain ⟨hab, hta, htb⟩ := hd
    dsimp only [] at h
    split at h
    case h_2 => cases h; exact hwf
    case h_1 aThr bThr ha hb =>
      split at h
      · cases h
        exact hwf
      · rename_i hnotyet
        cases h
        obtain ⟨hs, hn, ht⟩ := hwf
        have hsa : tg.sideOf t a = some aThr := ha
        have hsb : tg.sideOf t b = some bThr := hb
        have haThr : tg.throughOf t a = aThr := by rw [throughOf_eq, hsa]; rfl
        have hbThr : tg.throughOf t b = bThr := by rw [throughOf_eq, hsb]; rfl
        have hsideO : ∀ u x, u ≠ t →
            (TG.putNode tg t
              { tg.getNode t with
                other := aset (aset (tg.getNode t).other a (sAdd aThr b)) b
                  (sAdd bThr a) }).sideOf u x = tg.sideOf u x := by
          intro u x hu
          simp [TG.sideOf, getNode_putNode, hu]
        have hsideT : ∀ x,
            (TG.putNode tg t
              { tg.getNode t with
                other := aset (aset (tg.getNode t).other a (sAdd aThr b)) b
                  (sAdd bThr a) }).sideOf t x =
            if x = b then some (sAdd bThr a)
            else if x = a then some (sAdd aThr b)
            else tg.sideOf t x := by
          intro x
          simp only [TG.sideOf, getNode_putNode, eq_self_iff_true, if_true]
          by_cases hxb : x = b
          · subst hxb
            rw [alookup_aset_self]
            simp
          · rw [alookup_aset_ne _ _ _ _ hxb]
            by_cases hxa : x = a
            · subst hxa
              rw [alookup_aset_self]
              simp [hxb]
            · rw [alookup_aset_ne _ _ _ _ hxa]
              simp [hxa, hxb, TG.sideOf]
        have hthruO : ∀ u x, u ≠ t →
            (TG.putNode tg t
              { tg.getNode t with
                other := aset (aset (tg.getNode t).other a (sAdd aThr b)) b
                  (sAdd bThr a) }).throughOf u x = tg.throughOf u x := by
          intro u x hu
          rw [throughOf_eq, throughOf_eq, hsideO u x hu]
        have hthruT : ∀ x,
            (TG.putNode tg t
              { tg.getNode t with
                other := aset (aset (tg.getNode t).other a (sAdd aThr b)) b
                  (sAdd bThr a) }).throughOf t x =
            if x = b then sAdd bThr a
            else if x = a then sAdd aThr b
            else tg.throughOf t x := by
          intro x
          rw [throughOf_eq, hsideT x]
          by_cases hxb : x = b
          · simp [hxb]
          · by_cases hxa : x = a
            · simp [hxa, hxb, hab]
            · simp [hxa, hxb, throughOf_eq]
        have hanotb : a ∉ bThr := by
          intro hmem
          rw [← hbThr] at hmem
          have := (ht t b a hmem).2.2.2.2.2
          rw [haThr] at this
          exact hnotyet this
        have hisoT : ∀ x,
            ((TG.putNode tg t
              { tg.getNode t with
                other := aset (aset (tg.getNode t).other a (sAdd aThr b)) b
                  (sAdd bThr a) }).sideOf t x).isSome
              = (tg.sideOf t x).isSome := by
          intro x
          rw [hsideT x]
          by_cases hxb : x = b
          · subst hxb
            simp [hsb]
          · by_cases hxa : x = a
            · subst hxa
              simp [hxb, hsa]
            · simp [hxa, hxb]
        refine ⟨fun u x => ?_, fun u => ?_, fun u x y hy => ?_⟩
        · by_cases hu : u = t
          · subst hu
            by_cases hx : x = u
            · subst hx
              rw [hisoT x]
            · rw [hisoT x, hsideO x u hx]
              exact hs u x
          · by_cases hx : x = t
            · subst hx
              rw [hisoT u, hsideO u x hu]
              exact hs u x
            · rw [hsideO u x hu, hsideO x u hx]
              exact hs u x
        · by_cases hu : u = t
          · subst hu
            rw [hsideT u, if_neg htb, if_neg hta]
            exact hn u
          · rw [hsideO u u hu]
            exact hn u
        · by_cases hu : u = t
          · subst hu
            rw [hthruT x] at hy
            by_cases hxb : x = b
            · subst hxb
              rw [if_pos rfl] at hy
              rw [mem_sAdd] at hy
              rcases hy with hy | rfl
              · rw [← hbThr] at hy
                obtain ⟨hxy, hyu, hxu, hsx, hsy, hsym⟩ := ht u x y hy
                have hya : y ≠ a := fun hc => hanotb (hc ▸ hbThr ▸ hy)
                refine ⟨hxy, hyu, hxu, ?_, ?_, ?_⟩
                · rw [hsideT x, if_pos rfl]
                  simp
                · rw [hsideT y, if_neg (Ne.symm hxy), if_neg hya]
                  exact hsy
                · rw [hthruT y, if_neg (Ne.symm hxy), if_neg hya]
                  exact hsym
              · refine ⟨Ne.symm hab, Ne.symm hta, Ne.symm htb, ?_, ?_, ?_⟩
                · rw [hsideT x, if_pos rfl]
                  simp
                · rw [hsideT y, if_neg hab, if_pos rfl]
                  simp
                · rw [hthruT y, if_neg hab, if_pos rfl, mem_sAdd]
                  exact Or.inr rfl
            · rw [if_neg hxb] at hy
              by_cases hxa : x = a
              · subst hxa
                rw [if_pos rfl] at hy
                rw [mem_sAdd] at hy
                rcases hy with hy | rfl
                · rw [← haThr] at hy
                  obtain ⟨hxy, hyu, hxu, hsx, hsy, hsym⟩ := ht u x y hy
                  have hyb : y ≠ b := fun hc => hnotyet (hc ▸ haThr ▸ hy)
                  refine ⟨hxy, hyu, hxu, ?_, ?_, ?_⟩
                  · rw [hsideT x, if_neg hxb, if_pos rfl]
                    simp
                  · rw [hsideT y, if_neg hyb, if_neg (Ne.symm hxy)]
                    exact hsy
                  · rw [hthruT y, if_neg hyb, if_neg (Ne.symm hxy)]
                    exact hsym
                · refine ⟨hab, Ne.symm htb, Ne.symm hta, ?_, ?_, ?_⟩
                  · rw [hsideT x, if_neg hxb, if_pos rfl]
                    simp
                  · rw [hsideT y, if_pos rfl]
                    simp
                  · rw [hthruT y, if_pos rfl, mem_sAdd]
                    exact Or.inr rfl
              · rw [if_neg hxa] at hy
                obtain ⟨hxy, hyu, hxu, hsx, hsy, hsym⟩ := ht u x y hy
                refine ⟨hxy, hyu, hxu, ?_, ?_, ?_⟩
                · rw [hsideT x, if_neg hxb, if_neg hxa]
                  exact hsx
                · rw [hisoT y]
                  exact hsy
                · rw [hthruT y]
                  by_cases hyb : y = b
                  · subst hyb
                    rw [if_pos rfl, mem_sAdd, ← hbThr]
                    exact Or.inl hsym
                  · rw [if_neg hyb]
                    by_cases hya : y = a
                    · subst hya
                      rw [if_pos rfl, mem_sAdd, ← haThr]
                      exact Or.inl hsym
                    · rw [if_neg hya]
                      exact hsym
          · rw [hthruO u x hu] at hy
            obtain ⟨hxy, hyu, hxu, hsx, hsy, hsym⟩ := ht u x y hy
            refine ⟨hxy, hyu, hxu, ?_, ?_, ?_⟩
            · rw [hsideO u x hu]
              exact hsx
            · rw [hsideO u y hu]
              exact hsy
            · rw [hthruO u y hu]
              exact hsym

theorem disconnect_wf (tg : TG) (a t b : Nat) (r : Bool) (tg' : TG)
    (h : tg.disconnect a t b = .ok (r, tg')) (hwf : WFtg tg) : WFtg tg' := by
  rw [TG.disconnect] at h
  dsimp only [] at h
  split at h
  · cases h
    exact hwf
  · rename_i aThr ha
    split at h
    · cases h
      exact hwf
    · rename_i hmem
      rw [not_not] at hmem
      split at h
      · cases h
      · split at h
        · cases h
          exact hwf
        · split at h
          · cases h
          · rename_i bThr hb
            cases h
            obtain ⟨hs, hn, ht⟩ := hwf
            have hsa : tg.sideOf t a = some aThr := ha
            have haThr : tg.throughOf t a = aThr := by rw [throughOf_eq, hsa]; rfl
            obtain ⟨hab, hbt, hat, hsxa, hsyb, hsym0⟩ := ht t a b (haThr ▸ hmem)
            have hsb : tg.sideOf t b = some bThr := by
              show alookup (tg.getNode t).other b = some bThr
              rw [← alookup_aset_ne (tg.getNode t).other a b (sDel aThr b) (Ne.symm hab)]
              exact hb
            have hbThr : tg.throughOf t b = bThr := by rw [throughOf_eq, hsb]; rfl
            have hsym : a ∈ bThr := hbThr ▸ hsym0
            have hsideO : ∀ u x, u ≠ t →
                (TG.putNode tg t
                  { tg.getNode t with
                    other := aset (aset (tg.getNode t).other a (sDel aThr b)) b
                      (sDel bThr a) }).sideOf u x = tg.sideOf u x := by
              intro u x hu
              simp [TG.sideOf, getNode_putNode, hu]
            have hsideT : ∀ x,
                (TG.putNode tg t
                  { tg.getNode t with
                    other := aset (aset (tg.getNode t).other a (sDel aThr b)) b
                      (sDel bThr a) }).sideOf t x =
                if x = b then some (sDel bThr a)
                else if x = a then some (sDel aThr b)
                else tg.sideOf t x := by
              intro x
              simp only [TG.sideOf, getNode_putNode, eq_self_iff_true, if_true]
              by_cases hxb : x = b
              · subst hxb
                rw [alookup_aset_self]
                simp
              · rw [alookup_aset_ne _ _ _ _ hxb]
                by_cases hxa : x = a
                · subst hxa
                  rw [alookup_aset_self]
                  simp [hxb]
                · rw [alookup_aset_ne _ _ _ _ hxa]
                  simp [hxa, hxb, TG.sideOf]
            have hthruO : ∀ u x, u ≠ t →
                (TG.putNode tg t
                  { tg.getNode t with
                    other := aset (aset (tg.getNode t).other a (sDel aThr b)) b
                      (sDel bThr a) }).throughOf u x = tg.throughOf u x := by
              intro u x hu
              rw [throughOf_eq, throughOf_eq, hsideO u x hu]
            have hthruT : ∀ x,
                (TG.putNode tg t
                  { tg.getNode t with
                    other := aset (aset (tg.getNode t).other a (sDel aThr b)) b
                      (sDel bThr a) }).throughOf t x =
                if x = b then sDel bThr a
                else if x = a then sDel aThr b
                else tg.throughOf t x := by
              intro x
              rw [throughOf_eq, hsideT x]
              by_cases hxb : x = b
              · simp [hxb]
              · by_cases hxa : x = a
                · simp [hxa, hxb, hab]
                · simp [hxa, hxb, throughOf_eq]
            have hisoT : ∀ x,
                ((TG.putNode tg t
                  { tg.getNode t with
                    other := aset (aset (tg.getNode t).other a (sDel aThr b)) b
                      (sDel bThr a) }).sideOf t x).isSome
                  = (tg.sideOf t x).isSome := by
              intro x
              rw [hsideT x]
              by_cases hxb : x = b
              · subst hxb
                simp [hsb]
              · by_cases hxa : x = a
                · subst hxa
                  simp [hxb, hsa]
                · simp [hxa, hxb]
            refine ⟨fun u x => ?_, fun u => ?_, fun u x y hy => ?_⟩
            · by_cases hu : u = t
              · subst hu
                by_cases hx : x = u
                · subst hx
                  rw [hisoT x]
                · rw [hisoT x, hsideO x u hx]
                  exact hs u x
              · by_cases hx : x = t
                · subst hx
                  rw [hisoT u, hsideO u x hu]
                  exact hs u x
                · rw [hsideO u x hu, hsideO x u hx]
                  exact hs u x
            · by_cases hu : u = t
              · subst hu
                rw [hsideT u, if_neg (Ne.symm hbt), if_neg (Ne.symm hat)]
                exact hn u
              · rw [hsideO u u hu]
                exact hn u
            · by_cases hu : u = t
              · subst hu
                rw [hthruT x] at hy
                by_cases hxb : x = b
                · subst hxb
                  rw [if_pos rfl, mem_sDel] at hy
                  obtain ⟨hy, hya⟩ := hy
                  rw [← hbThr] at hy
                  obtain ⟨hxy, hyu, hxu, hsx1, hsy1, hsym1⟩ := ht u x y hy
                  refine ⟨hxy, hyu, hxu, ?_, ?_, ?_⟩
                  · rw [hisoT x]
                    exact hsx1
                  · rw [hsideT y, if_neg (Ne.symm hxy), if_neg hya]
                    exact hsy1
                  · rw [hthruT y, if_neg (Ne.symm hxy), if_neg hya]
                    exact hsym1
                · rw [if_neg hxb] at hy
                  by_cases hxa : x = a
                  · subst hxa
                    rw [if_pos rfl, mem_sDel] at hy
                    obtain ⟨hy, hyb⟩ := hy
                    rw [← haThr] at hy
                    obtain ⟨hxy, hyu, hxu, hsx1, hsy1, hsym1⟩ := ht u x y hy
                    refine ⟨hxy, hyu, hxu, ?_, ?_, ?_⟩
                    · rw [hisoT x]
                      exact hsx1
                    · rw [hsideT y, if_neg hyb, if_neg (Ne.symm hxy)]
                      exact hsy1
                    · rw [hthruT y, if_neg hyb, if_neg (Ne.symm hxy)]
                      exact hsym1
                  · rw [if_neg hxa] at hy
                    obtain ⟨hxy, hyu, hxu, hsx1, hsy1, hsym1⟩ := ht u x y hy
                    refine ⟨hxy, hyu, hxu, ?_, ?_, ?_⟩
                    · rw [hisoT x]
                      exact hsx1
                    · rw [hisoT y]
                      exact hsy1
                    · rw [hthruT y]
                      by_cases hyb : y = b
                      · subst hyb
                        rw [if_pos rfl, mem_sDel, ← hbThr]
                        exact ⟨hsym1, hxa⟩
                      · rw [if_neg hyb]
                        by_cases hya : y = a
                        · subst hya
                          rw [if_pos rfl, mem_sDel, ← haThr]
                          exact ⟨hsym1, hxb⟩
                        · rw [if_neg hya]
                          exact hsym1
              · rw [hthruO u x hu] at hy
                obtain ⟨hxy, hyu, hxu, hsx1, hsy1, hsym1⟩ := ht u x y hy
                refine ⟨hxy, hyu, hxu, ?_, ?_, ?_⟩
                · rw [hsideO u x hu]
                  exact hsx1
                · rw [hsideO u y hu]
                  exact hsy1
                · rw [hthruO u y hu]
                  exact hsym1

theorem addEdge_false_eq (tg : TG) (l hi : Nat) (len : Int) (tg' : TG) (evs : List EdgeEv)
    (h : tg.addEdge l hi len = .ok (false, tg', evs)) : tg' = tg := by
  rw [TG.addEdge] at h
  split at h
  · cases h
  · split at h
    · cases h
    · dsimp only [] at h
      split at h
      · cases h
        rfl
      · cases h

theorem foldl_getNode_other {α : Type} (f : TG → α → TG)
    (hf : ∀ tg x t, ((f tg x).getNode t).other = (tg.getNode t).other) :
    ∀ (l : List α) (tg : TG) (t : Nat),
      ((l.foldl f tg).getNode t).other = (tg.getNode t).other := by
  intro l
  induction l with
  | nil => intro tg t; rfl
  | cons x xs ih =>
    intro tg t
    rw [List.foldl_cons, ih, hf]

theorem addSlice_other (tg : TG) (id onN t : Nat) :
    (((tg.addSlice id onN).2).getNode t).other = (tg.getNode t).other := by
  rw [TG.addSlice]
  split
  · rfl
  · dsimp only []
    rw [getNode_addNodeSlice_other]
    rfl

theorem deleteSlice_other (tg : TG) (id : Nat) (r : Bool) (tg' : TG)
    (h : tg.deleteSlice id = .ok (r, tg')) :
    ∀ t, (tg'.getNode t).other = (tg.getNode t).other := by
  intro t
  rw [TG.deleteSlice] at h
  split at h
  · cases h
    rfl
  · rename_i slice hsl
    dsimp only [] at h
    split at h
    · split at h
      · cases h
      · split at h
        · cases h
        · split at h
          · cases h
          · split at h
            · cases h
            · cases h
              rw [show ∀ (g : TG) s, (({ g with slices := s } : TG).getNode t).other
                    = (g.getNode t).other from fun g s => rfl]
              rw [getNode_delNodeSlice_other]
    · cases h
      rw [show ∀ (g : TG) s, (({ g with slices := s } : TG).getNode t).other
            = (g.getNode t).other from fun g s => rfl]
      rw [foldl_getNode_other _ (fun g n u => getNode_delNodeSlice_other g n id u)]
      rw [foldl_getNode_other _
        (fun g i u => congrArg NodeD.other (getNode_delEdgeSlice g
          ((slice.along.get? i).getD 0) ((slice.along.get? (i + 1)).getD 0) id u))]

theorem applyOp_wf (tg : TG) (op : Op) (hwf : WFtg tg) : WFtg (applyOp tg op) := by
  cases op with
  | addEdge l hi len =>
    rw [applyOp]
    split
    · rename_i r tg1 evs heq
      cases r with
      | true => exact addEdge_wf tg l hi len tg1 evs heq hwf
      | false => exact (addEdge_false_eq tg l hi len tg1 evs heq) ▸ hwf
    · exact hwf
  | deleteEdge a b =>
    show WFtg (tg.deleteEdge a b).2.1
    cases hside : tg.sideOf a b with
    | none =>
      rw [deleteEdge_no_side tg a b hside]
      exact hwf
    | some thr =>
      by_cases hocc : csTotal (tg.getEdge a b).slices = 0
      · exact deleteEdge_wf tg a b thr hside hocc hwf
      · rw [deleteEdge_occupied tg a b thr hside hocc]
        exact hwf
  | connect a t b =>
    rw [applyOp]
    split
    · rename_i r tg1 heq
      exact connect_wf tg a t b r tg1 heq hwf
    · exact hwf
  | disconnect a t b =>
    rw [applyOp]
    split
    · rename_i r tg1 heq
      exact disconnect_wf tg a t b r tg1 heq hwf
    · exact hwf
  | addSlice id onN =>
    show WFtg (tg.addSlice id onN).2
    exact wf_of_other_eq tg _ (fun t => addSlice_other tg id onN t) hwf
  | modifySlice id e b wh =>
    rw [applyOp]
    split
    · rename_i r tg1 heq
      exact wf_of_other_eq tg tg1 (modifySlice_other tg id e b wh r tg1 heq) hwf
    · exact hwf
  | deleteSlice id =>
    rw [applyOp]
    split
    · rename_i r tg1 heq
      exact wf_of_other_eq tg tg1 (deleteSlice_other tg id r tg1 heq) hwf
    · exact hwf

theorem wf_runOps (ops : List Op) : WFtg (runOps ops) := by
  rw [runOps]
  have h : ∀ tg, WFtg tg → WFtg (ops.foldl applyOp tg) := by
    induction ops with
    | nil => intro tg h; exact h
    | cons op rest ih =>
      intro tg h
      exact ih _ (applyOp_wf tg op h)
  exact h TG.empty wf_empty

theorem lookupEdge_none_iff (g : TG) (x y : Nat) :
    g.lookupEdge x y = none ↔ g.sideOf x y = none := by
  rw [TG.lookupEdge]
  cases h : g.sideOf x y <;> simp

/-- C8: after every finite sequence of public track-graph operations, the
through relation is symmetric at every node: `a ∈ through(t, b)` iff
`b ∈ through(t, a)`. -/
theorem through_symmetry_invariant (ops : List Op) (t a b : Nat) :
    a ∈ (runOps ops).throughOf t b ↔ b ∈ (runOps ops).throughOf t a := by
  obtain ⟨hs, hn, ht⟩ := wf_runOps ops
  constructor
  · intro h
    exact (ht t b a h).2.2.2.2.2
  · intro h
    exact (ht t a b h).2.2.2.2.2

/-- C9 amended: on every reachable state, `disconnect` called with a
non-distinct triple does not raise; it returns `false` and leaves the state
unchanged, because a through link over a non-distinct triple can never
exist. -/
theorem disconnect_nondistinct_refuses (ops : List Op) (a t b : Nat)
    (hnd : a = b ∨ t = a ∨ t = b) :
    (runOps ops).disconnect a t b = .ok (false, runOps ops) := by
  obtain ⟨hs, hn, ht⟩ := wf_runOps ops
  rw [TG.disconnect]
  dsimp only []
  split
  · rfl
  · rename_i aThr ha
    have hnotin : b ∉ aThr := by
      intro hmem
      have hmem' : b ∈ (runOps ops).throughOf t a := by
        rw [throughOf_eq]
        rw [show (runOps ops).sideOf t a = some aThr from ha]
        exact hmem
      obtain ⟨hab, hbt, hat, _, _, _⟩ := ht t a b hmem'
      rcases hnd with h | h | h
      · exact hab h
      · exact hat h.symm
      · exact hbt h.symm
    rw [if_pos hnotin]

/-- C2: on every reachable state, `deleteEdge(a, b)` refuses with `false` when
no edge joins `a` and `b` and when the edge is occupied by a slice; on success
it returns `true`, the edge is gone from both lookup directions, no through
set at either endpoint still references the other, and exactly one
`edge-change` event with length `0` is emitted. -/
theorem deleteEdge_spec (ops : List Op) (a b : Nat) :
    ((runOps ops).lookupEdge a b = none →
      (runOps ops).deleteEdge a b = (false, runOps ops, [])) ∧
    (((runOps ops).lookupEdge a b).isSome →
      csTotal ((runOps ops).getEdge a b).slices ≠ 0 →
      (runOps ops).deleteEdge a b = (false, runOps ops, [])) ∧
    (((runOps ops).lookupEdge a b).isSome →
      csTotal ((runOps ops).getEdge a b).slices = 0 →
      ((runOps ops).deleteEdge a b).1 = true ∧
      ((runOps ops).deleteEdge a b).2.1.lookupEdge a b = none ∧
      ((runOps ops).deleteEdge a b).2.1.lookupEdge b a = none ∧
      (∀ x, b ∉ ((runOps ops).deleteEdge a b).2.1.throughOf a x ∧
            a ∉ ((runOps ops).deleteEdge a b).2.1.throughOf b x) ∧
      ((runOps ops).deleteEdge a b).2.2 = [⟨a, b, 0⟩]) := by
  obtain ⟨hs, hn, ht⟩ := wf_runOps ops
  refine ⟨fun hno => ?_, fun hsome hocc => ?_, fun hsome hocc => ?_⟩
  · exact deleteEdge_no_side _ a b ((lookupEdge_none_iff _ a b).mp hno)
  · cases hside : (runOps ops).sideOf a b with
    | none =>
      rw [(lookupEdge_none_iff _ a b).mpr hside] at hsome
      cases hsome
    | some thr => exact deleteEdge_occupied _ a b thr hside hocc
  · cases hside : (runOps ops).sideOf a b with
    | none =>
      rw [(lookupEdge_none_iff _ a b).mpr hside] at hsome
      cases hsome
    | some thrAB =>
      have hne : a ≠ b := by
        intro h
        subst h
        rw [hn a] at hside
        cases hside
      obtain ⟨h1, h2, hchar⟩ := deleteEdge_ok_char _ a b thrAB hside hocc hne
      have hthrAB : (runOps ops).throughOf a b = thrAB := by
        rw [throughOf_eq, hside]; rfl
      refine ⟨h1, ?_, ?_, fun x => ⟨?_, ?_⟩, h2⟩
      · rw [lookupEdge_none_iff, hchar a b, if_pos rfl, if_pos rfl]
      · rw [lookupEdge_none_iff, hchar b a, if_neg (Ne.symm hne), if_pos rfl,
          if_pos rfl]
      · rw [throughOf_eq, hchar a x, if_pos rfl]
        by_cases hxb : x = b
        · simp [hxb]
        · rw [if_neg hxb]
          cases hax : (runOps ops).sideOf a x with
          | none => simp
          | some thr2 =>
            simp only [Option.map_some', Option.getD_some]
            by_cases hmem : x ∈ thrAB
            · rw [if_pos hmem, mem_sDel]
              intro hc
              exact hc.2 rfl
            · rw [if_neg hmem]
              intro hc
              have hc' : b ∈ (runOps ops).throughOf a x := by
                rw [throughOf_eq, hax]
                exact hc
              have := (ht a x b hc').2.2.2.2.2
              rw [hthrAB] at this
              exact hmem this
      · rw [throughOf_eq, hchar b x, if_neg (Ne.symm hne), if_pos rfl]
        by_cases hxa : x = a
        · simp [hxa]
        · rw [if_neg hxa]
          cases hbx : (runOps ops).sideOf b x with
          | none => simp
          | some thr2 =>
            simp only [Option.map_some', Option.getD_some]
            by_cases hmem : x ∈ (runOps ops).throughOf b a
            · rw [if_pos hmem, mem_sDel]
              intro hc
              exact hc.2 rfl
            · rw [if_neg hmem]
              intro hc
              have hc' : a ∈ (runOps ops).throughOf b x := by
                rw [throughOf_eq, hbx]
                exact hc
              exact hmem ((ht b x a hc').2.2.2.2.2)

/-- C9 amended witness: `disconnect(1, 2, 1)` on the empty graph returns
`false` without raising. -/
theorem disconnect_nondistinct_refuses_witness :
    (runOps []).disconnect 1 2 1 = .ok (false, runOps []) :=
  disconnect_nondistinct_refuses [] 1 2 1 (Or.inl rfl)

/-- C2 witness: deleting the only edge of a two-node graph succeeds, removes
the edge, and reports one zero-length event. -/
theorem deleteEdge_spec_witness :
    ((runOps [Op.addEdge 1 2 5]).deleteEdge 1 2).1 = true ∧
    ((runOps [Op.addEdge 1 2 5]).deleteEdge 1 2).2.2 = [⟨1, 2, 0⟩] :=
  ⟨((deleteEdge_spec [Op.addEdge 1 2 5] 1 2).2.2 (by decide) (by decide)).1,
   ((deleteEdge_spec [Op.addEdge 1 2 5] 1 2).2.2 (by decide) (by decide)).2.2.2.2⟩

/-! ### C3: `ComponentGraph` deletion semantics -/


/-- C3: after `add(1,2); add(2,3); delete(1,2)` the endpoint `1` has no
remaining pairs — yet it still appears in `sharedWith(3)`, whose group set is
still `{1, 2, 3}`, while `sharedWith(1)` is the singleton `{1}`.  The claim
demands that `1` be dropped from its former group and no longer appear in
`sharedWith(x)` for the other keys of that group; the code only removes the
orphan's own `#comp` entry and leaves it inside the group's `all` set. -/
theorem componentGraph_orphan_retained :
    pmPairsWith cgOrphanState.pairs 1 = 0 ∧
    cgOrphanState.sharedWith 1 = [1] ∧
    cgOrphanState.sharedWith 3 = [1, 2, 3] ∧
    1 ∈ cgOrphanState.sharedWith 3 := by decide

/-! ### C4 and C7: the division graph under edge deletion and re-insertion -/


/-- C4: after `deleteEdge(1,2)` succeeds and `addEdge(1,2,5)` succeeds again,
the re-added edge exists in the track graph and node `2` is unblocked and
shared with edge `(2,3)` — but `lookupDivisionByEdge(1,2)` yields only the
edge itself instead of every edge reachable through the shared node `2`
(`lookupDivisionByEdge(2,3)` shows `(2,3)` is live and even still lists the
stale `(1,2)` token).  The internal `deleteEdge` never removes the pair from
`#edgeNodes`, so the positive-length re-add event is treated as a duplicate
and allocates no token and no C6 pairs. -/
theorem division_readd_not_reconnected :
    (dgScenario.tg.lookupEdge 1 2).isSome = true ∧
    (dgScenario.tg.lookupEdge 2 3).isSome = true ∧
    (dgScenario.dg.map (fun d => d.blockedNodes)) = some [] ∧
    sysLookupDivisionByEdge dgScenario 1 2 = [(1, 2)] ∧
    (2, 3) ∉ sysLookupDivisionByEdge dgScenario 1 2 ∧
    sysLookupDivisionByEdge dgScenario 2 3 = [(1, 2), (2, 3)] := by decide

/-- C7: from the reachable state `dgScenario` (node `2` not blocked, edge
`(1,2)` existing), `addDivision(2)` succeeds and `deleteDivision(2)` succeeds
with no interleaving mutation — but `lookupDivisionByEdge(1,2)` is `[(1,2)]`
before the round trip and `[(1,2),(2,3)]` after it: the set grew instead of
being restored exactly.  `unblockNode` re-adds a `(node, surrogate)` pair
that was not present before the block, resurrecting the stale surrogate into
node 2's component. -/
theorem division_roundTrip_not_restored :
    (dgScenario.dg.map (fun d => d.blockedNodes.contains 2)) = some false ∧
    (dgScenario.tg.lookupEdge 1 2).isSome = true ∧
    (sysAddDivision dgScenario 2).1 = true ∧
    (sysDeleteDivision (sysAddDivision dgScenario 2).2 2).1 = true ∧
    sysLookupDivisionByEdge dgScenario 1 2 = [(1, 2)] ∧
    sysLookupDivisionByEdge
      (sysDeleteDivision (sysAddDivision dgScenario 2).2 2).2 1 2
      = [(1, 2), (2, 3)] ∧
    (2, 3) ∉ sysLookupDivisionByEdge dgScenario 1 2 := by decide

/-! ### C10: cancellation makes the division graph inert -/

/-- After any further system steps, a nulled internal graph stays null. -/
theorem dg_none_stable (s : DGSys) (h : s.dg = none) (ops : List SysOp) :
    (runSysFrom s ops).dg = none := by
  induction ops generalizing s with
  | nil => exact h
  | cons op rest ih =>
    refine ih _ ?_
    cases op with
    | tgOp o => simp [applySysOp, h]
    | abortSignal => simp [applySysOp]

/-- C10: once the cancellation handle is signalled — including when it was
already signalled at construction, where the subscription is never made — the
division graph is inert: after any later track-graph mutations or signals,
`addDivision` and `deleteDivision` return `false` without touching the state,
`lookupDivisionByEdge` yields the empty iterator, and re-signalling the abort
is a no-op. -/
theorem divisionGraph_cancelled_inert (s : DGSys) (h : s.dg = none)
    (ops : List SysOp) :
    (∀ tg, (mkDGSys tg true).dg = none) ∧
    (runSysFrom s ops).dg = none ∧
    (∀ n, sysAddDivision (runSysFrom s ops) n = (false, runSysFrom s ops)) ∧
    (∀ n, sysDeleteDivision (runSysFrom s ops) n = (false, runSysFrom s ops)) ∧
    (∀ a b, sysLookupDivisionByEdge (runSysFrom s ops) a b = []) ∧
    applySysOp (runSysFrom s ops) .abortSignal = runSysFrom s ops := by
  have hnone := dg_none_stable s h ops
  refine ⟨fun tg => rfl, hnone, ?_, ?_, ?_, ?_⟩
  · intro n; simp [sysAddDivision, hnone]
  · intro n; simp [sysDeleteDivision, hnone]
  · intro a b; simp [sysLookupDivisionByEdge, hnone]
  · cases hs : runSysFrom s ops with
    | mk tg dg => simp [applySysOp]; rw [hs] at hnone; exact hnone.symm

/-- C10 witness: a division graph constructed from an already-aborted handle,
then subjected to an edge insertion, satisfies the inertness conclusions. -/
theorem divisionGraph_cancelled_inert_witness :
    (mkDGSys TG.empty true).dg = none ∧
    ((∀ tg, (mkDGSys tg true).dg = none) ∧
     (runSysFrom (mkDGSys TG.empty true) [.tgOp (.addEdge 1 2 3)]).dg = none ∧
     (∀ n, sysAddDivision
        (runSysFrom (mkDGSys TG.empty true) [.tgOp (.addEdge 1 2 3)]) n
        = (false, runSysFrom (mkDGSys TG.empty true) [.tgOp (.addEdge 1 2 3)])) ∧
     (∀ n, sysDeleteDivision
        (runSysFrom (mkDGSys TG.empty true) [.tgOp (.addEdge 1 2 3)]) n
        = (false, runSysFrom (mkDGSys TG.empty true) [.tgOp (.addEdge 1 2 3)])) ∧
     (∀ a b, sysLookupDivisionByEdge
        (runSysFrom (mkDGSys TG.empty true) [.tgOp (.addEdge 1 2 3)]) a b = []) ∧
     applySysOp (runSysFrom (mkDGSys TG.empty true) [.tgOp (.addEdge 1 2 3)])
        .abortSignal
        = runSysFrom (mkDGSys TG.empty true) [.tgOp (.addEdge 1 2 3)]) :=
  ⟨rfl, divisionGraph_cancelled_inert (mkDGSys TG.empty true) rfl
    [.tgOp (.addEdge 1 2 3)]⟩

/-! ### C1: the `where` contract of `modifySlice` growth -/


/-- C1 counterexample: growing slice `7` by `3` while `where` answers
`undefined` over the two candidates `[2, 3]`.  The claim says growth must halt
at the abutting node and return the remaining amount (`0` applied here, slice
unchanged on `[1]`); the code instead falls through
`where?.(choices) || choices[0]` to the first candidate and grows into edge
`(1,2)`, returning `3` with `along = [1, 2]`. -/
theorem modifySlice_where_undefined_grows :
    (growChoiceState.getNode 1).other.map (fun p => p.1) = [2, 3] ∧
    (growChoiceState.modifySlice 7 1 3 (some (fun _ _ => none))).map
      (fun r => (r.1, (alookup r.2.slices 7).map SliceD.along))
      = .ok (3, some [1, 2]) := by decide

/-! ### C5: `splitEdge` argument validation -/


/-- C5: `splitEdge` at the failing input `at = 0` (and at `at = -5`, which the
negative rule first rewrites to `0`).  The bounds guard is `at < 0 || at >=
length`, so `at = 0` slips through: the edge is deleted and then
`addEdge(a, split, 0)` raises the InvalidArgument length error instead of
`splitEdge` returning `false`.  The other boundary cases behave as claimed:
`at = length`, `at > length` and a too-negative `at` are refused with `false`
and no state change. -/
theorem splitEdge_at_zero_raises :
    splitEdge splitState 1 2 0 7 = .error "length must be +ve integer" ∧
    splitEdge splitState 1 2 (-5) 7 = .error "length must be +ve integer" ∧
    splitEdge splitState 1 2 5 7 = .ok (false, splitState) ∧
    splitEdge splitState 1 2 6 7 = .ok (false, splitState) ∧
    splitEdge splitState 1 2 (-6) 7 = .ok (false, splitState) := by decide

/-! ### C9: `disconnect` with a non-distinct triple -/

/-- C9 counterexample: `disconnect(1, 2, 1)` on a fresh graph returns the
boolean `false` (link absent) and leaves the graph unchanged; no
InvalidArgument failure is raised.  Only `connect` validates distinctness. -/
theorem disconnect_nondistinct_returns_false :
    TG.empty.disconnect 1 2 1 = .ok (false, TG.empty) := by decide

/-- C1 amended: what a grow decision actually does with the `where` answer.
From `whereContractState` (candidates `[3, 4]` at node `2`, first candidate
`3`), growing by `8`: a `where` that answers a candidate (`4`) enters it —
the only part of the claim that holds.  A `where` answering `undefined` or
the falsy key `0` does not halt growth: the engine picks the first candidate
`3` on the caller's behalf.  A `where` answer naming no edge (`9`) halts with
the shortfall (`5` of `8` applied).  A `where` answer naming an edge outside
the candidate list (`1`, the node just come from) is entered, appending a
neighbour outside the candidates. -/
theorem modifySlice_where_fallback_contract :
    whereContractState.throughOf 2 1 = [3, 4] ∧
    (whereContractState.modifySlice 7 1 8 (some (fun _ _ => some 4))).map
      (fun r => (r.1, (alookup r.2.slices 7).map SliceD.along))
      = .ok (8, some [1, 2, 4]) ∧
    (whereContractState.modifySlice 7 1 8 (some (fun _ _ => none))).map
      (fun r => (r.1, (alookup r.2.slices 7).map SliceD.along))
      = .ok (8, some [1, 2, 3]) ∧
    (whereContractState.modifySlice 7 1 8 (some (fun _ _ => some 0))).map
      (fun r => (r.1, (alookup r.2.slices 7).map SliceD.along))
      = .ok (8, some [1, 2, 3]) ∧
    (whereContractState.modifySlice 7 1 8 (some (fun _ _ => some 9))).map
      (fun r => (r.1, (alookup r.2.slices 7).map SliceD.along))
      = .ok (5, some [1, 2]) ∧
    (whereContractState.modifySlice 7 1 8 (some (fun _ _ => some 1))).map
      (fun r => (r.1, (alookup r.2.slices 7).map SliceD.along))
      = .ok (8, some [1, 2, 1]) := by decide

/-! ## C6: grow/shrink symmetry of `modifySlice` -/

theorem activeOff_setActiveOff (e : Int) (sl : SliceD) (v : Int) :
    activeOff e (setActiveOff e sl v) = v := by
  by_cases h : e = 1 <;> simp [activeOff, setActiveOff, h]

theorem otherOff_setActiveOff (e : Int) (sl : SliceD) (v : Int) :
    otherOff e (setActiveOff e sl v) = otherOff e sl := by
  by_cases h : e = 1 <;> simp [otherOff, setActiveOff, h]

theorem along_setActiveOff (e : Int) (sl : SliceD) (v : Int) :
    (setActiveOff e sl v).along = sl.along := by
  by_cases h : e = 1 <;> simp [setActiveOff, h]

theorem length_setActiveOff (e : Int) (sl : SliceD) (v : Int) :
    (setActiveOff e sl v).length = sl.length := by
  by_cases h : e = 1 <;> simp [setActiveOff, h]

theorem setActiveOff_setActiveOff (e : Int) (sl : SliceD) (v w : Int) :
    setActiveOff e (setActiveOff e sl v) w = setActiveOff e sl w := by
  by_cases h : e = 1 <;> simp [setActiveOff, h]

theorem setActiveOff_activeOff (e : Int) (sl : SliceD) :
    setActiveOff e sl (activeOff e sl) = sl := by
  by_cases h : e = 1 <;> simp [setActiveOff, activeOff, h]

theorem activeNodeId_setActiveOff (e : Int) (sl : SliceD) (v : Int) :
    activeNodeId e (setActiveOff e sl v) = activeNodeId e sl := by
  by_cases h : e = 1 <;> simp [activeNodeId, setActiveOff, h]

theorem prevNodeId_setActiveOff (e : Int) (sl : SliceD) (v : Int) :
    prevNodeId e (setActiveOff e sl v) = prevNodeId e sl := by
  by_cases h : e = 1 <;> simp [prevNodeId, setActiveOff, h]

theorem popActive_pushChoice (e : Int) (sl : SliceD) (c : Nat) (len : Int) :
    popActive e (pushChoice e sl c len) = setActiveOff e sl 0 := by
  by_cases h : e = 1 <;>
    simp [popActive, pushChoice, setActiveOff, h, List.dropLast_concat]

theorem activeNodeId_pushChoice (e : Int) (sl : SliceD) (c : Nat) (len : Int) :
    activeNodeId e (pushChoice e sl c len) = c := by
  by_cases h : e = 1 <;> simp [activeNodeId, pushChoice, h, List.getLast?_concat]

theorem prevNodeId_pushChoice (e : Int) (sl : SliceD) (c : Nat) (len : Int) :
    prevNodeId e (pushChoice e sl c len) = activeNodeId e sl := by
  by_cases h : e = 1 <;>
    simp [prevNodeId, pushChoice, activeNodeId, h, List.dropLast_concat]

theorem along_length_pushChoice (e : Int) (sl : SliceD) (c : Nat) (len : Int) :
    (pushChoice e sl c len).along.length = sl.along.length + 1 := by
  by_cases h : e = 1 <;> simp [pushChoice, h]

theorem otherOff_pushChoice (e : Int) (sl : SliceD) (c : Nat) (len : Int) :
    otherOff e (pushChoice e sl c len) = otherOff e sl := by
  by_cases h : e = 1 <;> simp [otherOff, pushChoice, h]

theorem activeOff_pushChoice (e : Int) (sl : SliceD) (c : Nat) (len : Int) :
    activeOff e (pushChoice e sl c len) = len := by
  by_cases h : e = 1 <;> simp [activeOff, pushChoice, h]

theorem length_pushChoice (e : Int) (sl : SliceD) (c : Nat) (len : Int) :
    (pushChoice e sl c len).length = sl.length := by
  by_cases h : e = 1 <;> simp [pushChoice, h]

theorem otherOff_popActive (e : Int) (sl : SliceD) :
    otherOff e (popActive e sl) = otherOff e sl := by
  by_cases h : e = 1 <;> simp [otherOff, popActive, h]

theorem length_popActive (e : Int) (sl : SliceD) :
    (popActive e sl).length = sl.length := by
  by_cases h : e = 1 <;> simp [popActive, h]

theorem activeOff_popActive (e : Int) (sl : SliceD) :
    activeOff e (popActive e sl) = 0 := by
  by_cases h : e = 1 <;> simp [activeOff, popActive, h]

theorem sideOf_delNodeSlice (tg : TG) (k id x y : Nat) :
    (tg.delNodeSlice k id).sideOf x y = tg.sideOf x y := by
  simp [TG.sideOf, getNode_delNodeSlice_other]

theorem sideOf_delEdgeSlice (tg : TG) (a b id x y : Nat) :
    (tg.delEdgeSlice a b id).sideOf x y = tg.sideOf x y := by
  simp [TG.sideOf, getNode_delEdgeSlice]

theorem sideOf_addNodeSlice (tg : TG) (k id x y : Nat) :
    (tg.addNodeSlice k id).sideOf x y = tg.sideOf x y := by
  simp [TG.sideOf, getNode_addNodeSlice_other]

theorem sideOf_addEdgeSlice (tg : TG) (a b id x y : Nat) :
    (tg.addEdgeSlice a b id).sideOf x y = tg.sideOf x y := by
  simp [TG.sideOf, getNode_addEdgeSlice]

theorem delNode_delEdge_comm (tg : TG) (a b id1 k id2 : Nat) :
    (tg.delEdgeSlice a b id1).delNodeSlice k id2
      = (tg.delNodeSlice k id2).delEdgeSlice a b id1 := rfl

theorem activeNodeId_lengthOverride (e : Int) (sl : SliceD) (L : Int) :
    activeNodeId e { sl with length := L } = activeNodeId e sl := rfl

theorem prevNodeId_lengthOverride (e : Int) (sl : SliceD) (L : Int) :
    prevNodeId e { sl with length := L } = prevNodeId e sl := rfl

theorem activeOff_lengthOverride (e : Int) (sl : SliceD) (L : Int) :
    activeOff e { sl with length := L } = activeOff e sl := rfl

theorem otherOff_lengthOverride (e : Int) (sl : SliceD) (L : Int) :
    otherOff e { sl with length := L } = otherOff e sl := rfl

theorem setActiveOff_lengthOverride (e : Int) (sl : SliceD) (L v : Int) :
    setActiveOff e { sl with length := L } v
      = { setActiveOff e sl v with length := L } := by
  by_cases h : e = 1 <;> simp [setActiveOff, h]

theorem popActive_lengthOverride (e : Int) (sl : SliceD) (L : Int) :
    popActive e { sl with length := L } = { popActive e sl with length := L } := by
  by_cases h : e = 1 <;> simp [popActive, h]

theorem shrinkRound_lengthIrrel (id : Nat) (e : Int) (tg : TG) (sl : SliceD)
    (b L : Int) :
    shrinkRound id e tg { sl with length := L } b
      = ((shrinkRound id e tg sl b).1,
         { (shrinkRound id e tg sl b).2.1 with length := L },
         (shrinkRound id e tg sl b).2.2) := by
  simp only [shrinkRound, activeNodeId_lengthOverride, prevNodeId_lengthOverride,
    activeOff_lengthOverride, otherOff_lengthOverride, setActiveOff_lengthOverride,
    popActive_lengthOverride, activeOff_setActiveOff]
  by_cases h2 : sl.along.length = 2 <;> (
    simp only [show ({ sl with length := L } : SliceD).along = sl.along from rfl, h2,
      if_pos, if_neg]
    split_ifs <;> rfl)

theorem shrinkLoop_lengthIrrel (id : Nat) (e : Int) :
    ∀ (fuel : Nat) (tg : TG) (sl : SliceD) (b L : Int),
      shrinkLoop id e fuel tg { sl with length := L } b
        = (shrinkLoop id e fuel tg sl b).map
            (fun p => (p.1, { p.2 with length := L })) := by
  intro fuel
  induction fuel with
  | zero =>
    intro tg sl b L
    rw [shrinkLoop]
    conv_rhs => rw [shrinkLoop]
    by_cases hb : b ≤ 0 <;> simp [hb, Except.map]
  | succ fuel ih =>
    intro tg sl b L
    rw [shrinkLoop]
    conv_rhs => rw [shrinkLoop]
    by_cases hb : b ≤ 0
    · simp [hb, Except.map]
    · simp only [hb, if_false]
      by_cases h1 : sl.along.length = 1
      · simp [show ({ sl with length := L } : SliceD).along = sl.along from rfl, h1,
          Except.map]
      · simp only [show ({ sl with length := L } : SliceD).along = sl.along from rfl,
          h1, if_false, activeNodeId_lengthOverride, prevNodeId_lengthOverride]
        cases hside : tg.sideOf (activeNodeId e sl) (prevNodeId e sl) with
        | none => simp [Except.map]
        | some w =>
          simp only []
          rw [shrinkRound_lengthIrrel, ih]

theorem shrinkLoop_mono (id : Nat) (e : Int) :
    ∀ (f : Nat) (tg : TG) (sl : SliceD) (b : Int) (r : TG × SliceD) (f' : Nat),
      f ≤ f' → shrinkLoop id e f tg sl b = .ok r →
      shrinkLoop id e f' tg sl b = .ok r := by
  intro f
  induction f with
  | zero =>
    intro tg sl b r f' hf h
    rw [shrinkLoop] at h
    rw [shrinkLoop.eq_def]
    dsimp only []
    split at h
    · rename_i hb
      rw [if_pos hb]
      exact h
    · simp at h
  | succ f ih =>
    intro tg sl b r f' hf h
    rw [shrinkLoop] at h
    rw [shrinkLoop.eq_def]
    dsimp only []
    split at h
    · rename_i hb
      rw [if_pos hb]
      exact h
    · rename_i hb
      rw [if_neg hb]
      cases f' with
      | zero => exact absurd hf (by omega)
      | succ f' =>
        simp only [] at h ⊢
        split at h
        · simp at h
        · rename_i h1
          rw [if_neg h1]
          split at h
          · simp at h
          · exact ih _ _ _ _ _ (by omega) h

theorem sideOf_of_other_eq (tg' tg : TG)
    (h : ∀ t, (tg'.getNode t).other = (tg.getNode t).other) (x y : Nat) :
    tg'.sideOf x y = tg.sideOf x y := by
  simp [TG.sideOf, h]

theorem growLoop_edgeLen (id : Nat) (e : Int) (wh : Option WhereFn) :
    ∀ (fuel cnt : Nat) (tg : TG) (sl : SliceD) (b : Int) (tg' : TG) (sl' : SliceD)
      (rem : Int),
      growLoop id e wh fuel cnt tg sl b = .ok (tg', sl', rem) →
      ∀ x y, (tg'.getEdge x y).length = (tg.getEdge x y).length := by
  intro fuel
  induction fuel with
  | zero => intro cnt tg sl b tg' sl' rem h x y; simp [growLoop] at h
  | succ fuel ih =>
    intro cnt tg sl b tg' sl' rem h x y
    simp only [growLoop] at h
    split at h
    · exact absurd h (by simp)
    · split at h
      · cases h
        exact growRound_edgeLen id e tg sl b x y
      · split at h
        · cases h
          exact growRound_edgeLen id e tg sl b x y
        · split at h
          · cases h
            exact growRound_edgeLen id e tg sl b x y
          · have := ih _ _ _ _ _ _ _ h x y
            rw [this]
            rw [getEdge_length_addEdgeSlice]
            exact growRound_edgeLen id e tg sl b x y

theorem shrinkLoop_edgeLen (id : Nat) (e : Int) :
    ∀ (fuel : Nat) (tg : TG) (sl : SliceD) (b : Int) (tg' : TG) (sl' : SliceD),
      shrinkLoop id e fuel tg sl b = .ok (tg', sl') →
      ∀ x y, (tg'.getEdge x y).length = (tg.getEdge x y).length := by
  intro fuel
  induction fuel with
  | zero =>
    intro tg sl b tg' sl' h x y
    rw [shrinkLoop] at h
    split at h
    · cases h; rfl
    · simp at h
  | succ fuel ih =>
    intro tg sl b tg' sl' h x y
    rw [shrinkLoop] at h
    split at h
    · cases h; rfl
    · simp only at h
      split at h
      · simp at h
      · split at h
        · simp at h
        · have := ih _ _ _ _ _ h x y
          rw [this]
          exact shrinkRound_edgeLen id e tg sl b x y

theorem alookup_aset_isSome {κ α : Type} [DecidableEq κ] (m : List (κ × α))
    (k k' : κ) (v : α) :
    (alookup (aset m k v) k').isSome
      = if k' = k then true else (alookup m k').isSome := by
  by_cases h : k' = k
  · subst h
    rw [alookup_aset_self]
    simp
  · rw [alookup_aset_ne _ _ _ _ h, if_neg h]

theorem ekey_eq_elim (x y a b : Nat) (h : ekey x y = ekey a b) :
    (x = a ∧ y = b) ∨ (x = b ∧ y = a) := by
  unfold ekey at h
  split_ifs at h
  · injection h with h1 h2
    exact Or.inl ⟨h1, h2⟩
  · injection h with h1 h2
    exact Or.inr ⟨h1, h2⟩
  · injection h with h1 h2
    exact Or.inr ⟨h2, h1⟩
  · injection h with h1 h2
    exact Or.inl ⟨h2, h1⟩

theorem edgeLen_empty : EdgeLen TG.empty := by
  intro x y hxy
  simp [TG.sideOf, TG.getNode, TG.empty, alookup] at hxy

theorem addEdge_getEdge_length (tg : TG) (l hi : Nat) (len : Int) (tg' : TG)
    (evs : List EdgeEv) (hok : tg.addEdge l hi len = .ok (true, tg', evs)) :
    ∀ x y, (tg'.getEdge x y).length =
      if ekey x y = ekey l hi then len else (tg.getEdge x y).length := by
  rw [TG.addEdge] at hok
  split at hok
  · cases hok
  · split at hok
    · cases hok
    · dsimp only [] at hok
      split at hok
      · cases hok
      · cases hok
        intro x y
        simp only [TG.getEdge, TG.putNode]
        by_cases hk : ekey x y = ekey l hi
        · rw [hk, alookup_aset_self, if_pos rfl]
          rfl
        · rw [alookup_aset_ne _ _ _ _ hk, if_neg hk]

theorem addEdge_edgeLen (tg : TG) (l hi : Nat) (len : Int) (r : Bool) (tg' : TG)
    (evs : List EdgeEv) (h : tg.addEdge l hi len = .ok (r, tg', evs))
    (hE : EdgeLen tg) : EdgeLen tg' := by
  cases r with
  | false =>
    rw [addEdge_false_eq tg l hi len tg' evs h]
    exact hE
  | true =>
    obtain ⟨hne, hnoside, hchar⟩ := addEdge_sideOf tg l hi len tg' evs h
    have hlen : 1 ≤ len := by
      rw [TG.addEdge] at h
      split at h
      · cases h
      · rename_i hl
        omega
    have hed := addEdge_getEdge_length tg l hi len tg' evs h
    intro x y hxy
    rw [hed x y]
    by_cases hk : ekey x y = ekey l hi
    · rw [if_pos hk]
      exact hlen
    · rw [if_neg hk]
      apply hE x y
      rw [hchar x y] at hxy
      have hx1 : ¬ (x = l ∧ y = hi) := by
        intro hc
        exact hk (by rw [hc.1, hc.2])
      have hx2 : ¬ (x = hi ∧ y = l) := by
        intro hc
        exact hk (by rw [hc.1, hc.2, ekey_comm])
      rw [if_neg hx1, if_neg hx2] at hxy
      exact hxy

theorem connect_edgeLen (tg : TG) (a t b : Nat) (r : Bool) (tg' : TG)
    (h : tg.connect a t b = .ok (r, tg')) (hE : EdgeLen tg) : EdgeLen tg' := by
  rw [TG.connect] at h
  split at h
  · cases h
  · dsimp only [] at h
    split at h
    case h_2 => cases h; exact hE
    case h_1 aThr bThr ha hb =>
      split at h
      · cases h
        exact hE
      · cases h
        intro x y hxy
        rw [show ∀ (n : NodeD), ((tg.putNode t n).getEdge x y) = tg.getEdge x y
          from fun n => rfl]
        apply hE x y
        revert hxy
        simp only [TG.sideOf, getNode_putNode]
        by_cases hx : x = t
        · subst hx
          rw [if_pos rfl]
          dsimp only []
          rw [alookup_aset_isSome, alookup_aset_isSome]
          by_cases hyb : y = b
          · subst hyb
            rw [if_pos rfl]
            intro
            rw [hb]
            rfl
          · rw [if_neg hyb]
            by_cases hya : y = a
            · subst hya
              rw [if_pos rfl]
              intro
              rw [ha]
              rfl
            · rw [if_neg hya]
              exact id
        · rw [if_neg hx]
          exact id

theorem disconnect_edgeLen (tg : TG) (a t b : Nat) (r : Bool) (tg' : TG)
    (h : tg.disconnect a t b = .ok (r, tg')) (hE : EdgeLen tg) : EdgeLen tg' := by
  rw [TG.disconnect] at h
  dsimp only [] at h
  split at h
  · cases h
    exact hE
  · rename_i aThr ha
    split at h
    · cases h
      exact hE
    · split at h
      · cases h
      · split at h
        · cases h
          exact hE
        · split at h
          · cases h
          · rename_i bThr hb
            cases h
            intro x y hxy
            rw [show ∀ (n : NodeD), ((tg.putNode t n).getEdge x y) = tg.getEdge x y
              from fun n => rfl]
            apply hE x y
            revert hxy
            simp only [TG.sideOf, getNode_putNode]
            by_cases hx : x = t
            · subst hx
              rw [if_pos rfl]
              dsimp only []
              rw [alookup_aset_isSome, alookup_aset_isSome]
              by_cases hyb : y = b
              · subst hyb
                rw [if_pos rfl]
                intro
                by_cases hba : y = a
                · subst hba
                  rw [ha]
                  rfl
                · rw [show alookup (tg.getNode x).other y
                      = alookup (aset (tg.getNode x).other a (sDel aThr y)) y
                      from (alookup_aset_ne _ _ _ _ hba).symm, hb]
                  rfl
              · rw [if_neg hyb]
                by_cases hya : y = a
                · subst hya
                  rw [if_pos rfl]
                  intro
                  rw [ha]
                  rfl
                · rw [if_neg hya]
                  exact id
            · rw [if_neg hx]
              exact id

theorem deleteEdge_getEdge_len (tg : TG) (a b : Nat) (thr : List Nat)
    (hside : tg.sideOf a b = some thr)
    (hocc : csTotal (tg.getEdge a b).slices = 0) :
    ∀ x y, ekey x y ≠ ekey a b →
      (((tg.deleteEdge a b).2.1).getEdge x y).length
        = (tg.getEdge x y).length := by
  rw [TG.deleteEdge]
  rw [show alookup (tg.getNode a).other b = tg.sideOf a b from rfl, hside]
  dsimp only []
  rw [if_neg (by simp [hocc])]
  intro x y hk
  simp only [TG.getEdge, TG.putNode]
  rw [alookup_adel_ne _ _ _ hk]

theorem deleteEdge_edgeLen (tg : TG) (a b : Nat) (hwf : WFtg tg)
    (hE : EdgeLen tg) : EdgeLen (tg.deleteEdge a b).2.1 := by
  cases hside : tg.sideOf a b with
  | none =>
    rw [deleteEdge_no_side tg a b hside]
    exact hE
  | some thr =>
    by_cases hocc : csTotal (tg.getEdge a b).slices = 0
    · have hne : a ≠ b := by
        intro hc
        subst hc
        rw [hwf.2.1 a] at hside
        cases hside
      obtain ⟨h1, h2, hchar⟩ := deleteEdge_ok_char tg a b thr hside hocc hne
      intro x y hxy
      have hk : ekey x y ≠ ekey a b := by
        intro hkk
        rcases ekey_eq_elim x y a b hkk with ⟨h1x, h1y⟩ | ⟨h1x, h1y⟩
        · rw [hchar x y, if_pos h1x, h1y, if_pos rfl] at hxy
          simp at hxy
        · have hxna : ¬ x = a := by
            rw [h1x]
            exact Ne.symm hne
          rw [hchar x y, if_neg hxna, if_pos h1x, h1y, if_pos rfl] at hxy
          simp at hxy
      rw [deleteEdge_getEdge_len tg a b thr hside hocc x y hk]
      apply hE x y
      rw [hchar x y] at hxy
      by_cases hxa : x = a
      · subst hxa
        rw [if_pos rfl] at hxy
        by_cases hyb : y = b
        · rw [if_pos hyb] at hxy
          simp at hxy
        · rw [if_neg hyb] at hxy
          rw [Option.isSome_map'] at hxy
          exact hxy
      · rw [if_neg hxa] at hxy
        by_cases hxb : x = b
        · subst hxb
          rw [if_pos rfl] at hxy
          by_cases hya : y = a
          · rw [if_pos hya] at hxy
            simp at hxy
          · rw [if_neg hya] at hxy
            rw [Option.isSome_map'] at hxy
            exact hxy
        · rw [if_neg hxb] at hxy
          exact hxy
    · rw [deleteEdge_occupied tg a b thr hside hocc]
      exact hE

theorem addSlice_getEdge (tg : TG) (id onN x y : Nat) :
    ((tg.addSlice id onN).2).getEdge x y = tg.getEdge x y := by
  rw [TG.addSlice]
  split
  · rfl
  · dsimp only []
    rw [getEdge_addNodeSlice]
    rfl

theorem foldl_getEdge_length {α : Type} (f : TG → α → TG)
    (hf : ∀ tg x a b, ((f tg x).getEdge a b).length = (tg.getEdge a b).length) :
    ∀ (l : List α) (tg : TG) (a b : Nat),
      ((l.foldl f tg).getEdge a b).length = (tg.getEdge a b).length := by
  intro l
  induction l with
  | nil => intro tg a b; rfl
  | cons x xs ih =>
    intro tg a b
    rw [List.foldl_cons, ih, hf]

theorem modifySlice_edgeLen (tg : TG) (id : Nat) (e : Int) (by0 : Int)
    (wh : Option WhereFn) (r : Int) (tg' : TG)
    (h : tg.modifySlice id e by0 wh = .ok (r, tg')) :
    ∀ x y, (tg'.getEdge x y).length = (tg.getEdge x y).length := by
  intro x y
  rw [TG.modifySlice] at h
  cases hsl : alookup tg.slices id with
  | none => rw [hsl] at h; cases h; rfl
  | some slice =>
    rw [hsl] at h
    dsimp only [] at h
    by_cases h0 : (if by0 < 0 then max by0 (-slice.length) else by0) = 0
    · rw [if_pos h0] at h
      cases h
      rfl
    · rw [if_neg h0] at h
      by_cases h1 : (if by0 < 0 then max by0 (-slice.length) else by0) < 0
      · rw [if_pos h1] at h
        cases hs : shrinkLoop id e
            (-(if by0 < 0 then max by0 (-slice.length) else by0)).toNat tg slice
            (-(if by0 < 0 then max by0 (-slice.length) else by0)) with
        | error s => rw [hs] at h; cases h
        | ok p =>
          rw [hs] at h
          obtain ⟨tg1, sl1⟩ := p
          dsimp only [] at h
          repeat' split at h
          all_goals cases h
          all_goals simpa [TG.getEdge] using
            shrinkLoop_edgeLen id e _ _ _ _ _ _ hs x y
      · rw [if_neg h1] at h
        cases hg : growLoop id e wh
            ((if by0 < 0 then max by0 (-slice.length) else by0).toNat + 1) 0 tg slice
            (if by0 < 0 then max by0 (-slice.length) else by0) with
        | error s => rw [hg] at h; cases h
        | ok p =>
          rw [hg] at h
          obtain ⟨tg1, sl1, rem⟩ := p
          dsimp only [] at h
          cases h
          simpa [TG.getEdge] using
            growLoop_edgeLen id e wh _ _ _ _ _ _ _ _ hg x y

theorem deleteSlice_edgeLen (tg : TG) (id : Nat) (r : Bool) (tg' : TG)
    (h : tg.deleteSlice id = .ok (r, tg')) :
    ∀ x y, (tg'.getEdge x y).length = (tg.getEdge x y).length := by
  intro x y
  rw [TG.deleteSlice] at h
  split at h
  · cases h
    rfl
  · rename_i slice hsl
    dsimp only [] at h
    split at h
    · split at h
      · cases h
      · split at h
        · cases h
        · split at h
          · cases h
          · split at h
            · cases h
            · cases h
              rw [show ∀ (g : TG) s, (({ g with slices := s } : TG).getEdge x y)
                    = g.getEdge x y from fun g s => rfl]
              rw [getEdge_delNodeSlice]
    · cases h
      rw [show ∀ (g : TG) s, (({ g with slices := s } : TG).getEdge x y)
            = g.getEdge x y from fun g s => rfl]
      rw [foldl_getEdge_length _
        (fun g n a b => congrArg EdgeD.length (getEdge_delNodeSlice g n id a b))]
      rw [foldl_getEdge_length _
        (fun g i a b => getEdge_length_delEdgeSlice g
          ((slice.along.get? i).getD 0) ((slice.along.get? (i + 1)).getD 0) id a b)]

theorem applyOp_edgeLen (tg : TG) (op : Op) (hwf : WFtg tg) (hE : EdgeLen tg) :
    EdgeLen (applyOp tg op) := by
  cases op with
  | addEdge l hi len =>
    rw [applyOp]
    split
    · rename_i r tg1 evs heq
      exact addEdge_edgeLen tg l hi len r tg1 evs heq hE
    · exact hE
  | deleteEdge a b =>
    show EdgeLen (tg.deleteEdge a b).2.1
    exact deleteEdge_edgeLen tg a b hwf hE
  | connect a t b =>
    rw [applyOp]
    split
    · rename_i r tg1 heq
      exact connect_edgeLen tg a t b r tg1 heq hE
    · exact hE
  | disconnect a t b =>
    rw [applyOp]
    split
    · rename_i r tg1 heq
      exact disconnect_edgeLen tg a t b r tg1 heq hE
    · exact hE
  | addSlice id onN =>
    show EdgeLen (tg.addSlice id onN).2
    intro x y hxy
    rw [addSlice_getEdge]
    apply hE x y
    rw [← sideOf_of_other_eq _ tg (fun t => addSlice_other tg id onN t) x y]
    exact hxy
  | modifySlice id e b wh =>
    rw [applyOp]
    split
    · rename_i r tg1 heq
      intro x y hxy
      rw [modifySlice_edgeLen tg id e b wh r tg1 heq x y]
      apply hE x y
      rw [← sideOf_of_other_eq _ tg (modifySlice_other tg id e b wh r tg1 heq) x y]
      exact hxy
    · exact hE
  | deleteSlice id =>
    rw [applyOp]
    split
    · rename_i r tg1 heq
      intro x y hxy
      rw [deleteSlice_edgeLen tg id r tg1 heq x y]
      apply hE x y
      rw [← sideOf_of_other_eq _ tg (deleteSlice_other tg id r tg1 heq) x y]
      exact hxy
    · exact hE

theorem edgeLen_runOps (ops : List Op) : EdgeLen (runOps ops) := by
  rw [runOps]
  have h : ∀ tg, WFtg tg → EdgeLen tg →
      WFtg (ops.foldl applyOp tg) ∧ EdgeLen (ops.foldl applyOp tg) := by
    induction ops with
    | nil => intro tg hw he; exact ⟨hw, he⟩
    | cons op rest ih =>
      intro tg hw he
      exact ih _ (applyOp_wf tg op hw) (applyOp_edgeLen tg op hw he)
  exact (h TG.empty wf_empty edgeLen_empty).2

theorem shrink_restore (id : Nat) (e : Int) (tgC : TG) (sl : SliceD)
    (a extra : Int) (f2 : Nat) (res : TG × SliceD)
    (h2 : 2 ≤ sl.along.length)
    (hside : (tgC.sideOf (activeNodeId e sl) (prevNodeId e sl)).isSome)
    (ha : 1 ≤ a)
    (hv : 0 ≤ activeOff e sl - a)
    (hoo : 0 ≤ (if sl.along.length = 2 then otherOff e sl else 0))
    (hbound : activeOff e sl + (if sl.along.length = 2 then otherOff e sl else 0)
      ≤ (tgC.getEdge (activeNodeId e sl) (prevNodeId e sl)).length)
    (hex : 0 ≤ extra)
    (hcont : shrinkLoop id e f2
      (if activeOff e sl - a = 0 then
        (if activeOff e sl
            = (tgC.getEdge (activeNodeId e sl) (prevNodeId e sl)).length then
          tgC.delEdgeSlice (activeNodeId e sl) (prevNodeId e sl) id
        else tgC).delNodeSlice (activeNodeId e sl) id
       else
        (if activeOff e sl
            = (tgC.getEdge (activeNodeId e sl) (prevNodeId e sl)).length then
          tgC.delEdgeSlice (activeNodeId e sl) (prevNodeId e sl) id
        else tgC))
      (if activeOff e sl
          = (tgC.getEdge (activeNodeId e sl) (prevNodeId e sl)).length then
        popActive e sl
       else sl)
      extra = .ok res) :
    shrinkLoop id e (a.toNat + f2) tgC (setActiveOff e sl (activeOff e sl - a))
      (a + extra) = .ok res := by
  have hblt : ¬ (a + extra ≤ 0) := by omega
  obtain ⟨m, hm⟩ : ∃ m, a.toNat + f2 = m + 1 := ⟨a.toNat + f2 - 1, by omega⟩
  have hmge : f2 ≤ m := by omega
  rw [hm, shrinkLoop.eq_def]
  dsimp only []
  rw [if_neg hblt]
  rw [if_neg (by rw [along_setActiveOff]; omega)]
  obtain ⟨w, hw⟩ := Option.isSome_iff_exists.mp hside
  rw [activeNodeId_setActiveOff, prevNodeId_setActiveOff, hw]
  set n := activeNodeId e sl with hn
  set p := prevNodeId e sl with hp
  set L := (tgC.getEdge n p).length with hL
  set off := activeOff e sl with hoff
  set oo2 := (if sl.along.length = 2 then otherOff e sl else 0) with hoo2
  by_cases hpop : off = L
  · -- the slice stands at the far boundary: restoring pops the node
    have hoo0 : oo2 = 0 := by omega
    have hround : shrinkRound id e tgC (setActiveOff e sl (off - a)) (a + extra)
        = ((if off - a = 0 then
              (tgC.delEdgeSlice n p id).delNodeSlice n id
            else tgC.delEdgeSlice n p id),
           popActive e sl, extra) := by
      simp only [shrinkRound, activeNodeId_setActiveOff, prevNodeId_setActiveOff,
        activeOff_setActiveOff, otherOff_setActiveOff, along_setActiveOff,
        setActiveOff_setActiveOff, ← hn, ← hp, ← hL, ← hoff, ← hoo2]
      have hmax1 : (if sl.along.length = 2
          then L - (off - a) - otherOff e sl else L - (off - a))
          = (L - (off - a)) - oo2 := by
        rw [hoo2]
        split_ifs <;> omega
      rw [hmax1, hoo0]
      have hamt : min (L - (off - a) - 0) (a + extra) = a := by
        rw [← hpop]
        omega
      rw [hamt]
      have hoffr : off - a + a = off := by omega
      rw [hoffr, if_pos hpop]
      have hsl1 : setActiveOff e sl off = sl := setActiveOff_activeOff e sl
      rw [hsl1]
      have hx : a + extra - a = extra := by omega
      rw [hx]
    rw [hround]
    dsimp only []
    simp only [if_pos hpop] at hcont
    exact shrinkLoop_mono id e f2 _ _ _ _ m hmge hcont
  · -- interior restore: the round puts the offset back without popping
    have hoff_lt : off < L := by omega
    simp only [if_neg hpop] at hcont
    by_cases hex0 : extra = 0
    · subst hex0
      have hround : shrinkRound id e tgC (setActiveOff e sl (off - a)) (a + 0)
          = ((if off - a = 0 then tgC.delNodeSlice n id else tgC), sl, 0) := by
        simp only [shrinkRound, activeNodeId_setActiveOff, prevNodeId_setActiveOff,
          activeOff_setActiveOff, otherOff_setActiveOff, along_setActiveOff,
          setActiveOff_setActiveOff, ← hn, ← hp, ← hL, ← hoff, ← hoo2]
        have hmax1 : (if sl.along.length = 2
            then L - (off - a) - otherOff e sl else L - (off - a))
            = (L - (off - a)) - oo2 := by
          rw [hoo2]
          split_ifs <;> omega
        rw [hmax1]
        have hamt : min (L - (off - a) - oo2) (a + 0) = a := by omega
        rw [hamt]
        have hoffr : off - a + a = off := by omega
        rw [hoffr, if_neg hpop]
        have hsl1 : setActiveOff e sl off = sl := setActiveOff_activeOff e sl
        rw [hsl1]
        have hx : a + 0 - a = 0 := by omega
        rw [hx]
      rw [hround]
      dsimp only []
      have hres : res = ((if off - a = 0 then tgC.delNodeSlice n id else tgC), sl) := by
        rw [shrinkLoop.eq_def] at hcont
        dsimp only [] at hcont
        rw [if_pos (by omega : (0:Int) ≤ 0)] at hcont
        cases hcont
        rfl
      rw [hres, shrinkLoop.eq_def]
      dsimp only []
      rw [if_pos (by omega : (0:Int) ≤ 0)]
    · -- positive continuation: the first continuation round merges with ours
      have hexpos : 0 < extra := by omega
      cases f2 with
      | zero =>
        rw [shrinkLoop.eq_def] at hcont
        dsimp only [] at hcont
        rw [if_neg (by omega : ¬ extra ≤ 0)] at hcont
        cases hcont
      | succ f2 =>
        rw [shrinkLoop.eq_def] at hcont
        dsimp only [] at hcont
        rw [if_neg (by omega : ¬ extra ≤ 0)] at hcont
        rw [if_neg (by omega : ¬ sl.along.length = 1)] at hcont
        simp only [← hn, ← hp] at hcont
        have htgS : (if off - a = 0 then tgC.delNodeSlice n id else tgC).sideOf n p
            = tgC.sideOf n p := by
          split_ifs with hwa
          · rw [sideOf_delNodeSlice]
          · rfl
        rw [htgS, hw] at hcont
        have hlenS : ((if off - a = 0 then tgC.delNodeSlice n id
              else tgC).getEdge n p).length = L := by
          split_ifs with hwa
          · rw [getEdge_delNodeSlice]
          · rfl
        set A2 := min (L - off - oo2) extra with hA2
        have hround2 : shrinkRound id e
            (if off - a = 0 then tgC.delNodeSlice n id else tgC) sl extra
            = ((if off + A2 = L then
                  (if off - a = 0 then tgC.delNodeSlice n id
                    else tgC).delEdgeSlice n p id
                else (if off - a = 0 then tgC.delNodeSlice n id else tgC)),
               (if off + A2 = L then popActive e (setActiveOff e sl (off + A2))
                else setActiveOff e sl (off + A2)),
               extra - A2) := by
          simp only [shrinkRound, activeNodeId_setActiveOff, prevNodeId_setActiveOff,
            activeOff_setActiveOff, otherOff_setActiveOff, along_setActiveOff,
            setActiveOff_setActiveOff, ← hn, ← hp, ← hoff, ← hoo2, hlenS]
          have hmax1 : (if sl.along.length = 2
              then L - off - otherOff e sl else L - off)
              = (L - off) - oo2 := by
            rw [hoo2]
            split_ifs <;> omega
          rw [hmax1, ← hA2]
          rw [if_neg (by omega : ¬ off = 0)]
          first
          | rfl
          | (split_ifs <;> rfl)
        rw [hround2] at hcont
        dsimp only [] at hcont
        have hround : shrinkRound id e tgC (setActiveOff e sl (off - a)) (a + extra)
            = ((if off + A2 = L then
                  (if off - a = 0 then tgC.delNodeSlice n id
                    else tgC).delEdgeSlice n p id
                else (if off - a = 0 then tgC.delNodeSlice n id else tgC)),
               (if off + A2 = L then popActive e (setActiveOff e sl (off + A2))
                else setActiveOff e sl (off + A2)),
               extra - A2) := by
          simp only [shrinkRound, activeNodeId_setActiveOff, prevNodeId_setActiveOff,
            activeOff_setActiveOff, otherOff_setActiveOff, along_setActiveOff,
            setActiveOff_setActiveOff, ← hn, ← hp, ← hL, ← hoff, ← hoo2]
          have hmax1 : (if sl.along.length = 2
              then L - (off - a) - otherOff e sl else L - (off - a))
              = (L - (off - a)) - oo2 := by
            rw [hoo2]
            split_ifs <;> omega
          rw [hmax1]
          have hamt : min (L - (off - a) - oo2) (a + extra) = a + A2 := by
            rw [hA2]
            rcases le_total (L - off - oo2) extra with hc | hc
            · rw [min_eq_left hc, min_eq_left (by omega)]
              omega
            · rw [min_eq_right hc, min_eq_right (by omega)]
          rw [hamt]
          have hoffr : off - a + (a + A2) = off + A2 := by omega
          rw [hoffr]
          have hx : a + extra - (a + A2) = extra - A2 := by omega
          rw [hx]
          split_ifs <;> first | rfl | rw [delNode_delEdge_comm]
        rw [hround]
        dsimp only []
        exact shrinkLoop_mono id e (f2 + 1 - 1) _ _ _ _ m (by omega) hcont

theorem growRound_spec (id : Nat) (e : Int) (tg : TG) (sl : SliceD) (b : Int) :
    growRound id e tg sl b
      = ((if min (activeOff e sl) b > 0 ∧ activeOff e sl - min (activeOff e sl) b = 0
          then tg.addNodeSlice (activeNodeId e sl) id else tg),
         setActiveOff e sl (activeOff e sl - min (activeOff e sl) b),
         b - min (activeOff e sl) b) := by
  simp only [growRound, activeOff_setActiveOff]

theorem pushChoice_along_ne (e : Int) (sl : SliceD) (c : Nat) (len : Int) :
    (pushChoice e sl c len).along ≠ [] := by
  by_cases h : e = 1 <;> simp [pushChoice, h]

theorem consume_conclusion (id : Nat) (e : Int) (tg T1 : TG) (sl : SliceD) (b : Int)
    (hb : 0 < b)
    (h2 : 2 ≤ sl.along.length)
    (hoo0 : 0 ≤ otherOff e sl)
    (hsid : (tg.sideOf (activeNodeId e sl) (prevNodeId e sl)).isSome)
    (hbnd : activeOff e sl + (if sl.along.length = 2 then otherOff e sl else 0)
      ≤ (tg.getEdge (activeNodeId e sl) (prevNodeId e sl)).length)
    (hoffb : b ≤ activeOff e sl)
    (hotherT1 : ∀ t, (T1.getNode t).other = (tg.getNode t).other)
    (hlenT1 : ∀ x y, (T1.getEdge x y).length = (tg.getEdge x y).length) :
    (0 ≤ (0:Int) ∧ (0:Int) ≤ b) ∧
    ((0:Int) = b → setActiveOff e sl (activeOff e sl - b) = sl ∧ T1 = tg) ∧
    (1 ≤ activeOff e sl → (0:Int) < b) ∧
    ∃ tgS : TG,
      (∀ t, (tgS.getNode t).other = (tg.getNode t).other) ∧
      (∀ x y, (tgS.getEdge x y).length = (tg.getEdge x y).length) ∧
      ∀ (f2 : Nat) (extra : Int) (res : TG × SliceD), 0 ≤ extra →
        shrinkLoop id e f2 tgS
          (if 2 ≤ sl.along.length ∧ activeOff e sl
              = (tg.getEdge (activeNodeId e sl) (prevNodeId e sl)).length
           then popActive e sl else sl) extra = .ok res →
        shrinkLoop id e ((b - 0).toNat + f2) T1
          (setActiveOff e sl (activeOff e sl - b)) ((b - 0) + extra) = .ok res := by
  refine ⟨⟨le_refl 0, by omega⟩, fun hcc => absurd hcc (by omega),
    fun _ => hb, ?_⟩
  refine ⟨(if activeOff e sl - b = 0 then
      (if activeOff e sl
          = (T1.getEdge (activeNodeId e sl) (prevNodeId e sl)).length then
        T1.delEdgeSlice (activeNodeId e sl) (prevNodeId e sl) id
      else T1).delNodeSlice (activeNodeId e sl) id
    else
      (if activeOff e sl
          = (T1.getEdge (activeNodeId e sl) (prevNodeId e sl)).length then
        T1.delEdgeSlice (activeNodeId e sl) (prevNodeId e sl) id
      else T1)), ?_, ?_, ?_⟩
  · intro t
    split_ifs <;>
      simp [getNode_delNodeSlice_other, getNode_delEdgeSlice, hotherT1]
  · intro x y
    split_ifs <;>
      simp [getEdge_delNodeSlice, getEdge_length_delEdgeSlice, hlenT1]
  · intro f2 extra res hex hcont
    simp only [sub_zero]
    have hLeq := hlenT1 (activeNodeId e sl) (prevNodeId e sl)
    refine shrink_restore id e T1 sl b extra f2 res h2 ?_ (by omega) (by omega)
      (by split_ifs <;> omega) ?_ hex ?_
    · rw [sideOf_of_other_eq T1 tg hotherT1]
      exact hsid
    · rw [hLeq]
      exact hbnd
    · have hres : (if activeOff e sl
          = (T1.getEdge (activeNodeId e sl) (prevNodeId e sl)).length then
          popActive e sl else sl)
          = (if 2 ≤ sl.along.length ∧ activeOff e sl
              = (tg.getEdge (activeNodeId e sl) (prevNodeId e sl)).length
            then popActive e sl else sl) := by
        rw [hLeq]
        by_cases hc : activeOff e sl
            = (tg.getEdge (activeNodeId e sl) (prevNodeId e sl)).length
        · rw [if_pos hc, if_pos ⟨h2, hc⟩]
        · rw [if_neg hc, if_neg (fun hcc => hc hcc.2)]
      rw [hres]
      exact hcont

theorem halt_conclusion (id : Nat) (e : Int) (tg T1 : TG) (sl : SliceD) (b : Int)
    (hb : 0 < b)
    (hL : ∀ x y, (tg.sideOf x y).isSome → 1 ≤ (tg.getEdge x y).length)
    (hne : sl.along ≠ [])
    (hv1 : sl.along.length = 1 → activeOff e sl = 0 ∧ otherOff e sl = 0)
    (hv2 : 2 ≤ sl.along.length →
      0 ≤ activeOff e sl ∧ 0 ≤ otherOff e sl ∧
      (tg.sideOf (activeNodeId e sl) (prevNodeId e sl)).isSome ∧
      activeOff e sl + (if sl.along.length = 2 then otherOff e sl else 0)
        ≤ (tg.getEdge (activeNodeId e sl) (prevNodeId e sl)).length)
    (ho0 : 0 ≤ activeOff e sl)
    (hofflt : activeOff e sl < b)
    (hotherT1 : ∀ t, (T1.getNode t).other = (tg.getNode t).other)
    (hlenT1 : ∀ x y, (T1.getEdge x y).length = (tg.getEdge x y).length)
    (hT1eq : activeOff e sl = 0 → T1 = tg) :
    (0 ≤ b - activeOff e sl ∧ b - activeOff e sl ≤ b) ∧
    (b - activeOff e sl = b → setActiveOff e sl 0 = sl ∧ T1 = tg) ∧
    (1 ≤ activeOff e sl → b - activeOff e sl < b) ∧
    ∃ tgS : TG,
      (∀ t, (tgS.getNode t).other = (tg.getNode t).other) ∧
      (∀ x y, (tgS.getEdge x y).length = (tg.getEdge x y).length) ∧
      ∀ (f2 : Nat) (extra : Int) (res : TG × SliceD), 0 ≤ extra →
        shrinkLoop id e f2 tgS
          (if 2 ≤ sl.along.length ∧ activeOff e sl
              = (tg.getEdge (activeNodeId e sl) (prevNodeId e sl)).length
           then popActive e sl else sl) extra = .ok res →
        shrinkLoop id e ((b - (b - activeOff e sl)).toNat + f2) T1
          (setActiveOff e sl 0) ((b - (b - activeOff e sl)) + extra) = .ok res := by
  refine ⟨⟨by omega, by omega⟩, fun hrb => ?_, fun _ => by omega, ?_⟩
  · have h0 : activeOff e sl = 0 := by omega
    refine ⟨?_, hT1eq h0⟩
    rw [← h0, setActiveOff_activeOff]
  · by_cases hoffz : activeOff e sl = 0
    · refine ⟨tg, fun t => rfl, fun x y => rfl, ?_⟩
      intro f2 extra res hex hcont
      have hz1 : b - (b - activeOff e sl) = 0 := by omega
      rw [hz1]
      simp only [Int.toNat_zero, Nat.zero_add, zero_add]
      rw [hT1eq hoffz]
      rw [← hoffz, setActiveOff_activeOff]
      have hres : (if 2 ≤ sl.along.length ∧ activeOff e sl
          = (tg.getEdge (activeNodeId e sl) (prevNodeId e sl)).length
          then popActive e sl else sl) = sl := by
        by_cases h2c : 2 ≤ sl.along.length
        · obtain ⟨_, _, hsid, _⟩ := hv2 h2c
          have := hL _ _ hsid
          rw [if_neg ?_]
          rintro ⟨_, hcc⟩
          omega
        · rw [if_neg (fun hcc => h2c hcc.1)]
      rw [hres] at hcont
      exact hcont
    · have hoffpos : 1 ≤ activeOff e sl := by omega
      have h2 : 2 ≤ sl.along.length := by
        by_cases hl1 : sl.along.length = 1
        · have := (hv1 hl1).1
          omega
        · have := List.length_pos.mpr hne
          omega
      obtain ⟨_, hoo2v, hsid, hbnd⟩ := hv2 h2
      refine ⟨(if activeOff e sl - activeOff e sl = 0 then
          (if activeOff e sl
              = (T1.getEdge (activeNodeId e sl) (prevNodeId e sl)).length then
            T1.delEdgeSlice (activeNodeId e sl) (prevNodeId e sl) id
          else T1).delNodeSlice (activeNodeId e sl) id
        else
          (if activeOff e sl
              = (T1.getEdge (activeNodeId e sl) (prevNodeId e sl)).length then
            T1.delEdgeSlice (activeNodeId e sl) (prevNodeId e sl) id
          else T1)), ?_, ?_, ?_⟩
      · intro t
        split_ifs <;>
          simp [getNode_delNodeSlice_other, getNode_delEdgeSlice, hotherT1]
      · intro x y
        split_ifs <;>
          simp [getEdge_delNodeSlice, getEdge_length_delEdgeSlice, hlenT1]
      · intro f2 extra res hex hcont
        have hLeq := hlenT1 (activeNodeId e sl) (prevNodeId e sl)
        have hres : (if activeOff e sl
            = (T1.getEdge (activeNodeId e sl) (prevNodeId e sl)).length then
            popActive e sl else sl)
            = (if 2 ≤ sl.along.length ∧ activeOff e sl
                = (tg.getEdge (activeNodeId e sl) (prevNodeId e sl)).length
              then popActive e sl else sl) := by
          rw [hLeq]
          by_cases hc : activeOff e sl
              = (tg.getEdge (activeNodeId e sl) (prevNodeId e sl)).length
          · rw [if_pos hc, if_pos ⟨h2, hc⟩]
          · rw [if_neg hc, if_neg (fun hcc => hc hcc.2)]
        have hrestore := shrink_restore id e T1 sl (activeOff e sl) extra f2 res h2
          (by rw [sideOf_of_other_eq T1 tg hotherT1]; exact hsid)
          hoffpos (by omega) (by split_ifs <;> omega)
          (by rw [hLeq]; exact hbnd) hex
          (by rw [hres]; exact hcont)
        rw [Int.sub_self] at hrestore
        have hfE : (activeOff e sl).toNat + f2
            = (b - (b - activeOff e sl)).toNat + f2 := by omega
        have haE : activeOff e sl + extra
            = (b - (b - activeOff e sl)) + extra := by omega
        rw [hfE, haE] at hrestore
        exact hrestore

theorem push_conclusion (id : Nat) (e : Int) (wh : Option WhereFn) (fuel : Nat)
    (ih : ∀ (cnt : Nat) (tg : TG) (sl : SliceD) (b : Int) (tgG : TG) (slG : SliceD)
      (rem : Int),
      growLoop id e wh fuel cnt tg sl b = .ok (tgG, slG, rem) →
      0 < b →
      (∀ x y, (tg.sideOf x y).isSome → (tg.sideOf y x).isSome) →
      (∀ x y, (tg.sideOf x y).isSome → 1 ≤ (tg.getEdge x y).length) →
      sl.along ≠ [] →
      (sl.along.length = 1 → activeOff e sl = 0 ∧ otherOff e sl = 0) →
      (2 ≤ sl.along.length →
        0 ≤ activeOff e sl ∧ 0 ≤ otherOff e sl ∧
        (tg.sideOf (activeNodeId e sl) (prevNodeId e sl)).isSome ∧
        activeOff e sl + (if sl.along.length = 2 then otherOff e sl else 0)
          ≤ (tg.getEdge (activeNodeId e sl) (prevNodeId e sl)).length) →
      (0 ≤ rem ∧ rem ≤ b) ∧
      (rem = b → slG = sl ∧ tgG = tg) ∧
      (1 ≤ activeOff e sl → rem < b) ∧
      ∃ tgS : TG,
        (∀ t, (tgS.getNode t).other = (tg.getNode t).other) ∧
        (∀ x y, (tgS.getEdge x y).length = (tg.getEdge x y).length) ∧
        ∀ (f2 : Nat) (extra : Int) (res : TG × SliceD), 0 ≤ extra →
          shrinkLoop id e f2 tgS
            (if 2 ≤ sl.along.length ∧ activeOff e sl
                = (tg.getEdge (activeNodeId e sl) (prevNodeId e sl)).length
             then popActive e sl else sl) extra = .ok res →
          shrinkLoop id e ((b - rem).toNat + f2) tgG slG ((b - rem) + extra)
            = .ok res)
    (cnt2 : Nat) (tg T1 : TG) (sl : SliceD) (b : Int) (tgG : TG) (slG : SliceD)
    (rem : Int) (c : Nat) (thr : List Nat)
    (hotherT1 : ∀ t, (T1.getNode t).other = (tg.getNode t).other)
    (hlenT1 : ∀ x y, (T1.getEdge x y).length = (tg.getEdge x y).length)
    (hthr : alookup (T1.getNode (activeNodeId e sl)).other c = some thr)
    (hgrow : growLoop id e wh fuel cnt2
      (T1.addEdgeSlice (activeNodeId e sl) c id)
      (pushChoice e (setActiveOff e sl 0) c
        ((T1.getEdge (activeNodeId e sl) c).length))
      (b - activeOff e sl) = .ok (tgG, slG, rem))
    (hb : 0 < b)
    (hS : ∀ x y, (tg.sideOf x y).isSome → (tg.sideOf y x).isSome)
    (hL : ∀ x y, (tg.sideOf x y).isSome → 1 ≤ (tg.getEdge x y).length)
    (hne : sl.along ≠ [])
    (hv1 : sl.along.length = 1 → activeOff e sl = 0 ∧ otherOff e sl = 0)
    (hv2 : 2 ≤ sl.along.length →
      0 ≤ activeOff e sl ∧ 0 ≤ otherOff e sl ∧
      (tg.sideOf (activeNodeId e sl) (prevNodeId e sl)).isSome ∧
      activeOff e sl + (if sl.along.length = 2 then otherOff e sl else 0)
        ≤ (tg.getEdge (activeNodeId e sl) (prevNodeId e sl)).length)
    (ho0 : 0 ≤ activeOff e sl)
    (hofflt : activeOff e sl < b) :
    (0 ≤ rem ∧ rem ≤ b) ∧
    (rem = b → slG = sl ∧ tgG = tg) ∧
    (1 ≤ activeOff e sl → rem < b) ∧
    ∃ tgS : TG,
      (∀ t, (tgS.getNode t).other = (tg.getNode t).other) ∧
      (∀ x y, (tgS.getEdge x y).length = (tg.getEdge x y).length) ∧
      ∀ (f2 : Nat) (extra : Int) (res : TG × SliceD), 0 ≤ extra →
        shrinkLoop id e f2 tgS
          (if 2 ≤ sl.along.length ∧ activeOff e sl
              = (tg.getEdge (activeNodeId e sl) (prevNodeId e sl)).length
           then popActive e sl else sl) extra = .ok res →
        shrinkLoop id e ((b - rem).toNat + f2) tgG slG ((b - rem) + extra)
          = .ok res := by
  have hsideT1 := sideOf_of_other_eq T1 tg hotherT1
  have hsnc : (tg.sideOf (activeNodeId e sl) c).isSome := by
    rw [← hsideT1]
    rw [show T1.sideOf (activeNodeId e sl) c
        = alookup (T1.getNode (activeNodeId e sl)).other c from rfl, hthr]
    rfl
  have hlennc : 1 ≤ (T1.getEdge (activeNodeId e sl) c).length := by
    rw [hlenT1]
    exact hL _ _ hsnc
  have hotherP : ∀ t,
      ((T1.addEdgeSlice (activeNodeId e sl) c id).getNode t).other
        = (tg.getNode t).other := by
    intro t
    rw [show ((T1.addEdgeSlice (activeNodeId e sl) c id).getNode t)
        = T1.getNode t from getNode_addEdgeSlice T1 _ _ _ _]
    exact hotherT1 t
  have hlenP : ∀ x y,
      ((T1.addEdgeSlice (activeNodeId e sl) c id).getEdge x y).length
        = (tg.getEdge x y).length := by
    intro x y
    rw [getEdge_length_addEdgeSlice]
    exact hlenT1 x y
  have hsideP := sideOf_of_other_eq _ tg hotherP
  have hb1pos : 0 < b - activeOff e sl := by omega
  have halongS : (setActiveOff e sl 0).along = sl.along := along_setActiveOff e sl 0
  have halongP : (pushChoice e (setActiveOff e sl 0) c
      ((T1.getEdge (activeNodeId e sl) c).length)).along.length
      = sl.along.length + 1 := by
    rw [along_length_pushChoice, halongS]
  have hlpos : 1 ≤ sl.along.length := List.length_pos.mpr hne
  have hooz : otherOff e (setActiveOff e sl 0) = otherOff e sl :=
    otherOff_setActiveOff e sl 0
  have hLL : ((T1.addEdgeSlice (activeNodeId e sl) c id).getEdge c
      (activeNodeId e sl)).length = (T1.getEdge (activeNodeId e sl) c).length := by
    rw [getEdge_length_addEdgeSlice, getEdge_length_comm]
  have hPcond : activeOff e (pushChoice e (setActiveOff e sl 0) c
        ((T1.getEdge (activeNodeId e sl) c).length))
      = ((T1.addEdgeSlice (activeNodeId e sl) c id).getEdge
          (activeNodeId e (pushChoice e (setActiveOff e sl 0) c
            ((T1.getEdge (activeNodeId e sl) c).length)))
          (prevNodeId e (pushChoice e (setActiveOff e sl 0) c
            ((T1.getEdge (activeNodeId e sl) c).length)))).length := by
    rw [activeOff_pushChoice, activeNodeId_pushChoice, prevNodeId_pushChoice,
      activeNodeId_setActiveOff, hLL]
  have ihr := ih cnt2 (T1.addEdgeSlice (activeNodeId e sl) c id)
    (pushChoice e (setActiveOff e sl 0) c
      ((T1.getEdge (activeNodeId e sl) c).length))
    (b - activeOff e sl) tgG slG rem hgrow hb1pos
    (by
      intro x y hxy
      rw [hsideP x y] at hxy
      rw [hsideP y x]
      exact hS x y hxy)
    (by
      intro x y hxy
      rw [hsideP x y] at hxy
      rw [hlenP]
      exact hL x y hxy)
    (pushChoice_along_ne e _ c _)
    (by
      intro hcc
      rw [halongP] at hcc
      omega)
    (by
      intro _
      refine ⟨?_, ?_, ?_, ?_⟩
      · rw [activeOff_pushChoice]
        omega
      · rw [otherOff_pushChoice, hooz]
        by_cases hl1 : sl.along.length = 1
        · rw [(hv1 hl1).2]
        · exact (hv2 (by omega)).2.1
      · rw [activeNodeId_pushChoice, prevNodeId_pushChoice, activeNodeId_setActiveOff]
        rw [hsideP]
        exact hS _ _ hsnc
      · rw [activeOff_pushChoice, activeNodeId_pushChoice, prevNodeId_pushChoice,
          activeNodeId_setActiveOff, hLL]
        by_cases hl2 : (pushChoice e (setActiveOff e sl 0) c
            ((T1.getEdge (activeNodeId e sl) c).length)).along.length = 2
        · rw [if_pos hl2, otherOff_pushChoice, hooz]
          have hl1 : sl.along.length = 1 := by
            rw [halongP] at hl2
            omega
          rw [(hv1 hl1).2]
          omega
        · rw [if_neg hl2]
          omega)
  obtain ⟨⟨hr0, hrb1⟩, _hremb, hprog, tgS1, hoS1, hlS1, hSlide1⟩ := ihr
  have hremlt : rem < b - activeOff e sl := by
    refine hprog ?_
    rw [activeOff_pushChoice]
    omega
  refine ⟨⟨by omega, by omega⟩, fun hcc => absurd hcc (by omega),
    fun _ => by omega, ?_⟩
  have hRESPcond : 2 ≤ (pushChoice e (setActiveOff e sl 0) c
      ((T1.getEdge (activeNodeId e sl) c).length)).along.length := by
    rw [halongP]
    omega
  have hRESP : (if 2 ≤ (pushChoice e (setActiveOff e sl 0) c
        ((T1.getEdge (activeNodeId e sl) c).length)).along.length ∧
        activeOff e (pushChoice e (setActiveOff e sl 0) c
          ((T1.getEdge (activeNodeId e sl) c).length))
        = ((T1.addEdgeSlice (activeNodeId e sl) c id).getEdge
            (activeNodeId e (pushChoice e (setActiveOff e sl 0) c
              ((T1.getEdge (activeNodeId e sl) c).length)))
            (prevNodeId e (pushChoice e (setActiveOff e sl 0) c
              ((T1.getEdge (activeNodeId e sl) c).length)))).length
      then popActive e (pushChoice e (setActiveOff e sl 0) c
        ((T1.getEdge (activeNodeId e sl) c).length))
      else pushChoice e (setActiveOff e sl 0) c
        ((T1.getEdge (activeNodeId e sl) c).length))
      = setActiveOff e sl 0 := by
    rw [if_pos ⟨hRESPcond, hPcond⟩, popActive_pushChoice, setActiveOff_setActiveOff]
  by_cases hoffz : activeOff e sl = 0
  · refine ⟨tgS1, ?_, ?_, ?_⟩
    · intro t
      rw [hoS1 t, hotherP t]
    · intro x y
      rw [hlS1 x y, hlenP x y]
    · intro f2 extra res hex hcont
      have hres : (if 2 ≤ sl.along.length ∧ activeOff e sl
          = (tg.getEdge (activeNodeId e sl) (prevNodeId e sl)).length
          then popActive e sl else sl) = sl := by
        by_cases h2c : 2 ≤ sl.along.length
        · obtain ⟨_, _, hsid, _⟩ := hv2 h2c
          have := hL _ _ hsid
          rw [if_neg ?_]
          rintro ⟨_, hcc⟩
          omega
        · rw [if_neg (fun hcc => h2c hcc.1)]
      rw [hres] at hcont
      have hcont2 : shrinkLoop id e f2 tgS1
          (if 2 ≤ (pushChoice e (setActiveOff e sl 0) c
              ((T1.getEdge (activeNodeId e sl) c).length)).along.length ∧
            activeOff e (pushChoice e (setActiveOff e sl 0) c
              ((T1.getEdge (activeNodeId e sl) c).length))
            = ((T1.addEdgeSlice (activeNodeId e sl) c id).getEdge
                (activeNodeId e (pushChoice e (setActiveOff e sl 0) c
                  ((T1.getEdge (activeNodeId e sl) c).length)))
                (prevNodeId e (pushChoice e (setActiveOff e sl 0) c
                  ((T1.getEdge (activeNodeId e sl) c).length)))).length
          then popActive e (pushChoice e (setActiveOff e sl 0) c
            ((T1.getEdge (activeNodeId e sl) c).length))
          else pushChoice e (setActiveOff e sl 0) c
            ((T1.getEdge (activeNodeId e sl) c).length))
          extra = .ok res := by
        rw [hRESP]
        rw [← hoffz, setActiveOff_activeOff]
        exact hcont
      have hres1 := hSlide1 f2 extra res hex hcont2
      have hfE : (b - activeOff e sl - rem).toNat + f2 = (b - rem).toNat + f2 := by
        omega
      have haE : (b - activeOff e sl - rem) + extra = (b - rem) + extra := by omega
      rw [hfE, haE] at hres1
      exact hres1
  · have hoffpos : 1 ≤ activeOff e sl := by omega
    have h2 : 2 ≤ sl.along.length := by
      by_cases hl1 : sl.along.length = 1
      · have := (hv1 hl1).1
        omega
      · omega
    obtain ⟨_, hoo2v, hsid, hbnd⟩ := hv2 h2
    have hsidS1 : (tgS1.sideOf (activeNodeId e sl) (prevNodeId e sl)).isSome := by
      rw [sideOf_of_other_eq tgS1 tg (fun t => (hoS1 t).trans (hotherP t))]
      exact hsid
    have hLS1eq : (tgS1.getEdge (activeNodeId e sl) (prevNodeId e sl)).length
        = (tg.getEdge (activeNodeId e sl) (prevNodeId e sl)).length :=
      (hlS1 _ _).trans (hlenP _ _)
    refine ⟨(if activeOff e sl - activeOff e sl = 0 then
        (if activeOff e sl
            = (tgS1.getEdge (activeNodeId e sl) (prevNodeId e sl)).length then
          tgS1.delEdgeSlice (activeNodeId e sl) (prevNodeId e sl) id
        else tgS1).delNodeSlice (activeNodeId e sl) id
      else
        (if activeOff e sl
            = (tgS1.getEdge (activeNodeId e sl) (prevNodeId e sl)).length then
          tgS1.delEdgeSlice (activeNodeId e sl) (prevNodeId e sl) id
        else tgS1)), ?_, ?_, ?_⟩
    · intro t
      split_ifs <;>
        simp [getNode_delNodeSlice_other, getNode_delEdgeSlice, hoS1, hotherP]
    · intro x y
      split_ifs <;>
        simp [getEdge_delNodeSlice, getEdge_length_delEdgeSlice, hlS1, hlenP]
    · intro f2 extra res hex hcont
      have hres : (if activeOff e sl
          = (tgS1.getEdge (activeNodeId e sl) (prevNodeId e sl)).length then
          popActive e sl else sl)
          = (if 2 ≤ sl.along.length ∧ activeOff e sl
              = (tg.getEdge (activeNodeId e sl) (prevNodeId e sl)).length
            then popActive e sl else sl) := by
        rw [hLS1eq]
        by_cases hc : activeOff e sl
            = (tg.getEdge (activeNodeId e sl) (prevNodeId e sl)).length
        · rw [if_pos hc, if_pos ⟨h2, hc⟩]
        · rw [if_neg hc, if_neg (fun hcc => hc hcc.2)]
      have hrestore := shrink_restore id e tgS1 sl (activeOff e sl) extra f2 res h2
        hsidS1 hoffpos (by omega) (by split_ifs <;> omega)
        (by rw [hLS1eq]; exact hbnd) hex
        (by rw [hres]; exact hcont)
      rw [Int.sub_self] at hrestore
      have hcont2 : shrinkLoop id e ((activeOff e sl).toNat + f2) tgS1
          (if 2 ≤ (pushChoice e (setActiveOff e sl 0) c
              ((T1.getEdge (activeNodeId e sl) c).length)).along.length ∧
            activeOff e (pushChoice e (setActiveOff e sl 0) c
              ((T1.getEdge (activeNodeId e sl) c).length))
            = ((T1.addEdgeSlice (activeNodeId e sl) c id).getEdge
                (activeNodeId e (pushChoice e (setActiveOff e sl 0) c
                  ((T1.getEdge (activeNodeId e sl) c).length)))
                (prevNodeId e (pushChoice e (setActiveOff e sl 0) c
                  ((T1.getEdge (activeNodeId e sl) c).length)))).length
          then popActive e (pushChoice e (setActiveOff e sl 0) c
            ((T1.getEdge (activeNodeId e sl) c).length))
          else pushChoice e (setActiveOff e sl 0) c
            ((T1.getEdge (activeNodeId e sl) c).length))
          (activeOff e sl + extra) = .ok res := by
        rw [hRESP]
        exact hrestore
      have hres1 := hSlide1 ((activeOff e sl).toNat + f2) (activeOff e sl + extra)
        res (by omega) hcont2
      have hfE : (b - activeOff e sl - rem).toNat + ((activeOff e sl).toNat + f2)
          = (b - rem).toNat + f2 := by omega
      have haE : (b - activeOff e sl - rem) + (activeOff e sl + extra)
          = (b - rem) + extra := by omega
      rw [hfE, haE] at hres1
      exact hres1

theorem grow_shrink_master (id : Nat) (e : Int) (wh : Option WhereFn) :
    ∀ (fuel cnt : Nat) (tg : TG) (sl : SliceD) (b : Int) (tgG : TG) (slG : SliceD)
      (rem : Int),
      growLoop id e wh fuel cnt tg sl b = .ok (tgG, slG, rem) →
      0 < b →
      (∀ x y, (tg.sideOf x y).isSome → (tg.sideOf y x).isSome) →
      (∀ x y, (tg.sideOf x y).isSome → 1 ≤ (tg.getEdge x y).length) →
      sl.along ≠ [] →
      (sl.along.length = 1 → activeOff e sl = 0 ∧ otherOff e sl = 0) →
      (2 ≤ sl.along.length →
        0 ≤ activeOff e sl ∧ 0 ≤ otherOff e sl ∧
        (tg.sideOf (activeNodeId e sl) (prevNodeId e sl)).isSome ∧
        activeOff e sl + (if sl.along.length = 2 then otherOff e sl else 0)
          ≤ (tg.getEdge (activeNodeId e sl) (prevNodeId e sl)).length) →
      (0 ≤ rem ∧ rem ≤ b) ∧
      (rem = b → slG = sl ∧ tgG = tg) ∧
      (1 ≤ activeOff e sl → rem < b) ∧
      ∃ tgS : TG,
        (∀ t, (tgS.getNode t).other = (tg.getNode t).other) ∧
        (∀ x y, (tgS.getEdge x y).length = (tg.getEdge x y).length) ∧
        ∀ (f2 : Nat) (extra : Int) (res : TG × SliceD), 0 ≤ extra →
          shrinkLoop id e f2 tgS
            (if 2 ≤ sl.along.length ∧ activeOff e sl
                = (tg.getEdge (activeNodeId e sl) (prevNodeId e sl)).length
             then popActive e sl else sl) extra = .ok res →
          shrinkLoop id e ((b - rem).toNat + f2) tgG slG ((b - rem) + extra)
            = .ok res := by
  intro fuel
  induction fuel with
  | zero =>
    intro cnt tg sl b tgG slG rem hgrow
    simp [growLoop] at hgrow
  | succ fuel ih =>
    intro cnt tg sl b tgG slG rem hgrow hb hS hL hne hv1 hv2
    have hlen1 : 1 ≤ sl.along.length := List.length_pos.mpr hne
    have ho0 : 0 ≤ activeOff e sl := by
      by_cases hl1 : sl.along.length = 1
      · rw [(hv1 hl1).1]
      · exact (hv2 (by omega)).1
    simp only [growLoop] at hgrow
    rw [growRound_spec] at hgrow
    dsimp only [] at hgrow
    split at hgrow
    · exact absurd hgrow (by simp)
    · rename_i hb1n
      split at hgrow
      case isTrue hb10 =>
        cases hgrow
        have hoffb : b ≤ activeOff e sl := by
          rcases le_total (activeOff e sl) b with hc | hc
          · rw [min_eq_left hc] at hb10
            omega
          · exact hc
        have hamt : min (activeOff e sl) b = b := min_eq_right hoffb
        have h2 : 2 ≤ sl.along.length := by
          by_cases hl1 : sl.along.length = 1
          · have := (hv1 hl1).1
            omega
          · omega
        obtain ⟨_, hoo0, hsid, hbnd⟩ := hv2 h2
        rw [hamt]
        refine consume_conclusion id e tg _ sl b hb h2 hoo0 hsid hbnd hoffb ?_ ?_
        · intro t
          split_ifs
          · rw [getNode_addNodeSlice_other]
          · rfl
        · intro x y
          split_ifs
          · rw [getEdge_addNodeSlice]
          · rfl
      case isFalse hb10 =>
        have hofflt : activeOff e sl < b := by
          by_contra hcc
          push_neg at hcc
          rw [min_eq_right hcc] at hb10
          omega
        have hamt : min (activeOff e sl) b = activeOff e sl :=
          min_eq_left (by omega)
        split at hgrow
        · cases hgrow
          rw [hamt, Int.sub_self]
          refine halt_conclusion id e tg _ sl b hb hL hne hv1 hv2 ho0 hofflt
            ?_ ?_ ?_
          · intro t
            split_ifs
            · rw [getNode_addNodeSlice_other]
            · rfl
          · intro x y
            split_ifs
            · rw [getEdge_addNodeSlice]
            · rfl
          · intro h0
            exact if_neg (fun hc => by omega)
        · split at hgrow
          · cases hgrow
            rw [hamt, Int.sub_self]
            refine halt_conclusion id e tg _ sl b hb hL hne hv1 hv2 ho0 hofflt
              ?_ ?_ ?_
            · intro t
              split_ifs
              · rw [getNode_addNodeSlice_other]
              · rfl
            · intro x y
              split_ifs
              · rw [getEdge_addNodeSlice]
              · rfl
            · intro h0
              exact if_neg (fun hc => by omega)
          · rename_i c hc xscr thr hthr
            rw [hamt, Int.sub_self] at hgrow hthr
            rw [activeNodeId_setActiveOff] at hgrow hthr
            refine push_conclusion id e wh fuel ih _ tg _ sl b tgG slG rem c thr
              ?_ ?_ hthr hgrow hb hS hL hne hv1 hv2 ho0 hofflt
            · intro t
              split_ifs
              · rw [getNode_addNodeSlice_other]
              · rfl
            · intro x y
              split_ifs
              · rw [getEdge_addNodeSlice]
              · rfl

theorem growRound_length (id : Nat) (e : Int) (tg : TG) (sl : SliceD) (b : Int) :
    ((growRound id e tg sl b).2.1).length = sl.length := by
  rw [growRound_spec]
  exact length_setActiveOff e sl _

theorem growLoop_sliceLength (id : Nat) (e : Int) (wh : Option WhereFn) :
    ∀ (fuel cnt : Nat) (tg : TG) (sl : SliceD) (b : Int) (tg' : TG) (sl' : SliceD)
      (rem : Int),
      growLoop id e wh fuel cnt tg sl b = .ok (tg', sl', rem) →
      sl'.length = sl.length := by
  intro fuel
  induction fuel with
  | zero => intro cnt tg sl b tg' sl' rem h; simp [growLoop] at h
  | succ fuel ih =>
    intro cnt tg sl b tg' sl' rem h
    simp only [growLoop] at h
    split at h
    · exact absurd h (by simp)
    · split at h
      · cases h
        exact growRound_length id e tg sl b
      · split at h
        · cases h
          exact growRound_length id e tg sl b
        · split at h
          · cases h
            exact growRound_length id e tg sl b
          · have := ih _ _ _ _ _ _ _ h
            rw [this, length_pushChoice, growRound_length]

theorem getNode_slicesOverride (tg : TG) (S : List (Nat × SliceD)) (t : Nat) :
    (({ tg with slices := S } : TG).getNode t) = tg.getNode t := rfl

theorem getEdge_slicesOverride (tg : TG) (S : List (Nat × SliceD)) (a b : Nat) :
    (({ tg with slices := S } : TG).getEdge a b) = tg.getEdge a b := rfl

theorem delEdgeSlice_slicesOverride (tg : TG) (S : List (Nat × SliceD))
    (a b id : Nat) :
    (({ tg with slices := S } : TG).delEdgeSlice a b id)
      = { tg.delEdgeSlice a b id with slices := S } := rfl

theorem delNodeSlice_slicesOverride (tg : TG) (S : List (Nat × SliceD))
    (k id : Nat) :
    (({ tg with slices := S } : TG).delNodeSlice k id)
      = { tg.delNodeSlice k id with slices := S } := rfl

theorem shrinkRound_slicesIrrel (id : Nat) (e : Int) (tg : TG)
    (S : List (Nat × SliceD)) (sl : SliceD) (b : Int) :
    shrinkRound id e { tg with slices := S } sl b
      = ({ (shrinkRound id e tg sl b).1 with slices := S },
         (shrinkRound id e tg sl b).2.1,
         (shrinkRound id e tg sl b).2.2) := by
  simp only [shrinkRound, getEdge_slicesOverride, delEdgeSlice_slicesOverride,
    delNodeSlice_slicesOverride]
  split_ifs <;> rfl

theorem sideOf_slicesOverride (tg : TG) (S : List (Nat × SliceD)) (x y : Nat) :
    (({ tg with slices := S } : TG).sideOf x y) = tg.sideOf x y := rfl

theorem shrinkLoop_slicesIrrel (id : Nat) (e : Int) :
    ∀ (fuel : Nat) (tg : TG) (S : List (Nat × SliceD)) (sl : SliceD) (b : Int),
      shrinkLoop id e fuel { tg with slices := S } sl b
        = (shrinkLoop id e fuel tg sl b).map
            (fun p => ({ p.1 with slices := S }, p.2)) := by
  intro fuel
  induction fuel with
  | zero =>
    intro tg S sl b
    rw [shrinkLoop]
    conv_rhs => rw [shrinkLoop]
    by_cases hb : b ≤ 0 <;> simp [hb, Except.map]
  | succ fuel ih =>
    intro tg S sl b
    rw [shrinkLoop]
    conv_rhs => rw [shrinkLoop]
    by_cases hb : b ≤ 0
    · simp [hb, Except.map]
    · simp only [hb, if_false]
      by_cases h1 : sl.along.length = 1
      · simp [h1, Except.map]
      · simp only [h1, if_false, sideOf_slicesOverride]
        cases hside : tg.sideOf (activeNodeId e sl) (prevNodeId e sl) with
        | none => simp [Except.map]
        | some w =>
          simp only []
          rw [shrinkRound_slicesIrrel, ih]

theorem grow_shrink_roundtrip_aux (ops : List Op) (id : Nat) (e : Int) (k : Int)
    (sl : SliceD) (wh wh2 : Option WhereFn) (k' : Int) (tgG : TG)
    (hk : 0 < k)
    (hsl : (runOps ops).lookupSlice id = some sl)
    (hvalid : SliceValidB (runOps ops) e sl = true)
    (hgrow : (runOps ops).modifySlice id e k wh = .ok (k', tgG)) :
    ∃ tgS : TG, tgG.modifySlice id e (-k') wh2 = .ok (-k', tgS) ∧
      tgS.lookupSlice id = some sl := by
  have hV := of_decide_eq_true hvalid
  obtain ⟨hne, hlen0, hshape0, hshape2, hgeom⟩ := hV
  obtain ⟨hsym, hnself, hthru⟩ := wf_runOps ops
  have hS : ∀ x y, ((runOps ops).sideOf x y).isSome →
      ((runOps ops).sideOf y x).isSome := fun x y h => (hsym x y).mp h
  have hL := edgeLen_runOps ops
  have hv1 : sl.along.length = 1 → activeOff e sl = 0 ∧ otherOff e sl = 0 := by
    intro h1
    rw [if_pos h1] at hgeom
    constructor
    · rw [activeOff]
      split_ifs
      · exact hgeom.1
      · exact hgeom.2
    · rw [otherOff]
      split_ifs
      · exact hgeom.2
      · exact hgeom.1
  have hv2s : 2 ≤ sl.along.length →
      0 ≤ activeOff e sl ∧ 0 ≤ otherOff e sl ∧
      ((runOps ops).sideOf (activeNodeId e sl) (prevNodeId e sl)).isSome ∧
      activeOff e sl
        < ((runOps ops).getEdge (activeNodeId e sl) (prevNodeId e sl)).length ∧
      (sl.along.length = 2 →
        activeOff e sl + otherOff e sl
          ≤ ((runOps ops).getEdge (activeNodeId e sl)
              (prevNodeId e sl)).length) := by
    intro h2
    rw [if_neg (by omega)] at hgeom
    exact hgeom
  have hv2 : 2 ≤ sl.along.length →
      0 ≤ activeOff e sl ∧ 0 ≤ otherOff e sl ∧
      ((runOps ops).sideOf (activeNodeId e sl) (prevNodeId e sl)).isSome ∧
      activeOff e sl + (if sl.along.length = 2 then otherOff e sl else 0)
        ≤ ((runOps ops).getEdge (activeNodeId e sl) (prevNodeId e sl)).length := by
    intro h2
    obtain ⟨a1, a2, a3, a4, a5⟩ := hv2s h2
    refine ⟨a1, a2, a3, ?_⟩
    by_cases hl2 : sl.along.length = 2
    · rw [if_pos hl2]
      exact a5 hl2
    · rw [if_neg hl2]
      omega
  rw [TG.modifySlice] at hgrow
  rw [show alookup (runOps ops).slices id = some sl from hsl] at hgrow
  dsimp only [] at hgrow
  rw [if_neg (by omega : ¬ k < 0)] at hgrow
  rw [if_neg (by omega : ¬ k = 0)] at hgrow
  rw [if_neg (by omega : ¬ k < 0)] at hgrow
  cases hgl : growLoop id e wh (k.toNat + 1) 0 (runOps ops) sl k with
  | error s =>
    rw [hgl] at hgrow
    cases hgrow
  | ok p =>
    rw [hgl] at hgrow
    obtain ⟨tg1, sl1, rem⟩ := p
    dsimp only [] at hgrow
    cases hgrow
    obtain ⟨⟨hr0, hrb⟩, hremb, _hprog, tgS0, hoS0, hlS0, hSlide⟩ :=
      grow_shrink_master id e wh (k.toNat + 1) 0 (runOps ops) sl k tg1 sl1 rem
        hgl hk hS hL hne hv1 hv2
    have hlen1eq : sl1.length = sl.length :=
      growLoop_sliceLength id e wh _ _ _ _ _ _ _ _ hgl
    have hRES : (if 2 ≤ sl.along.length ∧ activeOff e sl
        = ((runOps ops).getEdge (activeNodeId e sl) (prevNodeId e sl)).length
        then popActive e sl else sl) = sl := by
      by_cases h2c : 2 ≤ sl.along.length
      · obtain ⟨a1, a2, a3, a4, a5⟩ := hv2s h2c
        rw [if_neg ?_]
        rintro ⟨_, hcc⟩
        omega
      · rw [if_neg (fun hcc => h2c hcc.1)]
    by_cases hch : rem = k
    · obtain ⟨hsleq, htgeq⟩ := hremb hch
      have hz : k - rem = 0 := by omega
      rw [hz, hsleq, htgeq]
      have hsl2 : ({ sl with length := sl.length + (0:Int) } : SliceD) = sl := by
        rw [show sl.length + (0:Int) = sl.length from by omega]
      rw [hsl2]
      rw [aset_self _ _ _ hsl]
      refine ⟨runOps ops, ?_, hsl⟩
      rw [show (-(0:Int)) = 0 from by omega]
      rw [TG.modifySlice]
      rw [show alookup (runOps ops).slices id = some sl from hsl]
      dsimp only []
      rw [if_neg (by omega : ¬ (0:Int) < 0)]
      rw [if_pos rfl]
    · have hchpos : 0 < k - rem := by omega
      have hcont0 : shrinkLoop id e 0 tgS0
          (if 2 ≤ sl.along.length ∧ activeOff e sl
            = ((runOps ops).getEdge (activeNodeId e sl) (prevNodeId e sl)).length
           then popActive e sl else sl) 0
          = .ok (tgS0, (if 2 ≤ sl.along.length ∧ activeOff e sl
            = ((runOps ops).getEdge (activeNodeId e sl) (prevNodeId e sl)).length
           then popActive e sl else sl)) := by
        rw [shrinkLoop.eq_def]
        dsimp only []
        rw [if_pos (le_refl (0:Int))]
      have hrun := hSlide 0 0 _ (le_refl 0) hcont0
      rw [Nat.add_zero, add_zero, hRES] at hrun
      rw [TG.modifySlice]
      rw [show alookup ({ tg1 with
          slices := aset tg1.slices id
            { sl1 with length := sl1.length + (k - rem) } } : TG).slices id
        = some { sl1 with length := sl1.length + (k - rem) }
        from alookup_aset_self _ _ _]
      dsimp only []
      rw [if_pos (by omega : -(k - rem) < 0)]
      rw [show max (-(k - rem))
          (-((sl1.length + (k - rem)))) = -(k - rem) from by omega]
      rw [if_neg (by omega : ¬ -(k - rem) = 0)]
      rw [if_pos (by omega : -(k - rem) < 0)]
      rw [show -(-(k - rem)) = k - rem from by omega]
      rw [shrinkLoop_lengthIrrel, shrinkLoop_slicesIrrel, hrun]
      dsimp only [Except.map]
      rw [show (sl1.length + (k - rem)) + -(k - rem) = sl.length from by omega]
      rw [show ({ sl with length := sl.length } : SliceD) = sl from rfl]
      rw [if_neg (fun hcc : sl.along.length = 0 =>
        hne (List.length_eq_zero.mp hcc))]
      rw [if_neg ?_]
      rw [if_neg ?_]
      rw [if_neg (by omega : ¬ sl.length < 0)]
      · exact ⟨_, rfl, alookup_aset_self _ _ _⟩
      · rintro ⟨hl0, hgt⟩
        exact hgt (hshape2 hl0)
      · rintro ⟨hl0, hgt⟩
        exact hgt (hshape0 hl0)

/-- C6: grow/shrink symmetry.  From any reachable state holding a valid slice
record `sl`, a grow `modifySlice(id, e, +k)` that returns the amount `k'`
actually applied, followed by `modifySlice(id, e, -k')`, restores the slice
record exactly — same `along`, same `front` and `back` offsets, same length —
whatever `where` oracles the two calls use (the shrink never consults one). -/
theorem modifySlice_grow_shrink_roundtrip (ops : List Op) (id : Nat) (e : Int)
    (k : Int) (sl : SliceD) (wh wh2 : Option WhereFn) (k' : Int) (tgG : TG)
    (hk : 0 < k)
    (hsl : (runOps ops).lookupSlice id = some sl)
    (hvalid : SliceValidB (runOps ops) e sl = true)
    (hgrow : (runOps ops).modifySlice id e k wh = .ok (k', tgG)) :
    ∃ tgS : TG, tgG.modifySlice id e (-k') wh2 = .ok (-k', tgS) ∧
      tgS.lookupSlice id = some sl :=
  grow_shrink_roundtrip_aux ops id e k sl wh wh2 k' tgG hk hsl hvalid hgrow

/-- C6 witness at the degenerate boundary case: the reachable slice
`⟨[2, 3], 7, 3, 0⟩` has `front + back` equal to the length of its one edge
(`10`) and zero length, yet is valid; growing it by `2` at end `1` applies
all `2`, and shrinking by `-2` restores the record `⟨[2, 3], 7, 3, 0⟩`
exactly. -/
theorem modifySlice_grow_shrink_roundtrip_witness :
    (0:Int) < 2 ∧
    ∃ tgS : TG, c6Grown.modifySlice 5 1 (-2) none = .ok (-2, tgS) ∧
      tgS.lookupSlice 5 = some ⟨[2, 3], 7, 3, 0⟩ :=
  ⟨by decide,
   modifySlice_grow_shrink_roundtrip c6Ops 5 1 2 ⟨[2, 3], 7, 3, 0⟩ none none 2
     c6Grown (by decide) (by decide) (by decide) (by decide)⟩
